import Mathlib

/-!
# Payment service: lifecycle and refund reconciliation

A shallow embedding of the Go payment service (`payment-service/`): the two
in-memory repositories, the validation and currency helpers, and the
`PaymentService` / `RefundService` operations, followed by theorems about them.

Modelling conventions

* A Go `string` is a Lean `String`; a Go `error` is an `Option String` holding
  the message (`none` is `nil`); a `(value, error)` result is an
  `Except String value`.
* Amounts come in two renderings.  In the first part (`models`, `utils`,
  `repositories`, `services`) a `float64` amount is an exact rational (`ℚ`); it
  serves the statements that do not depend on how a sum, a product or a
  quotient is rounded: records, statuses, messages, indexes and frames.  In the
  namespace `float64` the same operations work on `Go.Float64`, a model of IEEE
  754 binary64 with rounding to nearest (ties to even), infinities and NaN; it
  serves the statements that depend on the arithmetic.
* A Go `map[string]T` is an association list in insertion order; nothing in
  the development depends on Go's iteration order.
* The repositories store pointers.  Every in-place mutation made by a service
  is followed by a `Save` of the same record under the same key, so for
  sequential calls the stores hold the same records under value semantics.
* `uuid.New()` and `time.Now()` are inputs: each service call receives an
  `Env` with the values the runtime hands out during that call.
* In both renderings a service call is one atomic step; calls that overlap are
  modelled in `float64.concurrent`, where a call is a sequence of steps, one
  for each access to shared data.

The rate calculator of the shipping service (`shipping-service/`) and its three
carriers follow, in the namespace `shipping`.  There `sort.Slice` is an
insertion sort, rates are exact rationals and `int(x)` truncates toward zero.
-/

set_option autoImplicit false

/-! ## Go library functions used by the service -/

namespace Go

/-- Model of `unicode.IsSpace`: the white-space runes `strings.TrimSpace` strips. -/
def isSpace (c : Char) : Bool :=
  let n := c.toNat
  n = 0x09 || n = 0x0A || n = 0x0B || n = 0x0C || n = 0x0D || n = 0x20 ||
  n = 0x85 || n = 0xA0 || n = 0x1680 || (0x2000 ≤ n && n ≤ 0x200A) ||
  n = 0x2028 || n = 0x2029 || n = 0x202F || n = 0x205F || n = 0x3000

/-- Model of `strings.TrimSpace`: leading and trailing white space removed. -/
def TrimSpace (s : String) : String :=
  String.mk ((s.data.dropWhile isSpace).reverse.dropWhile isSpace).reverse

/-- Upper-case form of one rune.  ASCII letters are mapped as Go does; the two
non-ASCII runes whose Go upper-case form is an ASCII letter (dotless i and long
s) are mapped too.  Every other rune is left as it is: its Go upper-case form
is not ASCII, so it can never occur in a key of the currency table. -/
def toUpperRune (c : Char) : Char :=
  let n := c.toNat
  if 0x61 ≤ n ∧ n ≤ 0x7A then Char.ofNat (n - 32)
  else if n = 0x131 then Char.ofNat 0x49
  else if n = 0x17F then Char.ofNat 0x53
  else c

/-- Model of `strings.ToUpper`. -/
def ToUpper (s : String) : String := String.mk (s.data.map toUpperRune)

/-- Model of `math.Round`: nearest integer, halves away from zero. -/
def Round (x : ℚ) : ℚ :=
  if 0 ≤ x then ((Int.floor (x + 1 / 2) : ℤ) : ℚ) else -((Int.floor (-x + 1 / 2) : ℤ) : ℚ)

/-- Model of `strings.Join`. -/
def Join (elems : List String) (sep : String) : String := sep.intercalate elems

/-- Two-digit rendering of a number below one hundred. -/
def twoDigits (n : Nat) : String :=
  if n < 10 then "0" ++ toString n else toString n

/-- Model of the verb `%.2f` on an exact decimal: the nearest hundredth (ties
to even, as `strconv` does on an exact tie), with sign, integer part and two
fraction digits. -/
def fmt2f (x : ℚ) : String :=
  let y := |x| * 100
  let f := Int.toNat (Int.floor y)
  let r := y - f
  let n := if r < 1 / 2 then f else if 1 / 2 < r then f + 1 else if f % 2 = 0 then f else f + 1
  (if x < 0 then "-" else "") ++ toString (n / 100) ++ "." ++ twoDigits (n % 100)

end Go

/-! ## Go maps as association lists -/

/-- Map read `m[k]` with the comma-ok result. -/
def mapGet {α : Type} : List (String × α) → String → Option α
  | [], _ => none
  | (k', v) :: rest, k => if k' = k then some v else mapGet rest k

/-- Map write `m[k] = v`: replaces the entry of `k`, or adds one at the end. -/
def mapSet {α : Type} : List (String × α) → String → α → List (String × α)
  | [], k, v => [(k, v)]
  | (k', v') :: rest, k, v =>
    if k' = k then (k, v) :: rest else (k', v') :: mapSet rest k v

/-- Map removal `delete(m, k)`: the entry of `k`, if any, is dropped. -/
def mapDelete {α : Type} : List (String × α) → String → List (String × α)
  | [], _ => []
  | (k', v) :: rest, k => if k' = k then mapDelete rest k else (k', v) :: mapDelete rest k

/-! ## models -/

namespace models

abbrev Time := Nat

abbrev PaymentStatus := String

def PaymentStatusPending : PaymentStatus := "pending"
def PaymentStatusCompleted : PaymentStatus := "completed"
def PaymentStatusFailed : PaymentStatus := "failed"
def PaymentStatusRefunded : PaymentStatus := "refunded"
def PaymentStatusCancelled : PaymentStatus := "cancelled"

structure Payment where
  ID : String
  OrderID : String
  UserID : String
  Amount : ℚ
  Currency : String
  Status : PaymentStatus
  MethodID : String
  Description : String
  TransactionID : String
  CreatedAt : Time
  UpdatedAt : Time
deriving DecidableEq

structure CreatePaymentRequest where
  OrderID : String
  UserID : String
  Amount : ℚ
  Currency : String
  MethodID : String
  Description : String
deriving DecidableEq

abbrev RefundStatus := String

def RefundStatusPending : RefundStatus := "pending"
def RefundStatusCompleted : RefundStatus := "completed"
def RefundStatusFailed : RefundStatus := "failed"

structure Refund where
  ID : String
  PaymentID : String
  Amount : ℚ
  Reason : String
  Status : RefundStatus
  CreatedAt : Time
deriving DecidableEq

structure CreateRefundRequest where
  PaymentID : String
  Amount : ℚ
  Reason : String
deriving DecidableEq

abbrev TransactionType := String

def TransactionTypeCharge : TransactionType := "charge"
def TransactionTypeRefund : TransactionType := "refund"

structure Transaction where
  ID : String
  PaymentID : String
  Type_ : TransactionType
  Amount : ℚ
  Currency : String
  Status : String
  Metadata : List (String × String)
  CreatedAt : Time
deriving DecidableEq

end models

/-! ## utils -/

namespace utils

structure CurrencyInfo where
  Code : String
  Symbol : String
  DecimalPlaces : Nat
deriving DecidableEq

/-- The table `SupportedCurrencies`. -/
def SupportedCurrencies : List (String × CurrencyInfo) :=
  [("USD", ⟨"USD", "$", 2⟩), ("EUR", ⟨"EUR", "€", 2⟩), ("GBP", ⟨"GBP", "£", 2⟩),
   ("CAD", ⟨"CAD", "CA$", 2⟩), ("JPY", ⟨"JPY", "¥", 0⟩)]

def ValidateCurrency (code : String) : Option String :=
  let upper := Go.ToUpper code
  match mapGet SupportedCurrencies upper with
  | none => some ("unsupported currency: " ++ code)
  | some _ => none

def RoundToDecimalPlaces (amount : ℚ) (currency : String) : ℚ :=
  let info : CurrencyInfo :=
    match mapGet SupportedCurrencies (Go.ToUpper currency) with
    | some i => i
    | none => ⟨"", "", 2⟩
  let factor : ℚ := 10 ^ info.DecimalPlaces
  Go.Round (amount * factor) / factor

def ValidateRequired (value fieldName : String) : Option String :=
  if Go.TrimSpace value = "" then some (fieldName ++ " is required") else none

def ValidatePositiveAmount (amount : ℚ) (fieldName : String) : Option String :=
  if amount ≤ 0 then some (fieldName ++ " must be a positive amount") else none

structure ValidationErrors where
  Errors : List String
deriving DecidableEq

def NewValidationErrors : ValidationErrors := ⟨[]⟩

def ValidationErrors.Add (ve : ValidationErrors) (err : Option String) : ValidationErrors :=
  match err with
  | some msg => ⟨ve.Errors ++ [msg]⟩
  | none => ve

def ValidationErrors.HasErrors (ve : ValidationErrors) : Bool := 0 < ve.Errors.length

def ValidationErrors.Error (ve : ValidationErrors) : String := Go.Join ve.Errors "; "

end utils

/-! ## repositories -/

namespace repositories

open models

/-- The helper `contains` on a slice of IDs. -/
def contains (slice : List String) (item : String) : Bool :=
  match slice with
  | [] => false
  | s :: rest => if s = item then true else contains rest item

/-- The index update shared by the `Save` methods: make sure `key` has an
entry, then append `id` to it unless it is already listed. -/
def indexAdd (idx : List (String × List String)) (key id : String) :
    List (String × List String) :=
  let idx1 := match mapGet idx key with
    | none => mapSet idx key []
    | some _ => idx
  let cur := (mapGet idx1 key).getD []
  if contains cur id then idx1 else mapSet idx1 key (cur ++ [id])

structure PaymentRepository where
  payments : List (String × Payment)
  orderIdx : List (String × List String)
  userIdx : List (String × List String)
deriving DecidableEq

def NewPaymentRepository : PaymentRepository := ⟨[], [], []⟩

/-- The method `Save` returns its argument and a nil error; the model returns the
repository after the write. -/
def PaymentRepository.Save (r : PaymentRepository) (payment : Payment) : PaymentRepository :=
  { payments := mapSet r.payments payment.ID payment
    orderIdx := indexAdd r.orderIdx payment.OrderID payment.ID
    userIdx := indexAdd r.userIdx payment.UserID payment.ID }

def PaymentRepository.FindByID (r : PaymentRepository) (id : String) : Except String Payment :=
  match mapGet r.payments id with
  | none => .error ("payment not found: " ++ id)
  | some payment => .ok payment

structure TransactionRepository where
  transactions : List (String × Transaction)
  paymentIdx : List (String × List String)
deriving DecidableEq

def NewTransactionRepository : TransactionRepository := ⟨[], []⟩

/-- The method `Save` returns its argument and a nil error; the model returns the
repository after the write. -/
def TransactionRepository.Save (r : TransactionRepository) (tx : Transaction) :
    TransactionRepository :=
  { transactions := mapSet r.transactions tx.ID tx
    paymentIdx := indexAdd r.paymentIdx tx.PaymentID tx.ID }

def TransactionRepository.FindByID (r : TransactionRepository) (id : String) :
    Except String Transaction :=
  match mapGet r.transactions id with
  | none => .error ("transaction not found: " ++ id)
  | some tx => .ok tx

/-- The method `FindByPaymentID`: the indexed IDs of the payment, in index order, each
resolved in the primary map and skipped when absent.  Its error is always nil. -/
def TransactionRepository.FindByPaymentID (r : TransactionRepository) (paymentID : String) :
    List Transaction :=
  let ids := (mapGet r.paymentIdx paymentID).getD []
  ids.filterMap (fun id => mapGet r.transactions id)

/-- The method `FindByUserID`: the indexed IDs of the user, in index order, each
resolved in the primary map and skipped when absent.  Its error is always nil. -/
def PaymentRepository.FindByUserID (r : PaymentRepository) (userID : String) : List Payment :=
  let ids := (mapGet r.userIdx userID).getD []
  ids.filterMap (fun id => mapGet r.payments id)

/-- The method `Count` of the ledger: the size of the primary map. -/
def TransactionRepository.Count (r : TransactionRepository) : Nat := r.transactions.length

/-- The method `FindByOrderID`: the indexed IDs of the order, in index order,
each resolved in the primary map and skipped when absent.  Its error is always
nil. -/
def PaymentRepository.FindByOrderID (r : PaymentRepository) (orderID : String) :
    List Payment :=
  let ids := (mapGet r.orderIdx orderID).getD []
  ids.filterMap (fun id => mapGet r.payments id)

/-- The method `FindByStatus`: the records of the primary map with the given
status (listed here in the order of the association list; Go ranges over the
map in an unspecified order).  Its error is always nil. -/
def PaymentRepository.FindByStatus (r : PaymentRepository) (status : PaymentStatus) :
    List Payment :=
  (r.payments.map Prod.snd).filter (fun p => p.Status = status)

/-- The method `Delete`: the error (nil on success) and the repository after the
call.  Only the primary map is touched; the indexes keep the ID. -/
def PaymentRepository.Delete (r : PaymentRepository) (id : String) :
    Option String × PaymentRepository :=
  match mapGet r.payments id with
  | none => (some ("payment not found: " ++ id), r)
  | some _ => (none, { r with payments := mapDelete r.payments id })

/-- The method `Count` of the payment repository: the size of the primary map. -/
def PaymentRepository.Count (r : PaymentRepository) : Nat := r.payments.length

/-- The full result of `Save` on the ledger as Go returns it: the transaction
handed in, a nil error, and the repository after the write. -/
def TransactionRepository.SaveResult (r : TransactionRepository) (tx : Transaction) :
    Except String Transaction × TransactionRepository :=
  (.ok tx, r.Save tx)

/-- The method `GetTotalByType`: the loop adding up the amounts of the
transactions of one type.  Its error is always nil. -/
def TransactionRepository.GetTotalByType (r : TransactionRepository)
    (txType : TransactionType) : ℚ :=
  (r.transactions.map Prod.snd).foldl
    (fun total tx => if tx.Type_ = txType then total + tx.Amount else total) 0

/-- The method `CountByType`: the loop counting the transactions of one type. -/
def TransactionRepository.CountByType (r : TransactionRepository)
    (txType : TransactionType) : Nat :=
  (r.transactions.map Prod.snd).foldl
    (fun count tx => if tx.Type_ = txType then count + 1 else count) 0

end repositories

/-! ## services -/

namespace services

open models repositories utils

/-- The two repositories shared by `PaymentService` and `RefundService`. -/
structure Stores where
  paymentRepo : PaymentRepository
  transactionRepo : TransactionRepository
deriving DecidableEq

/-- The stores right after `NewPaymentRepository` and `NewTransactionRepository`. -/
def emptyStores : Stores := ⟨NewPaymentRepository, NewTransactionRepository⟩

/-- What the runtime hands to one service call: the results of its successive
`uuid.New().String()` calls and of its successive `time.Now()` calls, in the
order the call makes them. -/
structure Env where
  uuid1 : String
  uuid2 : String
  now1 : Time
  now2 : Time
  now3 : Time
deriving DecidableEq

namespace PaymentService

def validateCreateRequest (req : CreatePaymentRequest) : Option String :=
  let ve := NewValidationErrors
  let ve := ve.Add (ValidateRequired req.OrderID "order_id")
  let ve := ve.Add (ValidateRequired req.UserID "user_id")
  let ve := ve.Add (ValidatePositiveAmount req.Amount "amount")
  let ve := ve.Add (ValidateCurrency req.Currency)
  let ve := ve.Add (ValidateRequired req.MethodID "method_id")
  if ve.HasErrors then some ("validation failed: " ++ ve.Error) else none

def CreatePayment (s : Stores) (e : Env) (req : CreatePaymentRequest) :
    Except String Payment × Stores :=
  match validateCreateRequest req with
  | some err => (.error err, s)
  | none =>
    let payment : Payment :=
      { ID := e.uuid1
        OrderID := req.OrderID
        UserID := req.UserID
        Amount := RoundToDecimalPlaces req.Amount req.Currency
        Currency := req.Currency
        Status := PaymentStatusPending
        MethodID := req.MethodID
        Description := req.Description
        TransactionID := ""
        CreatedAt := e.now1
        UpdatedAt := e.now2 }
    (.ok payment, { s with paymentRepo := s.paymentRepo.Save payment })

def ProcessPayment (s : Stores) (e : Env) (paymentID : String) :
    Except String Payment × Stores :=
  match s.paymentRepo.FindByID paymentID with
  | .error err => (.error err, s)
  | .ok payment =>
    if payment.Status ≠ PaymentStatusPending then
      (.error ("payment is not in pending status: " ++ payment.Status), s)
    else
      let tx : Transaction :=
        { ID := e.uuid1
          PaymentID := payment.ID
          Type_ := TransactionTypeCharge
          Amount := payment.Amount
          Currency := payment.Currency
          Status := "completed"
          Metadata := [("order_id", payment.OrderID), ("user_id", payment.UserID)]
          CreatedAt := e.now2 }
      let payment : Payment :=
        { payment with
          Status := PaymentStatusCompleted
          UpdatedAt := e.now1
          TransactionID := tx.ID }
      (.ok payment,
        { paymentRepo := s.paymentRepo.Save payment
          transactionRepo := s.transactionRepo.Save tx })

def GetPayment (s : Stores) (paymentID : String) : Except String Payment :=
  s.paymentRepo.FindByID paymentID

def CancelPayment (s : Stores) (e : Env) (paymentID : String) :
    Except String Payment × Stores :=
  match s.paymentRepo.FindByID paymentID with
  | .error err => (.error err, s)
  | .ok payment =>
    if payment.Status ≠ PaymentStatusPending then
      (.error "only pending payments can be cancelled", s)
    else
      let payment : Payment :=
        { payment with Status := PaymentStatusCancelled, UpdatedAt := e.now1 }
      (.ok payment, { s with paymentRepo := s.paymentRepo.Save payment })

end PaymentService

namespace RefundService

def validateRefundRequest (req : CreateRefundRequest) : Option String :=
  let ve := NewValidationErrors
  let ve := ve.Add (ValidateRequired req.PaymentID "payment_id")
  let ve := ve.Add (ValidatePositiveAmount req.Amount "amount")
  let ve := ve.Add (ValidateRequired req.Reason "reason")
  if ve.HasErrors then some ("validation failed: " ++ ve.Error) else none

/-- The method `getTotalRefunded`: the loop adding up the refund-type entries that
`FindByPaymentID` returns.  Its error is always nil. -/
def getTotalRefunded (s : Stores) (paymentID : String) : ℚ :=
  (s.transactionRepo.FindByPaymentID paymentID).foldl
    (fun total tx => if tx.Type_ = TransactionTypeRefund then total + tx.Amount else total) 0

/-- The message of the over-refund error. -/
def exceedMessage (amount paymentAmount totalRefunded : ℚ) : String :=
  "refund amount (" ++ Go.fmt2f amount ++ ") would exceed payment amount (" ++
    Go.fmt2f paymentAmount ++ "), already refunded: " ++ Go.fmt2f totalRefunded

def CreateRefund (s : Stores) (e : Env) (req : CreateRefundRequest) :
    Except String Refund × Stores :=
  match validateRefundRequest req with
  | some err => (.error err, s)
  | none =>
    match s.paymentRepo.FindByID req.PaymentID with
    | .error _ => (.error ("payment not found: " ++ req.PaymentID), s)
    | .ok payment =>
      if payment.Status ≠ PaymentStatusCompleted then
        (.error "can only refund completed payments", s)
      else
        let totalRefunded := getTotalRefunded s payment.ID
        if totalRefunded + req.Amount > payment.Amount then
          (.error (exceedMessage req.Amount payment.Amount totalRefunded), s)
        else
          let refund : Refund :=
            { ID := e.uuid1
              PaymentID := req.PaymentID
              Amount := RoundToDecimalPlaces req.Amount payment.Currency
              Reason := req.Reason
              Status := RefundStatusCompleted
              CreatedAt := e.now1 }
          let tx : Transaction :=
            { ID := e.uuid2
              PaymentID := payment.ID
              Type_ := TransactionTypeRefund
              Amount := refund.Amount
              Currency := payment.Currency
              Status := "completed"
              Metadata := [("refund_id", refund.ID), ("reason", req.Reason)]
              CreatedAt := e.now2 }
          let transactionRepo := s.transactionRepo.Save tx
          if totalRefunded + req.Amount ≥ payment.Amount then
            let payment : Payment :=
              { payment with Status := PaymentStatusRefunded, UpdatedAt := e.now3 }
            (.ok refund,
              { paymentRepo := s.paymentRepo.Save payment, transactionRepo := transactionRepo })
          else
            (.ok refund, { s with transactionRepo := transactionRepo })

/-- The method `GetRefundsForPayment`: the loop keeping the refund-type entries
that `FindByPaymentID` returns.  Its error is always nil. -/
def GetRefundsForPayment (s : Stores) (paymentID : String) : List Transaction :=
  (s.transactionRepo.FindByPaymentID paymentID).foldl
    (fun refunds tx => if tx.Type_ = TransactionTypeRefund then refunds ++ [tx] else refunds) []

end RefundService

structure LedgerSummary where
  TotalCharges : ℚ
  TotalRefunds : ℚ
  NetRevenue : ℚ
  ChargeCount : Nat
  RefundCount : Nat
  TransactionCount : Nat
deriving DecidableEq

namespace LedgerService

/-- The method `GetSummary` of the ledger service, which holds the transaction
repository only and reads it without writing.  Its error is always nil. -/
def GetSummary (r : TransactionRepository) : LedgerSummary :=
  let totalCharges := r.GetTotalByType TransactionTypeCharge
  let totalRefunds := r.GetTotalByType TransactionTypeRefund
  { TotalCharges := totalCharges
    TotalRefunds := totalRefunds
    NetRevenue := totalCharges - totalRefunds
    ChargeCount := r.CountByType TransactionTypeCharge
    RefundCount := r.CountByType TransactionTypeRefund
    TransactionCount := r.Count }

end LedgerService

end services

/-! ## The shipping service: rates and their ordering -/

namespace Go

/-- Model of the conversion `int(x)` of a floating-point value: truncation
toward zero. -/
def truncInt (x : ℚ) : ℤ := if 0 ≤ x then Int.floor x else Int.ceil x

/-- The inner loop of an insertion sort: the element `x` next to the sorted
part is swapped to the left as long as it is less than its left neighbour.  The
sorted part is given in reverse, nearest neighbour first. -/
def siftLeft {α : Type} (less : α → α → Bool) (x : α) : List α → List α
  | [] => [x]
  | y :: rest => if less x y then y :: siftLeft less x rest else x :: y :: rest

/-- Model of `sort.Slice` with the comparison `less`: an insertion sort, the
method the library uses on short slices, one element after the other sifted
into the sorted part.  The library promises a sorted rearrangement and no
particular order of equal elements; the theorems on sorted rates use no more
than that. -/
def sortSlice {α : Type} (less : α → α → Bool) (l : List α) : List α :=
  (l.foldl (fun sortedRev x => siftLeft less x sortedRev) []).reverse

end Go

namespace shipping

namespace models

structure ShippingRate where
  CarrierCode : String
  CarrierName : String
  ServiceType : String
  Rate : ℚ
  Currency : String
  EstimatedDays : Int
  IsGuaranteed : Bool
deriving DecidableEq

structure Dimensions where
  Length : ℚ
  Width : ℚ
  Height : ℚ
  Unit : String
deriving DecidableEq

structure RateRequest where
  FromZip : String
  ToZip : String
  Weight : ℚ
  Dimensions : Dimensions
deriving DecidableEq

end models

namespace carriers

open shipping.models

/-- The part of the interface `Carrier` the rate calculator uses: the code, the
name and the method `CalculateRates`. -/
structure Carrier where
  GetCode : String
  GetName : String
  CalculateRates : RateRequest → Except String (List ShippingRate)

structure BaseCarrier where
  Code : String
  Name : String
deriving DecidableEq

/-- The helper `round`: the value scaled by ten to the precision, half added,
truncated to an integer and scaled back. -/
def round (val : ℚ) (precision : Int) : ℚ :=
  let p : ℚ := (List.range precision.toNat).foldl (fun p _ => p * 10) 1
  ((Go.truncInt (val * p + 1 / 2) : ℤ) : ℚ) / p

structure FedExCarrier extends BaseCarrier
deriving DecidableEq

def NewFedExCarrier : FedExCarrier := { Code := "fedex", Name := "FedEx" }

def FedExCarrier.CalculateRates (f : FedExCarrier) (req : RateRequest) :
    Except String (List ShippingRate) :=
  if req.Weight ≤ 0 then .error "weight must be positive"
  else
    let baseRate := req.Weight * (250 / 100)
    let volumetric :=
      (req.Dimensions.Length * req.Dimensions.Width * req.Dimensions.Height) / 5000
    let baseRate := if volumetric > req.Weight then volumetric * (250 / 100) else baseRate
    .ok
      [ { CarrierCode := f.Code, CarrierName := f.Name, ServiceType := "ground",
          Rate := round baseRate 2, Currency := "USD", EstimatedDays := 5,
          IsGuaranteed := false },
        { CarrierCode := f.Code, CarrierName := f.Name, ServiceType := "express",
          Rate := round (baseRate * (25 / 10)) 2, Currency := "USD", EstimatedDays := 2,
          IsGuaranteed := true },
        { CarrierCode := f.Code, CarrierName := f.Name, ServiceType := "overnight",
          Rate := round (baseRate * 4) 2, Currency := "USD", EstimatedDays := 1,
          IsGuaranteed := true } ]

structure UPSCarrier extends BaseCarrier
deriving DecidableEq

def NewUPSCarrier : UPSCarrier := { Code := "ups", Name := "UPS" }

def UPSCarrier.CalculateRates (u : UPSCarrier) (req : RateRequest) :
    Except String (List ShippingRate) :=
  if req.Weight ≤ 0 then .error "weight must be positive"
  else
    let baseRate := req.Weight * (275 / 100)
    .ok
      [ { CarrierCode := u.Code, CarrierName := u.Name, ServiceType := "ground",
          Rate := round baseRate 2, Currency := "USD", EstimatedDays := 5,
          IsGuaranteed := false },
        { CarrierCode := u.Code, CarrierName := u.Name, ServiceType := "2day",
          Rate := round (baseRate * (22 / 10)) 2, Currency := "USD", EstimatedDays := 2,
          IsGuaranteed := true },
        { CarrierCode := u.Code, CarrierName := u.Name, ServiceType := "next_day_air",
          Rate := round (baseRate * (38 / 10)) 2, Currency := "USD", EstimatedDays := 1,
          IsGuaranteed := true } ]

structure USPSCarrier extends BaseCarrier
deriving DecidableEq

def NewUSPSCarrier : USPSCarrier := { Code := "usps", Name := "USPS" }

def USPSCarrier.CalculateRates (u : USPSCarrier) (req : RateRequest) :
    Except String (List ShippingRate) :=
  if req.Weight ≤ 0 then .error "weight must be positive"
  else if req.Weight > 3175 / 100 then .error "USPS weight limit exceeded (max 31.75 kg)"
  else
    let baseRate := req.Weight * (180 / 100)
    .ok
      [ { CarrierCode := u.Code, CarrierName := u.Name, ServiceType := "first_class",
          Rate := round (baseRate * (7 / 10)) 2, Currency := "USD", EstimatedDays := 5,
          IsGuaranteed := false },
        { CarrierCode := u.Code, CarrierName := u.Name, ServiceType := "priority",
          Rate := round baseRate 2, Currency := "USD", EstimatedDays := 3,
          IsGuaranteed := false },
        { CarrierCode := u.Code, CarrierName := u.Name, ServiceType := "priority_express",
          Rate := round (baseRate * (25 / 10)) 2, Currency := "USD", EstimatedDays := 1,
          IsGuaranteed := true } ]

/-- The three carrier types as values of the interface `Carrier`. -/
def FedExCarrier.asCarrier (f : FedExCarrier) : Carrier := ⟨f.Code, f.Name, f.CalculateRates⟩

def UPSCarrier.asCarrier (u : UPSCarrier) : Carrier := ⟨u.Code, u.Name, u.CalculateRates⟩

def USPSCarrier.asCarrier (u : USPSCarrier) : Carrier := ⟨u.Code, u.Name, u.CalculateRates⟩

def GetAllCarriers : List Carrier :=
  [NewFedExCarrier.asCarrier, NewUPSCarrier.asCarrier, NewUSPSCarrier.asCarrier]

end carriers

namespace services

open shipping.models shipping.carriers

structure RateCalculator where
  carriers : List Carrier

def NewRateCalculator : RateCalculator := ⟨GetAllCarriers⟩

def NewRateCalculatorWithCarriers (c : List Carrier) : RateCalculator := ⟨c⟩

def RateCalculator.validateRequest (_rc : RateCalculator) (req : RateRequest) : Option String :=
  if req.Weight ≤ 0 then some "weight must be positive"
  else if req.FromZip = "" then some "from zip code is required"
  else if req.ToZip = "" then some "to zip code is required"
  else none

def RateCalculator.GetAllRates (rc : RateCalculator) (req : RateRequest) :
    Except String (List ShippingRate) :=
  match rc.validateRequest req with
  | some err => .error err
  | none =>
    .ok (rc.carriers.foldl
      (fun allRates carrier =>
        match carrier.CalculateRates req with
        | .error _ => allRates
        | .ok rates => allRates ++ rates) [])

/-- The method `GetFastestRate`.  The element read at index 0 exists because the
slice is not empty; the last branch stands for the run-time panic of an index
out of range and is never taken. -/
def RateCalculator.GetFastestRate (rc : RateCalculator) (req : RateRequest) :
    Except String ShippingRate :=
  match rc.GetAllRates req with
  | .error err => .error err
  | .ok rates =>
    if rates.length = 0 then .error "no rates available"
    else
      match Go.sortSlice (fun a b => decide (a.EstimatedDays < b.EstimatedDays)) rates with
      | r :: _ => .ok r
      | [] => .error "index out of range"

def RateCalculator.GetRatesBySortOrder (rc : RateCalculator) (req : RateRequest)
    (sortBy : String) : Except String (List ShippingRate) :=
  match rc.GetAllRates req with
  | .error err => .error err
  | .ok rates =>
    if sortBy = "price" then
      .ok (Go.sortSlice (fun a b => decide (a.Rate < b.Rate)) rates)
    else if sortBy = "speed" then
      .ok (Go.sortSlice (fun a b => decide (a.EstimatedDays < b.EstimatedDays)) rates)
    else if sortBy = "carrier" then
      .ok (Go.sortSlice (fun a b => decide (a.CarrierCode < b.CarrierCode)) rates)
    else .ok rates

end services

/-- The request of the rate calculator tests. -/
def validRateRequest : models.RateRequest :=
  ⟨"10001", "90210", 5, ⟨30, 20, 15, "cm"⟩⟩

end shipping

/-! ## Specification vocabulary -/

deriving instance DecidableEq for Except

namespace spec

open models repositories utils services

/-- A string is blank when every one of its characters is white space (the
empty string included). -/
def isBlank (s : String) : Bool := s.data.all Go.isSpace

/-- A currency code is supported when its upper-case form is one of the five
codes of the table. -/
def supportedCode (code : String) : Prop :=
  Go.ToUpper code ∈ ["USD", "EUR", "GBP", "CAD", "JPY"]

instance (code : String) : Decidable (supportedCode code) := by
  unfold supportedCode; infer_instance

/-- The entries of the validation message of `CreatePayment`, one per violated
rule, in the order order_id, user_id, amount, currency, method_id, where a
required field is violated when it is blank. -/
def createViolations (req : CreatePaymentRequest) : List String :=
  (if isBlank req.OrderID then ["order_id is required"] else []) ++
  (if isBlank req.UserID then ["user_id is required"] else []) ++
  (if req.Amount ≤ 0 then ["amount must be a positive amount"] else []) ++
  (if supportedCode req.Currency then [] else ["unsupported currency: " ++ req.Currency]) ++
  (if isBlank req.MethodID then ["method_id is required"] else [])

/-- The same entries when a required field counts as violated only if it is
the empty string. -/
def createViolationsEmptyOnly (req : CreatePaymentRequest) : List String :=
  (if req.OrderID = "" then ["order_id is required"] else []) ++
  (if req.UserID = "" then ["user_id is required"] else []) ++
  (if req.Amount ≤ 0 then ["amount must be a positive amount"] else []) ++
  (if supportedCode req.Currency then [] else ["unsupported currency: " ++ req.Currency]) ++
  (if req.MethodID = "" then ["method_id is required"] else [])

/-- The record `CreatePayment` builds from a valid request. -/
def createdPayment (e : Env) (req : CreatePaymentRequest) : Payment :=
  { ID := e.uuid1, OrderID := req.OrderID, UserID := req.UserID,
    Amount := RoundToDecimalPlaces req.Amount req.Currency, Currency := req.Currency,
    Status := PaymentStatusPending, MethodID := req.MethodID,
    Description := req.Description, TransactionID := "", CreatedAt := e.now1,
    UpdatedAt := e.now2 }

/-- The payment record `ProcessPayment` stores for the pending payment `P`. -/
def completedPayment (e : Env) (P : Payment) : Payment :=
  { P with Status := PaymentStatusCompleted, UpdatedAt := e.now1, TransactionID := e.uuid1 }

/-- The charge transaction `ProcessPayment` appends for the payment `P`. -/
def chargeTransaction (e : Env) (P : Payment) : Transaction :=
  { ID := e.uuid1, PaymentID := P.ID, Type_ := TransactionTypeCharge, Amount := P.Amount,
    Currency := P.Currency, Status := "completed",
    Metadata := [("order_id", P.OrderID), ("user_id", P.UserID)], CreatedAt := e.now2 }

/-- The payment record `CancelPayment` stores for the pending payment `P`. -/
def cancelledPayment (e : Env) (P : Payment) : Payment :=
  { P with Status := PaymentStatusCancelled, UpdatedAt := e.now1 }

/-- The entries of the validation message of `CreateRefund`, in the order
payment_id, amount, reason. -/
def refundViolations (req : CreateRefundRequest) : List String :=
  (if isBlank req.PaymentID then ["payment_id is required"] else []) ++
  (if req.Amount ≤ 0 then ["amount must be a positive amount"] else []) ++
  (if isBlank req.Reason then ["reason is required"] else [])

/-- The refund record `CreateRefund` returns for a request against payment `P`. -/
def refundRecord (e : Env) (req : CreateRefundRequest) (P : Payment) : Refund :=
  { ID := e.uuid1, PaymentID := req.PaymentID,
    Amount := RoundToDecimalPlaces req.Amount P.Currency, Reason := req.Reason,
    Status := RefundStatusCompleted, CreatedAt := e.now1 }

/-- The refund transaction `CreateRefund` appends for a request against `P`. -/
def refundTransaction (e : Env) (req : CreateRefundRequest) (P : Payment) : Transaction :=
  { ID := e.uuid2, PaymentID := P.ID, Type_ := TransactionTypeRefund,
    Amount := RoundToDecimalPlaces req.Amount P.Currency, Currency := P.Currency,
    Status := "completed", Metadata := [("refund_id", e.uuid1), ("reason", req.Reason)],
    CreatedAt := e.now2 }

/-- The payment record `CreateRefund` stores when the refund is a full one. -/
def refundedPayment (e : Env) (P : Payment) : Payment :=
  { P with Status := PaymentStatusRefunded, UpdatedAt := e.now3 }

/-- The transactions of a ledger that are refunds of payment `pid`. -/
def refundsOf (txs : List (String × Transaction)) (pid : String) : List Transaction :=
  (txs.map Prod.snd).filter (fun t => t.Type_ = TransactionTypeRefund ∧ t.PaymentID = pid)

/-- The sum of the amounts of the refund-type transactions of payment `pid`. -/
def refundSum (txs : List (String × Transaction)) (pid : String) : ℚ :=
  ((refundsOf txs pid).map (fun t => t.Amount)).sum

/-- The refunded total of payment `pid` in the ledger of `s`. -/
def refundedTotal (s : Stores) (pid : String) : ℚ :=
  refundSum s.transactionRepo.transactions pid

/-- The transactions of a ledger that are charges of payment `pid`. -/
def chargesOf (txs : List (String × Transaction)) (pid : String) : List Transaction :=
  (txs.map Prod.snd).filter (fun t => t.Type_ = TransactionTypeCharge ∧ t.PaymentID = pid)

/-- The number of decimal places `RoundToDecimalPlaces` uses for a currency. -/
def decimalPlaces (currency : String) : Nat :=
  (match mapGet SupportedCurrencies (Go.ToUpper currency) with
    | some i => i
    | none => (⟨"", "", 2⟩ : CurrencyInfo)).DecimalPlaces

/-- An amount is on the grid of a currency when it is an integer multiple of
the currency's smallest unit. -/
def OnGrid (currency : String) (x : ℚ) : Prop :=
  ∃ m : ℤ, x = (m : ℚ) / 10 ^ decimalPlaces currency

/-- One call of a service operation. -/
inductive Op where
  | createPayment (req : CreatePaymentRequest)
  | processPayment (paymentID : String)
  | cancelPayment (paymentID : String)
  | createRefund (req : CreateRefundRequest)
deriving DecidableEq

/-- The stores after one call. -/
def step (s : Stores) (e : Env) : Op → Stores
  | .createPayment req => (PaymentService.CreatePayment s e req).2
  | .processPayment id => (PaymentService.ProcessPayment s e id).2
  | .cancelPayment id => (PaymentService.CancelPayment s e id).2
  | .createRefund req => (RefundService.CreateRefund s e req).2

/-- The IDs generated during the call are fresh: the payment ID of
`CreatePayment` is not yet a key of the payment store, the transaction ID of
`ProcessPayment` and of `CreateRefund` is not yet a key of the ledger. -/
def freshIDs (s : Stores) (e : Env) : Op → Prop
  | .createPayment _ => mapGet s.paymentRepo.payments e.uuid1 = none
  | .processPayment _ => mapGet s.transactionRepo.transactions e.uuid1 = none
  | .cancelPayment _ => True
  | .createRefund _ => mapGet s.transactionRepo.transactions e.uuid2 = none

instance (s : Stores) (e : Env) (op : Op) : Decidable (freshIDs s e op) := by
  cases op <;> unfold freshIDs <;> infer_instance

/-- The states reachable from the empty stores by sequential service calls
whose generated IDs are fresh. -/
inductive Reachable : Stores → Prop where
  | init : Reachable emptyStores
  | step (s : Stores) (e : Env) (op : Op) :
      Reachable s → freshIDs s e op → Reachable (step s e op)

/-- Well-formedness of the stores, kept by every service call with fresh IDs:
records sit under their own ID, ledger keys are distinct, the payment index of
the ledger lists exactly the transactions of each payment in ledger order,
every transaction belongs to a stored payment, no payment is in status failed
or in an unknown status, a pending or cancelled payment has no transaction,
amounts and refunded totals are on the grid of the payment's currency, and the
refunded total of a payment never exceeds its amount. -/
structure WellFormed (s : Stores) : Prop where
  payKey : ∀ k P, mapGet s.paymentRepo.payments k = some P → P.ID = k
  txNodup : (s.transactionRepo.transactions.map Prod.fst).Nodup
  txIdx : ∀ pid, (mapGet s.transactionRepo.paymentIdx pid).getD [] =
    (s.transactionRepo.transactions.filter (fun kv => kv.2.PaymentID = pid)).map Prod.fst
  txRef : ∀ kv ∈ s.transactionRepo.transactions,
    mapGet s.paymentRepo.payments kv.2.PaymentID ≠ none
  status : ∀ k P, mapGet s.paymentRepo.payments k = some P →
    P.Status = PaymentStatusPending ∨ P.Status = PaymentStatusCompleted ∨
    P.Status = PaymentStatusCancelled ∨ P.Status = PaymentStatusRefunded
  noTx : ∀ k P, mapGet s.paymentRepo.payments k = some P →
    P.Status = PaymentStatusPending ∨ P.Status = PaymentStatusCancelled →
    ∀ kv ∈ s.transactionRepo.transactions, kv.2.PaymentID ≠ k
  amountGrid : ∀ k P, mapGet s.paymentRepo.payments k = some P → OnGrid P.Currency P.Amount
  refundGrid : ∀ k P, mapGet s.paymentRepo.payments k = some P →
    OnGrid P.Currency (refundedTotal s k)
  refundCap : ∀ k P, mapGet s.paymentRepo.payments k = some P → refundedTotal s k ≤ P.Amount

/-- The same entries as `refundViolations` when a required field counts as
violated only if it is the empty string. -/
def refundViolationsEmptyOnly (req : CreateRefundRequest) : List String :=
  (if req.PaymentID = "" then ["payment_id is required"] else []) ++
  (if req.Amount ≤ 0 then ["amount must be a positive amount"] else []) ++
  (if req.Reason = "" then ["reason is required"] else [])

/-- The user index agrees with the records: payment keys are distinct and the
index entry of every user lists the keys of that user's payments, in the order
of the primary map. -/
structure UserIndexed (r : PaymentRepository) : Prop where
  payNodup : (r.payments.map Prod.fst).Nodup
  userIdx : ∀ u, (mapGet r.userIdx u).getD [] =
    (r.payments.filter (fun kv => kv.2.UserID = u)).map Prod.fst

/-- The order index agrees with the records, as `UserIndexed` for users. -/
structure OrderIndexed (r : PaymentRepository) : Prop where
  payNodup : (r.payments.map Prod.fst).Nodup
  orderIdx : ∀ o, (mapGet r.orderIdx o).getD [] =
    (r.payments.filter (fun kv => kv.2.OrderID = o)).map Prod.fst

/-- The repository after a sequence of `Save` calls on a new repository. -/
def saveAll (l : List Payment) : PaymentRepository :=
  l.foldl (fun r p => r.Save p) NewPaymentRepository

/-- The distinct IDs of a sequence of saved payments, in order of first save. -/
def distinctIDs (l : List Payment) : List String :=
  l.foldl (fun acc p => if p.ID ∈ acc then acc else acc ++ [p.ID]) []

/-- The record saved last under an ID in a sequence of saved payments. -/
def lastSaved (l : List Payment) (id : String) : Option Payment :=
  l.foldl (fun acc p => if p.ID = id then some p else acc) none

/-- Each payment ID carries the same order and user throughout the sequence. -/
def StableOwners (l : List Payment) : Prop :=
  ∀ p ∈ l, ∀ q ∈ l, p.ID = q.ID → p.OrderID = q.OrderID ∧ p.UserID = q.UserID

instance (l : List Payment) : Decidable (StableOwners l) := by
  unfold StableOwners; infer_instance

/-- The sum of the amounts of the ledger entries of one type. -/
def typeTotal (r : TransactionRepository) (txType : TransactionType) : ℚ :=
  (((r.transactions.map Prod.snd).filter (fun t => t.Type_ = txType)).map
    (fun t => t.Amount)).sum

/-- Consistency of the ledger with the payment store, kept by every service
call with fresh IDs: a transaction sits under its own ID, carries the currency
of its payment, has an amount on the grid of that currency, and every stored
payment has a supported currency. -/
structure LedgerConsistent (s : Stores) : Prop where
  txKey : ∀ kv ∈ s.transactionRepo.transactions, kv.2.ID = kv.1
  txCurrency : ∀ kv ∈ s.transactionRepo.transactions, ∀ P,
    mapGet s.paymentRepo.payments kv.2.PaymentID = some P → kv.2.Currency = P.Currency
  txGrid : ∀ kv ∈ s.transactionRepo.transactions, OnGrid kv.2.Currency kv.2.Amount
  paySupported : ∀ k P, mapGet s.paymentRepo.payments k = some P → supportedCode P.Currency

/-- The states reachable from `s0` by sequential service calls whose generated
IDs are fresh. -/
inductive ReachableFrom (s0 : Stores) : Stores → Prop where
  | refl : ReachableFrom s0 s0
  | step (s : Stores) (e : Env) (op : Op) :
      ReachableFrom s0 s → freshIDs s e op → ReachableFrom s0 (step s e op)

/-- The text `sub` occurs in the text `s`. -/
def containsStr (s sub : String) : Bool := s.data.tails.any (fun t => sub.data.isPrefixOf t)

/-- Consistency of charges with the payment store, kept by every service call
with fresh IDs: a completed or refunded payment has exactly one charge in the
ledger, which carries the ID the payment refers to and the amount of the
payment; a pending or cancelled payment refers to no transaction. -/
structure ChargeConsistent (s : Stores) : Prop where
  charged : ∀ k P, mapGet s.paymentRepo.payments k = some P →
    P.Status = PaymentStatusCompleted ∨ P.Status = PaymentStatusRefunded →
    ∃ t, chargesOf s.transactionRepo.transactions k = [t] ∧ t.ID = P.TransactionID ∧
      t.Amount = P.Amount
  uncharged : ∀ k P, mapGet s.paymentRepo.payments k = some P →
    P.Status = PaymentStatusPending ∨ P.Status = PaymentStatusCancelled →
    P.TransactionID = ""

/-- The refunds of every refunded payment add up to exactly its amount. -/
def RefundedExact (s : Stores) : Prop :=
  ∀ k P, mapGet s.paymentRepo.payments k = some P → P.Status = PaymentStatusRefunded →
    refundedTotal s k = P.Amount

/-- The sum of the amounts of the charges of payment `pid` in a ledger. -/
def chargeSum (txs : List (String × Transaction)) (pid : String) : ℚ :=
  ((chargesOf txs pid).map (fun t => t.Amount)).sum

/-- The frame of a call on payment `pid` that takes the stores from `s` to `s2`:
the payment is stored before and after with the same ID, order, user, amount,
currency, method, description and creation time; every other key of the
payment store reads as before; and the ledger is the old one followed by
transactions of this payment only. -/
def Frame (s s2 : Stores) (pid : String) : Prop :=
  ∃ P P2, mapGet s.paymentRepo.payments pid = some P ∧
    mapGet s2.paymentRepo.payments pid = some P2 ∧
    P2.ID = P.ID ∧ P2.OrderID = P.OrderID ∧ P2.UserID = P.UserID ∧ P2.Amount = P.Amount ∧
    P2.Currency = P.Currency ∧ P2.MethodID = P.MethodID ∧
    P2.Description = P.Description ∧ P2.CreatedAt = P.CreatedAt ∧
    (∀ k, k ≠ pid → mapGet s2.paymentRepo.payments k = mapGet s.paymentRepo.payments k) ∧
    s2.paymentRepo.payments.map Prod.fst = s.paymentRepo.payments.map Prod.fst ∧
    ∃ l, s2.transactionRepo.transactions = s.transactionRepo.transactions ++ l ∧
      ∀ kv ∈ l, kv.2.PaymentID = P.ID

/-- One call on the payment repository: `Save` of a payment or `Delete` of an
ID. -/
inductive RepoOp where
  | save (p : Payment)
  | delete (id : String)
deriving DecidableEq

/-- The repository after one call. -/
def applyRepoOp (r : PaymentRepository) : RepoOp → PaymentRepository
  | .save p => r.Save p
  | .delete id => (r.Delete id).2

/-- The repository after a sequence of calls on a new repository. -/
def runRepoOps (ops : List RepoOp) : PaymentRepository :=
  ops.foldl applyRepoOp NewPaymentRepository

/-- The payments handed to `Save` in a sequence of calls, in call order. -/
def savedBy (ops : List RepoOp) : List Payment :=
  ops.filterMap (fun op => match op with
    | .save p => some p
    | .delete _ => none)

end spec

/-! ## A concrete run, after the service tests -/

namespace scenario

open models repositories utils services spec

/-- The request of `createCompletedPayment` in the refund tests. -/
def request : CreatePaymentRequest := ⟨"order-123", "user-456", 100, "USD", "method-789", ""⟩

/-- After `CreatePayment`: one pending payment `p1` of 100 USD. -/
def s1 : Stores := step emptyStores ⟨"p1", "", 1, 1, 1⟩ (.createPayment request)

/-- After `ProcessPayment`: `p1` is completed and charged by `t1`. -/
def s2 : Stores := step s1 ⟨"t1", "", 2, 2, 2⟩ (.processPayment "p1")

/-- After a first partial refund of 40. -/
def s3 : Stores := step s2 ⟨"r1", "t2", 3, 3, 3⟩ (.createRefund ⟨"p1", 40, "Partial refund 1"⟩)

/-- After a second partial refund of 40. -/
def s4 : Stores := step s3 ⟨"r2", "t3", 4, 4, 4⟩ (.createRefund ⟨"p1", 40, "Partial refund 2"⟩)

/-- The pending payment stored in `s1`. -/
def pending : Payment :=
  ⟨"p1", "order-123", "user-456", 100, "USD", "pending", "method-789", "", "", 1, 1⟩

/-- The completed payment stored in `s2`, `s3` and `s4`. -/
def completed : Payment :=
  ⟨"p1", "order-123", "user-456", 100, "USD", "completed", "method-789", "", "t1", 1, 2⟩

/-- After a full refund of 100 on the completed payment of `s2`. -/
def s5 : Stores := step s2 ⟨"r1", "t2", 3, 3, 3⟩ (.createRefund ⟨"p1", 100, "Full refund"⟩)

/-- The refunded payment stored in `s5`. -/
def refunded : Payment :=
  ⟨"p1", "order-123", "user-456", 100, "USD", "refunded", "method-789", "", "t1", 1, 3⟩

/-- Scenario A of the specification: a payment of 99.99 USD created and
processed. -/
def q2 : Stores :=
  step (step emptyStores ⟨"p1", "", 1, 1, 1⟩
      (.createPayment ⟨"o1", "u1", 9999 / 100, "USD", "m1", ""⟩))
    ⟨"t1", "", 2, 2, 2⟩ (.processPayment "p1")

/-- Scenario B: a first refund of 50.00. -/
def q3 : Stores := step q2 ⟨"r1", "t2", 3, 3, 3⟩ (.createRefund ⟨"p1", 50, "first"⟩)

/-- Scenario B: a second refund of 49.99. -/
def q4 : Stores := step q3 ⟨"r2", "t3", 4, 4, 4⟩ (.createRefund ⟨"p1", 4999 / 100, "second"⟩)

/-- The completed payment stored in `q2` and `q3`. -/
def completedQ : Payment := ⟨"p1", "o1", "u1", 9999 / 100, "USD", "completed", "m1", "", "t1", 1, 2⟩

/-- The refunded payment stored in `q4`. -/
def refundedQ : Payment := ⟨"p1", "o1", "u1", 9999 / 100, "USD", "refunded", "m1", "", "t1", 1, 4⟩

/-- The run of `TestGetRefundsForPayment`: refunds of 30 and 20 on the completed
payment of `s2`. -/
def g4 : Stores :=
  step (step s2 ⟨"r1", "t2", 3, 3, 3⟩ (.createRefund ⟨"p1", 30, "Refund 1"⟩))
    ⟨"r2", "t3", 4, 4, 4⟩ (.createRefund ⟨"p1", 20, "Refund 2"⟩)

/-- A payment requested with a lower-case currency code, created and processed. -/
def w2 : Stores :=
  step (step emptyStores ⟨"p1", "", 1, 1, 1⟩
      (.createPayment ⟨"o1", "u1", 10, "usd", "m1", ""⟩))
    ⟨"t1", "", 2, 2, 2⟩ (.processPayment "p1")

/-- Two payments of one user, as saved by `TestGetPaymentsByUser`, the first one
saved a second time with a new status. -/
def saved : List Payment :=
  [⟨"p1", "order-123", "user-456", 9999 / 100, "USD", "pending", "method-789", "", "", 1, 1⟩,
   ⟨"p2", "order-456", "user-456", 9999 / 100, "USD", "pending", "method-789", "", "", 2, 2⟩,
   ⟨"p1", "order-123", "user-456", 9999 / 100, "USD", "completed", "method-789", "", "t1", 1, 3⟩]

/-- The record of `p1` saved last in `saved`. -/
def resaved : Payment :=
  ⟨"p1", "order-123", "user-456", 9999 / 100, "USD", "completed", "method-789", "", "t1", 1, 3⟩

/-- The record of `p2` in `saved`. -/
def savedSecond : Payment :=
  ⟨"p2", "order-456", "user-456", 9999 / 100, "USD", "pending", "method-789", "", "", 2, 2⟩

/-- A refund of 99.996 on the completed payment of 100 of `s2`. -/
def x3 : Stores :=
  step s2 ⟨"r1", "t2", 3, 3, 3⟩ (.createRefund ⟨"p1", 99996 / 1000, "Almost all"⟩)

/-- A request of 0.4 yen. -/
def tinyYen : CreatePaymentRequest := ⟨"o1", "u1", 4 / 10, "JPY", "m1", ""⟩

/-- A request of 0.004 dollars. -/
def tinyDollar : CreatePaymentRequest := ⟨"o1", "u1", 4 / 1000, "USD", "m1", ""⟩

/-- A refund of 0.004 on the completed payment of 100 of `s2`. -/
def tinyRefund : CreateRefundRequest := ⟨"p1", 4 / 1000, "Tiny"⟩

/-- The payment `p1` as first saved, for order `o1` and user `u1`. -/
def movedFirst : Payment := ⟨"p1", "o1", "u1", 10, "USD", "pending", "m1", "", "", 1, 1⟩

/-- The payment `p1` as saved again, for order `o2` and user `u2`. -/
def movedLast : Payment := ⟨"p1", "o2", "u2", 10, "USD", "pending", "m1", "", "", 1, 2⟩

/-- The payment `p1` saved, deleted, saved again with a new status, and a second
payment of the same user saved. -/
def churn : List RepoOp :=
  [.save pending, .delete "p1", .save completed, .save savedSecond]

end scenario

/-! ## The type `float64` -/

namespace Go

/-- Two to the power `e`, for any integer `e`. -/
def pow2 (e : ℤ) : ℚ :=
  if 0 ≤ e then ((2 ^ e.toNat : ℕ) : ℚ) else 1 / ((2 ^ (-e).toNat : ℕ) : ℚ)

/-- The number of halvings that bring `n` below 2, counted with at most `fuel`
steps; with `fuel = n` this is the position of the leading bit of `n`. -/
def halvings : Nat → Nat → Nat
  | 0, _ => 0
  | fuel + 1, n => if n < 2 then 0 else halvings fuel (n / 2) + 1

/-- The position of the leading bit of `n` (0 for `n < 2`). -/
def leadingBit (n : Nat) : Nat := halvings n n

/-- The binary exponent of a positive rational `q`: the `e` with
`2^e ≤ q < 2^(e+1)`, found from the leading bits of numerator and
denominator. -/
def exponent (q : ℚ) : ℤ :=
  let e0 : ℤ := (leadingBit q.num.natAbs : ℤ) - (leadingBit q.den : ℤ)
  if pow2 e0 ≤ q then e0 else e0 - 1

/-- The integer nearest to `x`, an exact half going to the even neighbour. -/
def roundHalfEven (x : ℚ) : ℤ :=
  let f := Int.floor x
  let r := x - f
  if r < 1 / 2 then f else if 1 / 2 < r then f + 1 else if f % 2 = 0 then f else f + 1

/-- A value of the Go type `float64` (IEEE 754 binary64): a finite value, given
by the rational it stands for, an infinity or a NaN.  The sign of zero is not
kept; no operation of the service tells the two zeros apart. -/
inductive Float64 where
  | finite (value : ℚ)
  | inf (negative : Bool)
  | nan
deriving DecidableEq

namespace Float64

/-- The `float64` nearest to the real number `q`, ties to even: 53 significant
bits for a normal result, multiples of `2^-1074` below `2^-1022`, and an
infinity when the rounded magnitude reaches `2^1024`.  This is the rounding of
every arithmetic operation, and of a decimal literal or JSON number read into a
`float64`. -/
def ofRat (q : ℚ) : Float64 :=
  if q = 0 then finite 0
  else
    let a := |q|
    let e := max (exponent a) (-1022)
    let ulp := pow2 (e - 52)
    let r := (roundHalfEven (a / ulp) : ℚ) * ulp
    if pow2 1024 ≤ r then inf (decide (q < 0))
    else finite (if q < 0 then -r else r)

/-- The operator `+` on `float64`. -/
def add : Float64 → Float64 → Float64
  | finite x, finite y => ofRat (x + y)
  | finite _, inf n => inf n
  | inf n, finite _ => inf n
  | inf n, inf m => if n = m then inf n else nan
  | _, _ => nan

/-- The operator unary `-` on `float64`. -/
def neg : Float64 → Float64
  | finite x => finite (-x)
  | inf n => inf (!n)
  | nan => nan

/-- The operator `-` on `float64`. -/
def sub (x y : Float64) : Float64 := add x (neg y)

/-- The operator `*` on `float64`. -/
def mul : Float64 → Float64 → Float64
  | finite x, finite y => ofRat (x * y)
  | finite x, inf n => if x = 0 then nan else inf (if x < 0 then !n else n)
  | inf n, finite y => if y = 0 then nan else inf (if y < 0 then !n else n)
  | inf n, inf m => inf (n != m)
  | _, _ => nan

/-- The operator `/` on `float64`.  A zero divisor counts as positive zero. -/
def div : Float64 → Float64 → Float64
  | finite x, finite y =>
    if y = 0 then (if x = 0 then nan else inf (decide (x < 0))) else ofRat (x / y)
  | finite _, inf _ => finite 0
  | inf n, finite y => inf (if y < 0 then !n else n)
  | _, _ => nan

/-- The operator `<` on `float64`; false as soon as one side is a NaN. -/
def lt : Float64 → Float64 → Bool
  | finite x, finite y => decide (x < y)
  | finite _, inf n => !n
  | inf n, finite _ => n
  | inf n, inf m => n && !m
  | _, _ => false

/-- The operator `<=` on `float64`; false as soon as one side is a NaN. -/
def le : Float64 → Float64 → Bool
  | finite x, finite y => decide (x ≤ y)
  | finite _, inf n => !n
  | inf n, finite _ => n
  | inf n, inf m => n || !m
  | _, _ => false

/-- The operator `>` on `float64`. -/
def gt (x y : Float64) : Bool := lt y x

/-- The operator `>=` on `float64`. -/
def ge (x y : Float64) : Bool := le y x

end Float64

/-- Model of `math.Round` on a `float64`: the nearest integer, halves away from
zero; the result is a `float64` again, and infinities and NaN are returned as
they are. -/
def RoundFloat64 : Float64 → Float64
  | .finite x => .finite (Round x)
  | .inf n => .inf n
  | .nan => .nan

/-- Model of `math.Pow(10, float64(d))` for a small non-negative integer `d`,
where the power of ten is a `float64` itself. -/
def Pow10 (d : Nat) : Float64 := Float64.ofRat (10 ^ d)

/-- Model of the verb `%.2f` on a `float64`: the exact binary value to the
nearest hundredth. -/
def fmt2fFloat64 : Float64 → String
  | .finite x => fmt2f x
  | .inf n => if n then "-Inf" else "+Inf"
  | .nan => "NaN"

end Go

/-! ## The payment service on `float64`

The same operations as above with every amount a `float64`, so that sums,
products, quotients and comparisons are rounded as the program rounds them.
The string helpers, the map helpers, the status constants and `Env` are shared
with the exact rendering. -/

namespace float64

open Go

namespace models

structure Payment where
  ID : String
  OrderID : String
  UserID : String
  Amount : Float64
  Currency : String
  Status : String
  MethodID : String
  Description : String
  TransactionID : String
  CreatedAt : Nat
  UpdatedAt : Nat
deriving DecidableEq

structure CreatePaymentRequest where
  OrderID : String
  UserID : String
  Amount : Float64
  Currency : String
  MethodID : String
  Description : String
deriving DecidableEq

structure Refund where
  ID : String
  PaymentID : String
  Amount : Float64
  Reason : String
  Status : String
  CreatedAt : Nat
deriving DecidableEq

structure CreateRefundRequest where
  PaymentID : String
  Amount : Float64
  Reason : String
deriving DecidableEq

structure Transaction where
  ID : String
  PaymentID : String
  Type_ : String
  Amount : Float64
  Currency : String
  Status : String
  Metadata : List (String × String)
  CreatedAt : Nat
deriving DecidableEq

end models

namespace utils

/-- The function `RoundToDecimalPlaces`: `math.Round(amount*factor) / factor`
with `factor := math.Pow(10, float64(info.DecimalPlaces))`. -/
def RoundToDecimalPlaces (amount : Float64) (currency : String) : Float64 :=
  let info : utils.CurrencyInfo :=
    match mapGet utils.SupportedCurrencies (Go.ToUpper currency) with
    | some i => i
    | none => ⟨"", "", 2⟩
  let factor := Go.Pow10 info.DecimalPlaces
  (Go.RoundFloat64 (amount.mul factor)).div factor

/-- The function `ValidatePositiveAmount`: the guard `amount <= 0`, which a NaN
does not meet. -/
def ValidatePositiveAmount (amount : Float64) (fieldName : String) : Option String :=
  if amount.le (.finite 0) then some (fieldName ++ " must be a positive amount") else none

end utils

namespace repositories

open float64.models

structure PaymentRepository where
  payments : List (String × Payment)
  orderIdx : List (String × List String)
  userIdx : List (String × List String)
deriving DecidableEq

def NewPaymentRepository : PaymentRepository := ⟨[], [], []⟩

/-- The method `Save`: the repository after the write (the method returns its
argument and a nil error). -/
def PaymentRepository.Save (r : PaymentRepository) (payment : Payment) : PaymentRepository :=
  { payments := mapSet r.payments payment.ID payment
    orderIdx := repositories.indexAdd r.orderIdx payment.OrderID payment.ID
    userIdx := repositories.indexAdd r.userIdx payment.UserID payment.ID }

def PaymentRepository.FindByID (r : PaymentRepository) (id : String) : Except String Payment :=
  match mapGet r.payments id with
  | none => .error ("payment not found: " ++ id)
  | some payment => .ok payment

structure TransactionRepository where
  transactions : List (String × Transaction)
  paymentIdx : List (String × List String)
deriving DecidableEq

def NewTransactionRepository : TransactionRepository := ⟨[], []⟩

/-- The method `Save` of the ledger: the repository after the write. -/
def TransactionRepository.Save (r : TransactionRepository) (tx : Transaction) :
    TransactionRepository :=
  { transactions := mapSet r.transactions tx.ID tx
    paymentIdx := repositories.indexAdd r.paymentIdx tx.PaymentID tx.ID }

/-- The method `FindByPaymentID`: the indexed IDs of the payment, in index order,
each resolved in the primary map and skipped when absent. -/
def TransactionRepository.FindByPaymentID (r : TransactionRepository) (paymentID : String) :
    List Transaction :=
  let ids := (mapGet r.paymentIdx paymentID).getD []
  ids.filterMap (fun id => mapGet r.transactions id)

/-- The loop of `GetTotalByType` over the stored transactions in the order
`visit`.  Go leaves the order of a `range` over a map open, so the order is an
input: any rearrangement of the stored transactions. -/
def totalByType (visit : List Transaction) (txType : String) : Float64 :=
  visit.foldl (fun total tx => if tx.Type_ = txType then total.add tx.Amount else total)
    (.finite 0)

/-- The orders in which a `range` over the primary map can meet the stored
transactions. -/
def TransactionRepository.visits (r : TransactionRepository) : List (List Transaction) :=
  (r.transactions.map Prod.snd).permutations

end repositories

namespace services

open float64.models float64.repositories float64.utils

structure Stores where
  paymentRepo : PaymentRepository
  transactionRepo : TransactionRepository
deriving DecidableEq

def emptyStores : Stores := ⟨NewPaymentRepository, NewTransactionRepository⟩

namespace PaymentService

def validateCreateRequest (req : CreatePaymentRequest) : Option String :=
  let ve := utils.NewValidationErrors
  let ve := ve.Add (utils.ValidateRequired req.OrderID "order_id")
  let ve := ve.Add (utils.ValidateRequired req.UserID "user_id")
  let ve := ve.Add (ValidatePositiveAmount req.Amount "amount")
  let ve := ve.Add (utils.ValidateCurrency req.Currency)
  let ve := ve.Add (utils.ValidateRequired req.MethodID "method_id")
  if ve.HasErrors then some ("validation failed: " ++ ve.Error) else none

def CreatePayment (s : Stores) (e : services.Env) (req : CreatePaymentRequest) :
    Except String Payment × Stores :=
  match validateCreateRequest req with
  | some err => (.error err, s)
  | none =>
    let payment : Payment :=
      { ID := e.uuid1
        OrderID := req.OrderID
        UserID := req.UserID
        Amount := RoundToDecimalPlaces req.Amount req.Currency
        Currency := req.Currency
        Status := models.PaymentStatusPending
        MethodID := req.MethodID
        Description := req.Description
        TransactionID := ""
        CreatedAt := e.now1
        UpdatedAt := e.now2 }
    (.ok payment, { s with paymentRepo := s.paymentRepo.Save payment })

def ProcessPayment (s : Stores) (e : services.Env) (paymentID : String) :
    Except String Payment × Stores :=
  match s.paymentRepo.FindByID paymentID with
  | .error err => (.error err, s)
  | .ok payment =>
    if payment.Status ≠ models.PaymentStatusPending then
      (.error ("payment is not in pending status: " ++ payment.Status), s)
    else
      let tx : Transaction :=
        { ID := e.uuid1
          PaymentID := payment.ID
          Type_ := models.TransactionTypeCharge
          Amount := payment.Amount
          Currency := payment.Currency
          Status := "completed"
          Metadata := [("order_id", payment.OrderID), ("user_id", payment.UserID)]
          CreatedAt := e.now2 }
      let payment : Payment :=
        { payment with
          Status := models.PaymentStatusCompleted
          UpdatedAt := e.now1
          TransactionID := tx.ID }
      (.ok payment,
        { paymentRepo := s.paymentRepo.Save payment
          transactionRepo := s.transactionRepo.Save tx })

end PaymentService

namespace RefundService

def validateRefundRequest (req : CreateRefundRequest) : Option String :=
  let ve := utils.NewValidationErrors
  let ve := ve.Add (utils.ValidateRequired req.PaymentID "payment_id")
  let ve := ve.Add (ValidatePositiveAmount req.Amount "amount")
  let ve := ve.Add (utils.ValidateRequired req.Reason "reason")
  if ve.HasErrors then some ("validation failed: " ++ ve.Error) else none

/-- The method `getTotalRefunded`: the loop adding up, in `float64`, the
refund-type entries that `FindByPaymentID` returns. -/
def getTotalRefunded (s : Stores) (paymentID : String) : Float64 :=
  (s.transactionRepo.FindByPaymentID paymentID).foldl
    (fun total tx =>
      if tx.Type_ = models.TransactionTypeRefund then total.add tx.Amount else total)
    (.finite 0)

/-- The message of the over-refund error. -/
def exceedMessage (amount paymentAmount totalRefunded : Float64) : String :=
  "refund amount (" ++ Go.fmt2fFloat64 amount ++ ") would exceed payment amount (" ++
    Go.fmt2fFloat64 paymentAmount ++ "), already refunded: " ++ Go.fmt2fFloat64 totalRefunded

def CreateRefund (s : Stores) (e : services.Env) (req : CreateRefundRequest) :
    Except String Refund × Stores :=
  match validateRefundRequest req with
  | some err => (.error err, s)
  | none =>
    match s.paymentRepo.FindByID req.PaymentID with
    | .error _ => (.error ("payment not found: " ++ req.PaymentID), s)
    | .ok payment =>
      if payment.Status ≠ models.PaymentStatusCompleted then
        (.error "can only refund completed payments", s)
      else
        let totalRefunded := getTotalRefunded s payment.ID
        if (totalRefunded.add req.Amount).gt payment.Amount then
          (.error (exceedMessage req.Amount payment.Amount totalRefunded), s)
        else
          let refund : Refund :=
            { ID := e.uuid1
              PaymentID := req.PaymentID
              Amount := RoundToDecimalPlaces req.Amount payment.Currency
              Reason := req.Reason
              Status := models.RefundStatusCompleted
              CreatedAt := e.now1 }
          let tx : Transaction :=
            { ID := e.uuid2
              PaymentID := payment.ID
              Type_ := models.TransactionTypeRefund
              Amount := refund.Amount
              Currency := payment.Currency
              Status := "completed"
              Metadata := [("refund_id", refund.ID), ("reason", req.Reason)]
              CreatedAt := e.now2 }
          let transactionRepo := s.transactionRepo.Save tx
          if (totalRefunded.add req.Amount).ge payment.Amount then
            let payment : Payment :=
              { payment with Status := models.PaymentStatusRefunded, UpdatedAt := e.now3 }
            (.ok refund,
              { paymentRepo := s.paymentRepo.Save payment, transactionRepo := transactionRepo })
          else
            (.ok refund, { s with transactionRepo := transactionRepo })

end RefundService

structure LedgerSummary where
  TotalCharges : Float64
  TotalRefunds : Float64
  NetRevenue : Float64
deriving DecidableEq

namespace LedgerService

/-- The amounts of `GetSummary`, for the orders `visitCharges` and
`visitRefunds` in which the two calls of `GetTotalByType` meet the stored
transactions. -/
def GetSummary (visitCharges visitRefunds : List Transaction) : LedgerSummary :=
  let totalCharges := totalByType visitCharges models.TransactionTypeCharge
  let totalRefunds := totalByType visitRefunds models.TransactionTypeRefund
  { TotalCharges := totalCharges
    TotalRefunds := totalRefunds
    NetRevenue := totalCharges.sub totalRefunds }

end LedgerService

end services

namespace spec

open float64.models float64.repositories float64.utils float64.services

/-- The refund record `CreateRefund` returns for a request against payment `P`. -/
def refundRecord (e : services.Env) (req : CreateRefundRequest) (P : Payment) : Refund :=
  ⟨e.uuid1, req.PaymentID, RoundToDecimalPlaces req.Amount P.Currency, req.Reason,
    models.RefundStatusCompleted, e.now1⟩

/-- The refund transaction `CreateRefund` appends for a request against `P`. -/
def refundTransaction (e : services.Env) (req : CreateRefundRequest) (P : Payment) :
    Transaction :=
  ⟨e.uuid2, P.ID, models.TransactionTypeRefund, RoundToDecimalPlaces req.Amount P.Currency,
    P.Currency, "completed", [("refund_id", e.uuid1), ("reason", req.Reason)], e.now2⟩

/-- The payment record `CreateRefund` stores when it sets `P` to refunded. -/
def refundedPayment (e : services.Env) (P : Payment) : Payment :=
  { P with Status := models.PaymentStatusRefunded, UpdatedAt := e.now3 }

/-- The `float64` sum `totalRefunded + req.Amount` that `CreateRefund` compares
with the amount of the payment `P`. -/
def rawSum (s : Stores) (req : CreateRefundRequest) (P : Payment) : Float64 :=
  (RefundService.getTotalRefunded s P.ID).add req.Amount

end spec

/-! ### Calls that overlap

A call of `ProcessPayment` or `CreateRefund` touches shared data several times:
each repository method runs under the lock of its repository, and between two
of them nothing is locked.  A call is therefore a sequence of steps, one for
each access to shared data, and calls that run at the same time take their
steps in any order.  The local variable `payment` is a pointer to the stored
record; it is kept as the key under which the record was found, and reads and
writes through it go to the payment store. -/

namespace concurrent

open float64.models float64.repositories float64.utils float64.services

/-- Where a call of `ProcessPayment` stands: before `FindByID`, before the status
check, before the writes to the record, before `transactionRepo.Save`, before
`paymentRepo.Save`, or returned. -/
inductive ProcessCall where
  | start (paymentID : String)
  | found (payment : String)
  | checked (payment : String)
  | built (payment : String) (tx : Transaction)
  | ledgered (payment : String)
  | returned (result : Except String Payment)
deriving DecidableEq

/-- One step of a call of `ProcessPayment`.  A record is never removed from the
payment store by a service, so the branches for a missing record are never
taken. -/
def ProcessCall.step (s : Stores) (e : services.Env) : ProcessCall → ProcessCall × Stores
  | .start paymentID =>
    match s.paymentRepo.FindByID paymentID with
    | .error err => (.returned (.error err), s)
    | .ok _ => (.found paymentID, s)
  | .found p =>
    match mapGet s.paymentRepo.payments p with
    | none => (.returned (.error "record missing"), s)
    | some payment =>
      if payment.Status ≠ models.PaymentStatusPending then
        (.returned (.error ("payment is not in pending status: " ++ payment.Status)), s)
      else (.checked p, s)
  | .checked p =>
    match mapGet s.paymentRepo.payments p with
    | none => (.returned (.error "record missing"), s)
    | some payment =>
      let tx : Transaction :=
        { ID := e.uuid1
          PaymentID := payment.ID
          Type_ := models.TransactionTypeCharge
          Amount := payment.Amount
          Currency := payment.Currency
          Status := "completed"
          Metadata := [("order_id", payment.OrderID), ("user_id", payment.UserID)]
          CreatedAt := e.now2 }
      let payment : Payment :=
        { payment with
          Status := models.PaymentStatusCompleted
          UpdatedAt := e.now1
          TransactionID := tx.ID }
      (.built p tx,
        { s with paymentRepo :=
            { s.paymentRepo with payments := mapSet s.paymentRepo.payments p payment } })
  | .built p tx => (.ledgered p, { s with transactionRepo := s.transactionRepo.Save tx })
  | .ledgered p =>
    match mapGet s.paymentRepo.payments p with
    | none => (.returned (.error "record missing"), s)
    | some payment =>
      (.returned (.ok payment), { s with paymentRepo := s.paymentRepo.Save payment })
  | .returned result => (.returned result, s)

/-- Where a call of `CreateRefund` stands: before `FindByID`, before the status
check, before `getTotalRefunded`, before the over-refund check, before
`transactionRepo.Save`, before the status update, or returned. -/
inductive RefundCall where
  | start (req : CreateRefundRequest)
  | found (req : CreateRefundRequest) (payment : String)
  | checked (req : CreateRefundRequest) (payment : String)
  | summed (req : CreateRefundRequest) (payment : String) (totalRefunded : Float64)
  | built (req : CreateRefundRequest) (payment : String) (totalRefunded : Float64)
      (refund : Refund) (tx : Transaction)
  | ledgered (req : CreateRefundRequest) (payment : String) (totalRefunded : Float64)
      (refund : Refund)
  | returned (result : Except String Refund)
deriving DecidableEq

/-- One step of a call of `CreateRefund`. -/
def RefundCall.step (s : Stores) (e : services.Env) : RefundCall → RefundCall × Stores
  | .start req =>
    match RefundService.validateRefundRequest req with
    | some err => (.returned (.error err), s)
    | none =>
      match s.paymentRepo.FindByID req.PaymentID with
      | .error _ => (.returned (.error ("payment not found: " ++ req.PaymentID)), s)
      | .ok _ => (.found req req.PaymentID, s)
  | .found req p =>
    match mapGet s.paymentRepo.payments p with
    | none => (.returned (.error "record missing"), s)
    | some payment =>
      if payment.Status ≠ models.PaymentStatusCompleted then
        (.returned (.error "can only refund completed payments"), s)
      else (.checked req p, s)
  | .checked req p =>
    match mapGet s.paymentRepo.payments p with
    | none => (.returned (.error "record missing"), s)
    | some payment => (.summed req p (RefundService.getTotalRefunded s payment.ID), s)
  | .summed req p totalRefunded =>
    match mapGet s.paymentRepo.payments p with
    | none => (.returned (.error "record missing"), s)
    | some payment =>
      if (totalRefunded.add req.Amount).gt payment.Amount then
        (.returned
          (.error (RefundService.exceedMessage req.Amount payment.Amount totalRefunded)), s)
      else
        let refund : Refund :=
          { ID := e.uuid1
            PaymentID := req.PaymentID
            Amount := RoundToDecimalPlaces req.Amount payment.Currency
            Reason := req.Reason
            Status := models.RefundStatusCompleted
            CreatedAt := e.now1 }
        let tx : Transaction :=
          { ID := e.uuid2
            PaymentID := payment.ID
            Type_ := models.TransactionTypeRefund
            Amount := refund.Amount
            Currency := payment.Currency
            Status := "completed"
            Metadata := [("refund_id", refund.ID), ("reason", req.Reason)]
            CreatedAt := e.now2 }
        (.built req p totalRefunded refund tx, s)
  | .built req p totalRefunded refund tx =>
    (.ledgered req p totalRefunded refund,
      { s with transactionRepo := s.transactionRepo.Save tx })
  | .ledgered req p totalRefunded refund =>
    match mapGet s.paymentRepo.payments p with
    | none => (.returned (.error "record missing"), s)
    | some payment =>
      if (totalRefunded.add req.Amount).ge payment.Amount then
        let payment : Payment :=
          { payment with Status := models.PaymentStatusRefunded, UpdatedAt := e.now3 }
        (.returned (.ok refund), { s with paymentRepo := s.paymentRepo.Save payment })
      else (.returned (.ok refund), s)
  | .returned result => (.returned result, s)

/-- A call in progress. -/
inductive Call where
  | process (c : ProcessCall)
  | refund (c : RefundCall)
deriving DecidableEq

/-- One step of a call. -/
def Call.step (s : Stores) (e : services.Env) : Call → Call × Stores
  | .process c => (.process (c.step s e).1, (c.step s e).2)
  | .refund c => (.refund (c.step s e).1, (c.step s e).2)

/-- The stores and the calls in progress, each with the IDs and times the
runtime hands to it. -/
structure System where
  stores : Stores
  calls : List (services.Env × Call)
deriving DecidableEq

/-- The call at position `i` takes its next step. -/
def System.step (sys : System) (i : Nat) : System :=
  match sys.calls.get? i with
  | none => sys
  | some (e, c) =>
    { stores := (c.step sys.stores e).2
      calls := sys.calls.set i (e, (c.step sys.stores e).1) }

/-- The system after the calls have taken their steps in the order `schedule`. -/
def System.run (sys : System) (schedule : List Nat) : System :=
  schedule.foldl System.step sys

end concurrent

namespace scenario

open float64.models float64.repositories float64.utils float64.services float64.concurrent

/-- A payment of `amount` dollars, read as a `float64`, created as `p1` and
processed with the charge `t1`. -/
def paid (amount : ℚ) : Stores :=
  (PaymentService.ProcessPayment
    (PaymentService.CreatePayment emptyStores ⟨"p1", "", 1, 1, 1⟩
      ⟨"o1", "u1", .ofRat amount, "USD", "m1", ""⟩).2
    ⟨"t1", "", 2, 2, 2⟩ "p1").2

/-- A first refund request of `amount` dollars on `p1`, recorded as `r1`, `t2`. -/
def refund1 (s : Stores) (amount : ℚ) : Except String Refund × Stores :=
  RefundService.CreateRefund s ⟨"r1", "t2", 3, 3, 3⟩ ⟨"p1", .ofRat amount, "first"⟩

/-- A second refund request of `amount` dollars on `p1`, recorded as `r2`, `t3`. -/
def refund2 (s : Stores) (amount : ℚ) : Except String Refund × Stores :=
  RefundService.CreateRefund s ⟨"r2", "t3", 4, 4, 4⟩ ⟨"p1", .ofRat amount, "second"⟩

/-- A third refund request of `amount` dollars on `p1`, recorded as `r3`, `t4`. -/
def refund3 (s : Stores) (amount : ℚ) : Except String Refund × Stores :=
  RefundService.CreateRefund s ⟨"r3", "t4", 5, 5, 5⟩ ⟨"p1", .ofRat amount, "third"⟩

/-- The status of `p1` and the amounts of the refunds recorded for it. -/
def outcome (s : Stores) : Option String × List Float64 :=
  ((mapGet s.paymentRepo.payments "p1").map (fun p => p.Status),
    ((s.transactionRepo.FindByPaymentID "p1").filter
      (fun t => t.Type_ = "refund")).map (fun t => t.Amount))

/-- The amount 2^53, above which a `float64` no longer holds every integer. -/
def big : ℚ := 9007199254740992

/-- The pending payment `p1` of 100 dollars. -/
def pending100 : Stores :=
  (PaymentService.CreatePayment emptyStores ⟨"p1", "", 1, 1, 1⟩
    ⟨"o1", "u1", .ofRat 100, "USD", "m1", ""⟩).2

/-- Two calls of `ProcessPayment` on the pending payment `p1` at the same time. -/
def twoProcess : System :=
  { stores := pending100
    calls := [(⟨"t1", "", 2, 2, 2⟩, .process (.start "p1")),
              (⟨"t2", "", 3, 3, 3⟩, .process (.start "p1"))] }

/-- Two calls of `CreateRefund` of 60 dollars each on the completed payment `p1`
of 100 dollars at the same time. -/
def twoRefunds : System :=
  { stores := paid 100
    calls := [(⟨"r1", "t2", 3, 3, 3⟩, .refund (.start ⟨"p1", .ofRat 60, "first"⟩)),
              (⟨"r2", "t3", 4, 4, 4⟩, .refund (.start ⟨"p1", .ofRat 60, "second"⟩))] }

/-- The ledger in short: ID, type, payment and amount of every transaction. -/
def ledger (s : Stores) : List (String × String × String × Float64) :=
  s.transactionRepo.transactions.map (fun kv => (kv.1, kv.2.Type_, kv.2.PaymentID, kv.2.Amount))

end scenario

end float64

/-! ## Lemmas on the library models and on maps -/

section BasicLemmas

open models repositories utils services spec

theorem dropWhile_eq_nil_iff_all {α : Type} (p : α → Bool) (l : List α) :
    l.dropWhile p = [] ↔ l.all p = true := by
  induction l with
  | nil => simp
  | cons a t ih =>
    by_cases h : p a = true
    · simp [List.dropWhile, h, ih]
    · simp [List.dropWhile, h]

theorem dropWhile_dropWhile_reverse_eq_nil {α : Type} (p : α → Bool) (l : List α) :
    ((l.dropWhile p).reverse.dropWhile p) = [] ↔ l.all p = true := by
  constructor
  · intro h
    rw [dropWhile_eq_nil_iff_all] at h
    have hall : ∀ x ∈ l.dropWhile p, p x = true := by
      intro x hx
      have := List.all_eq_true.mp h x (List.mem_reverse.mpr hx)
      exact this
    rw [← dropWhile_eq_nil_iff_all]
    cases hd : l.dropWhile p with
    | nil => rfl
    | cons a t =>
      exfalso
      have h1 : p a = true := hall a (by rw [hd]; exact List.mem_cons_self a t)
      have h2 := List.head_dropWhile_not p l (by rw [hd]; simp)
      simp [hd] at h2
      rw [h1] at h2
      exact absurd h2 (by simp)
  · intro h
    rw [(dropWhile_eq_nil_iff_all p l).mpr h]
    rfl

theorem TrimSpace_eq_empty_iff (s : String) : Go.TrimSpace s = "" ↔ isBlank s = true := by
  unfold Go.TrimSpace isBlank
  rw [← dropWhile_dropWhile_reverse_eq_nil]
  constructor
  · intro h
    have h2 := congrArg String.data h
    simpa using h2
  · intro h
    rw [h]
    rfl

theorem ValidateRequired_eq (value fieldName : String) :
    ValidateRequired value fieldName =
      if isBlank value then some (fieldName ++ " is required") else none := by
  unfold ValidateRequired
  by_cases h : isBlank value = true
  · simp [h, (TrimSpace_eq_empty_iff value).mpr h]
  · have h2 : ¬ Go.TrimSpace value = "" := fun hc => h ((TrimSpace_eq_empty_iff value).mp hc)
    simp [h, h2]

theorem mapGet_SupportedCurrencies_eq_none (u : String) :
    mapGet SupportedCurrencies u = none ↔ u ∉ ["USD", "EUR", "GBP", "CAD", "JPY"] := by
  unfold SupportedCurrencies
  simp only [mapGet, List.mem_cons, List.mem_singleton, List.not_mem_nil, or_false]
  by_cases h1 : "USD" = u
  · subst h1; simp
  by_cases h2 : "EUR" = u
  · subst h2; simp
  by_cases h3 : "GBP" = u
  · subst h3; simp
  by_cases h4 : "CAD" = u
  · subst h4; simp
  by_cases h5 : "JPY" = u
  · subst h5; simp
  rw [if_neg h1, if_neg h2, if_neg h3, if_neg h4, if_neg h5]
  simp only [true_iff, not_or]
  exact ⟨fun h => h1 h.symm, fun h => h2 h.symm, fun h => h3 h.symm, fun h => h4 h.symm,
    fun h => h5 h.symm⟩

theorem ValidateCurrency_eq (code : String) :
    ValidateCurrency code =
      if supportedCode code then none else some ("unsupported currency: " ++ code) := by
  unfold ValidateCurrency supportedCode
  by_cases h : Go.ToUpper code ∈ ["USD", "EUR", "GBP", "CAD", "JPY"]
  · rw [if_pos h]
    cases hm : mapGet SupportedCurrencies (Go.ToUpper code) with
    | none => exact absurd h ((mapGet_SupportedCurrencies_eq_none _).mp hm)
    | some i => simp only [hm]
  · rw [if_neg h]
    simp only [(mapGet_SupportedCurrencies_eq_none _).mpr h]

/-- The message built by `validateCreateRequest` lists exactly the entries of
`createViolations`. -/
theorem validateCreateRequest_eq (req : CreatePaymentRequest) :
    PaymentService.validateCreateRequest req =
      if createViolations req = [] then none
      else some ("validation failed: " ++ Go.Join (createViolations req) "; ") := by
  unfold PaymentService.validateCreateRequest createViolations
  simp only [ValidateRequired_eq, ValidateCurrency_eq, ValidatePositiveAmount,
    NewValidationErrors, ValidationErrors.HasErrors, ValidationErrors.Error]
  by_cases h1 : isBlank req.OrderID = true <;> by_cases h2 : isBlank req.UserID = true <;>
    by_cases h3 : req.Amount ≤ 0 <;> by_cases h4 : supportedCode req.Currency <;>
    by_cases h5 : isBlank req.MethodID = true <;>
    simp [h1, h2, h3, h4, h5, ValidationErrors.Add]

end BasicLemmas

/-! ## Effect of the payment operations -/

section PaymentEffects

open models repositories utils services spec

theorem FindByID_eq_ok_iff (r : PaymentRepository) (id : String) (P : Payment) :
    r.FindByID id = .ok P ↔ mapGet r.payments id = some P := by
  unfold PaymentRepository.FindByID
  cases h : mapGet r.payments id <;> simp

theorem mapGet_mapSet_self {α : Type} (m : List (String × α)) (k : String) (v : α) :
    mapGet (mapSet m k v) k = some v := by
  induction m with
  | nil => simp [mapSet, mapGet]
  | cons a t ih =>
    obtain ⟨k', v'⟩ := a
    by_cases h : k' = k
    · simp [mapSet, mapGet, h]
    · simp [mapSet, mapGet, h, ih]

theorem mapGet_mapSet_ne {α : Type} (m : List (String × α)) (k k' : String) (v : α)
    (h : k' ≠ k) : mapGet (mapSet m k v) k' = mapGet m k' := by
  induction m with
  | nil => simp [mapSet, mapGet, h.symm]
  | cons a t ih =>
    obtain ⟨k0, v0⟩ := a
    by_cases h0 : k0 = k
    · subst h0
      simp [mapSet, mapGet, h.symm]
    · by_cases h1 : k0 = k'
      · subst h1
        simp [mapSet, mapGet, h0]
      · simp [mapSet, mapGet, h0, h1, ih]

/-- Outcome of `CreatePayment` when validation passes. -/
theorem CreatePayment_of_valid (s : Stores) (e : Env) (req : CreatePaymentRequest)
    (h : createViolations req = []) :
    PaymentService.CreatePayment s e req =
      (.ok (createdPayment e req),
       { s with paymentRepo := s.paymentRepo.Save (createdPayment e req) }) := by
  unfold PaymentService.CreatePayment
  rw [validateCreateRequest_eq, if_pos h]
  rfl

/-- Outcome of `CreatePayment` when validation fails. -/
theorem CreatePayment_of_invalid (s : Stores) (e : Env) (req : CreatePaymentRequest)
    (h : createViolations req ≠ []) :
    PaymentService.CreatePayment s e req =
      (.error ("validation failed: " ++ Go.Join (createViolations req) "; "), s) := by
  unfold PaymentService.CreatePayment
  rw [validateCreateRequest_eq, if_neg h]

theorem createViolations_eq_nil_iff (req : CreatePaymentRequest) :
    createViolations req = [] ↔
      (isBlank req.OrderID = false ∧ isBlank req.UserID = false ∧ 0 < req.Amount ∧
        supportedCode req.Currency ∧ isBlank req.MethodID = false) := by
  unfold createViolations
  by_cases h1 : isBlank req.OrderID = true <;> by_cases h2 : isBlank req.UserID = true <;>
    by_cases h3 : req.Amount ≤ 0 <;> by_cases h4 : supportedCode req.Currency <;>
    by_cases h5 : isBlank req.MethodID = true <;>
    simp [h1, h2, h3, h4, h5]
  exact not_le.mp h3

/-- Outcome of `ProcessPayment` on a pending payment. -/
theorem ProcessPayment_of_pending (s : Stores) (e : Env) (id : String) (P : Payment)
    (hP : mapGet s.paymentRepo.payments id = some P) (hs : P.Status = PaymentStatusPending) :
    PaymentService.ProcessPayment s e id =
      (.ok (completedPayment e P),
       { paymentRepo := s.paymentRepo.Save (completedPayment e P),
         transactionRepo := s.transactionRepo.Save (chargeTransaction e P) }) := by
  unfold PaymentService.ProcessPayment PaymentRepository.FindByID
  simp [hP, hs, completedPayment, chargeTransaction]

theorem ProcessPayment_of_not_pending (s : Stores) (e : Env) (id : String) (P : Payment)
    (hP : mapGet s.paymentRepo.payments id = some P) (hs : P.Status ≠ PaymentStatusPending) :
    PaymentService.ProcessPayment s e id =
      (.error ("payment is not in pending status: " ++ P.Status), s) := by
  unfold PaymentService.ProcessPayment PaymentRepository.FindByID
  simp [hP, hs]

theorem ProcessPayment_of_absent (s : Stores) (e : Env) (id : String)
    (hP : mapGet s.paymentRepo.payments id = none) :
    PaymentService.ProcessPayment s e id = (.error ("payment not found: " ++ id), s) := by
  unfold PaymentService.ProcessPayment PaymentRepository.FindByID
  simp [hP]

/-- Outcome of `CancelPayment` on a pending payment. -/
theorem CancelPayment_of_pending (s : Stores) (e : Env) (id : String) (P : Payment)
    (hP : mapGet s.paymentRepo.payments id = some P) (hs : P.Status = PaymentStatusPending) :
    PaymentService.CancelPayment s e id =
      (.ok (cancelledPayment e P),
       { s with paymentRepo := s.paymentRepo.Save (cancelledPayment e P) }) := by
  unfold PaymentService.CancelPayment PaymentRepository.FindByID
  simp [hP, hs, cancelledPayment]

theorem CancelPayment_of_not_pending (s : Stores) (e : Env) (id : String) (P : Payment)
    (hP : mapGet s.paymentRepo.payments id = some P) (hs : P.Status ≠ PaymentStatusPending) :
    PaymentService.CancelPayment s e id =
      (.error "only pending payments can be cancelled", s) := by
  unfold PaymentService.CancelPayment PaymentRepository.FindByID
  simp [hP, hs]

theorem CancelPayment_of_absent (s : Stores) (e : Env) (id : String)
    (hP : mapGet s.paymentRepo.payments id = none) :
    PaymentService.CancelPayment s e id = (.error ("payment not found: " ++ id), s) := by
  unfold PaymentService.CancelPayment PaymentRepository.FindByID
  simp [hP]

end PaymentEffects

/-! ## Claims on `CreatePayment`, `ProcessPayment` and `CancelPayment` -/

section LifecycleClaims

open models repositories utils services spec

/-- C5: `ProcessPayment` on an ID that no payment has fails with the store's
not-found error; on a payment whose status is not pending it fails with the
not-pending error, which names the status; on a pending payment it succeeds.
A failure leaves the stores as they were. -/
theorem ProcessPayment_failure_modes (s : Stores) (e : Env) (id : String) :
    (mapGet s.paymentRepo.payments id = none →
      s.paymentRepo.FindByID id = .error ("payment not found: " ++ id) ∧
      PaymentService.ProcessPayment s e id = (.error ("payment not found: " ++ id), s)) ∧
    (∀ P, mapGet s.paymentRepo.payments id = some P → P.Status ≠ PaymentStatusPending →
      PaymentService.ProcessPayment s e id =
        (.error ("payment is not in pending status: " ++ P.Status), s)) ∧
    (∀ P, mapGet s.paymentRepo.payments id = some P → P.Status = PaymentStatusPending →
      ∃ P', (PaymentService.ProcessPayment s e id).1 = .ok P') := by
  refine ⟨fun h => ⟨?_, ProcessPayment_of_absent s e id h⟩,
    fun P hP hs => ProcessPayment_of_not_pending s e id P hP hs,
    fun P hP hs => ⟨_, by rw [ProcessPayment_of_pending s e id P hP hs]⟩⟩
  unfold PaymentRepository.FindByID
  rw [h]

/-- C6 (claim as stated fails): an order ID made of one blank is a non-empty
string, the other fields are valid, and `CreatePayment` still rejects the
request. -/
theorem CreatePayment_rejects_whitespace_order :
    (" " : String) ≠ "" ∧ ("u1" : String) ≠ "" ∧ ("m1" : String) ≠ "" ∧ (0 : ℚ) < 100 ∧
    supportedCode "USD" ∧
    PaymentService.CreatePayment emptyStores ⟨"p1", "", 1, 1, 1⟩
        ⟨" ", "u1", 100, "USD", "m1", ""⟩ =
      (.error "validation failed: order_id is required", emptyStores) := by
  decide

/-- C6 (amended): `CreatePayment` succeeds exactly for the requests whose order,
user and method IDs are not blank, whose amount is strictly positive and whose
currency is a supported code. -/
theorem CreatePayment_succeeds_iff (s : Stores) (e : Env) (req : CreatePaymentRequest) :
    (∃ p, (PaymentService.CreatePayment s e req).1 = .ok p) ↔
      (isBlank req.OrderID = false ∧ isBlank req.UserID = false ∧ 0 < req.Amount ∧
        supportedCode req.Currency ∧ isBlank req.MethodID = false) := by
  rw [← createViolations_eq_nil_iff]
  by_cases h : createViolations req = []
  · rw [CreatePayment_of_valid s e req h]
    simp [h]
  · rw [CreatePayment_of_invalid s e req h]
    simp [h]

/-- C7 (claim as stated fails): with a one-blank order ID and a negative amount
only the amount rule is violated when "empty" is read literally, yet the
message of `CreatePayment` also carries the order_id entry. -/
theorem CreatePayment_message_lists_whitespace_order :
    createViolationsEmptyOnly ⟨" ", "u1", -1, "USD", "m1", ""⟩ =
      ["amount must be a positive amount"] ∧
    PaymentService.CreatePayment emptyStores ⟨"p1", "", 1, 1, 1⟩
        ⟨" ", "u1", -1, "USD", "m1", ""⟩ =
      (.error "validation failed: order_id is required; amount must be a positive amount",
        emptyStores) ∧
    ("validation failed: order_id is required; amount must be a positive amount" : String) ≠
      "validation failed: " ++
        Go.Join (createViolationsEmptyOnly ⟨" ", "u1", -1, "USD", "m1", ""⟩) "; " := by
  decide

/-- C7 (amended): when a request violates at least one rule (blank order ID,
blank user ID, amount not positive, unsupported currency, blank method ID),
`CreatePayment` fails, leaves the stores unchanged, and its message is
"validation failed: " followed by the entries of all violated rules joined by
"; " in the order order_id, user_id, amount, currency, method_id. -/
theorem CreatePayment_reports_all_violations (s : Stores) (e : Env)
    (req : CreatePaymentRequest) (h : createViolations req ≠ []) :
    PaymentService.CreatePayment s e req =
      (.error ("validation failed: " ++ Go.Join (createViolations req) "; "), s) :=
  CreatePayment_of_invalid s e req h

theorem CreatePayment_reports_all_violations_witness :
    createViolations ⟨" ", "", -1, "usx", "m1", ""⟩ ≠ [] ∧
    PaymentService.CreatePayment emptyStores ⟨"p1", "", 1, 1, 1⟩
        ⟨" ", "", -1, "usx", "m1", ""⟩ =
      (.error ("validation failed: " ++
        Go.Join (createViolations ⟨" ", "", -1, "usx", "m1", ""⟩) "; "), emptyStores) :=
  ⟨by decide, CreatePayment_reports_all_violations emptyStores ⟨"p1", "", 1, 1, 1⟩
    ⟨" ", "", -1, "usx", "m1", ""⟩ (by decide)⟩

/-- C8: a payment returned by a successful `CreatePayment` is pending, has an
empty transaction back-reference, carries the request's amount rounded by
`RoundToDecimalPlaces` for the request's currency and the request's order,
user, method, currency and description, and `GetPayment` on its ID returns
that same record. -/
theorem CreatePayment_success_record (s : Stores) (e : Env) (req : CreatePaymentRequest)
    (p : Payment) (h : (PaymentService.CreatePayment s e req).1 = .ok p) :
    p.Status = PaymentStatusPending ∧ p.TransactionID = "" ∧
    p.Amount = RoundToDecimalPlaces req.Amount req.Currency ∧
    p.OrderID = req.OrderID ∧ p.UserID = req.UserID ∧ p.MethodID = req.MethodID ∧
    p.Description = req.Description ∧ p.Currency = req.Currency ∧ p.ID = e.uuid1 ∧
    PaymentService.GetPayment (PaymentService.CreatePayment s e req).2 p.ID = .ok p := by
  by_cases hv : createViolations req = []
  · rw [CreatePayment_of_valid s e req hv] at h ⊢
    have hp : createdPayment e req = p := by simpa using h
    subst hp
    refine ⟨rfl, rfl, rfl, rfl, rfl, rfl, rfl, rfl, rfl, ?_⟩
    unfold PaymentService.GetPayment
    rw [FindByID_eq_ok_iff]
    exact mapGet_mapSet_self _ _ _
  · rw [CreatePayment_of_invalid s e req hv] at h
    simp at h

theorem CreatePayment_success_record_witness :
    (PaymentService.CreatePayment emptyStores ⟨"p1", "", 1, 2, 3⟩
        ⟨"o1", "u1", 9999 / 100, "USD", "m1", "d"⟩).1 =
      .ok ⟨"p1", "o1", "u1", 9999 / 100, "USD", "pending", "m1", "d", "", 1, 2⟩ ∧
    PaymentService.GetPayment
        (PaymentService.CreatePayment emptyStores ⟨"p1", "", 1, 2, 3⟩
          ⟨"o1", "u1", 9999 / 100, "USD", "m1", "d"⟩).2 "p1" =
      .ok ⟨"p1", "o1", "u1", 9999 / 100, "USD", "pending", "m1", "d", "", 1, 2⟩ :=
  ⟨by decide!,
   (CreatePayment_success_record emptyStores ⟨"p1", "", 1, 2, 3⟩
      ⟨"o1", "u1", 9999 / 100, "USD", "m1", "d"⟩
      ⟨"p1", "o1", "u1", 9999 / 100, "USD", "pending", "m1", "d", "", 1, 2⟩
      (by decide!)).2.2.2.2.2.2.2.2.2⟩

/-- C9: `CancelPayment` on an ID that no payment has fails with not-found; on a
payment whose status is not pending it fails with "only pending payments can
be cancelled"; on a pending payment it succeeds, the record stored under the
payment's ID is the old one with status cancelled, no other payment changes
and the ledger is unchanged.  A failure leaves the stores as they were. -/
theorem CancelPayment_outcomes (s : Stores) (e : Env) (id : String) :
    (mapGet s.paymentRepo.payments id = none →
      PaymentService.CancelPayment s e id = (.error ("payment not found: " ++ id), s)) ∧
    (∀ P, mapGet s.paymentRepo.payments id = some P → P.Status ≠ PaymentStatusPending →
      PaymentService.CancelPayment s e id =
        (.error "only pending payments can be cancelled", s)) ∧
    (∀ P, mapGet s.paymentRepo.payments id = some P → P.Status = PaymentStatusPending →
      (PaymentService.CancelPayment s e id).1 = .ok (cancelledPayment e P) ∧
      (cancelledPayment e P).Status = PaymentStatusCancelled ∧
      (PaymentService.CancelPayment s e id).2.paymentRepo.FindByID P.ID =
        .ok (cancelledPayment e P) ∧
      (∀ k, k ≠ P.ID →
        (PaymentService.CancelPayment s e id).2.paymentRepo.FindByID k =
          s.paymentRepo.FindByID k) ∧
      (PaymentService.CancelPayment s e id).2.transactionRepo = s.transactionRepo) := by
  refine ⟨CancelPayment_of_absent s e id, CancelPayment_of_not_pending s e id, ?_⟩
  intro P hP hs
  rw [CancelPayment_of_pending s e id P hP hs]
  refine ⟨rfl, rfl, ?_, ?_, rfl⟩
  · rw [FindByID_eq_ok_iff]
    exact mapGet_mapSet_self _ _ _
  · intro k hk
    unfold PaymentRepository.FindByID
    have : mapGet (s.paymentRepo.Save (cancelledPayment e P)).payments k =
        mapGet s.paymentRepo.payments k := mapGet_mapSet_ne _ _ _ _ hk
    simp only [this]

end LifecycleClaims

/-! ## Rounding on the currency grid -/

section Rounding

open models repositories utils services spec

theorem Round_eq_intCast (x : ℚ) : ∃ n : ℤ, Go.Round x = (n : ℚ) := by
  unfold Go.Round
  split
  · exact ⟨_, rfl⟩
  · exact ⟨-Int.floor (-x + 1 / 2), by push_cast; rfl⟩

theorem Round_le_of_le_intCast (x : ℚ) (m : ℤ) (h : x ≤ (m : ℚ)) : Go.Round x ≤ (m : ℚ) := by
  unfold Go.Round
  split
  · have h1 : Int.floor (x + 1 / 2) < m + 1 := by
      rw [Int.floor_lt]
      push_cast
      linarith
    have h2 : Int.floor (x + 1 / 2) ≤ m := by omega
    exact_mod_cast h2
  · have h1 : -m ≤ Int.floor (-x + 1 / 2) := by
      rw [Int.le_floor]
      push_cast
      linarith
    have h2 : -Int.floor (-x + 1 / 2) ≤ m := by omega
    exact_mod_cast h2

theorem Round_nonneg (x : ℚ) (h : 0 ≤ x) : 0 ≤ Go.Round x := by
  unfold Go.Round
  rw [if_pos h]
  have : (0 : ℤ) ≤ Int.floor (x + 1 / 2) := by
    rw [Int.le_floor]
    push_cast
    linarith
  exact_mod_cast this

theorem RoundToDecimalPlaces_eq (amount : ℚ) (currency : String) :
    RoundToDecimalPlaces amount currency =
      Go.Round (amount * 10 ^ decimalPlaces currency) / 10 ^ decimalPlaces currency := rfl

theorem pow10_pos (d : Nat) : (0 : ℚ) < 10 ^ d := by positivity

theorem OnGrid_RoundToDecimalPlaces (amount : ℚ) (currency : String) :
    OnGrid currency (RoundToDecimalPlaces amount currency) := by
  obtain ⟨n, hn⟩ := Round_eq_intCast (amount * 10 ^ decimalPlaces currency)
  exact ⟨n, by rw [RoundToDecimalPlaces_eq, hn]⟩

theorem OnGrid_zero (currency : String) : OnGrid currency 0 := ⟨0, by simp⟩

theorem OnGrid_add (currency : String) (x y : ℚ) (hx : OnGrid currency x)
    (hy : OnGrid currency y) : OnGrid currency (x + y) := by
  obtain ⟨a, ha⟩ := hx
  obtain ⟨b, hb⟩ := hy
  exact ⟨a + b, by rw [ha, hb]; push_cast; ring⟩

theorem RoundToDecimalPlaces_nonneg (amount : ℚ) (currency : String) (h : 0 ≤ amount) :
    0 ≤ RoundToDecimalPlaces amount currency := by
  rw [RoundToDecimalPlaces_eq]
  exact div_nonneg (Round_nonneg _ (mul_nonneg h (pow10_pos _).le)) (pow10_pos _).le

/-- A request that fits under the remaining balance still fits after rounding,
when the balance is on the grid of the currency. -/
theorem add_RoundToDecimalPlaces_le (currency : String) (total amount cap : ℚ)
    (ht : OnGrid currency total) (hc : OnGrid currency cap) (h : total + amount ≤ cap) :
    total + RoundToDecimalPlaces amount currency ≤ cap := by
  obtain ⟨t, ht⟩ := ht
  obtain ⟨c, hc⟩ := hc
  have hf := pow10_pos (decimalPlaces currency)
  have h1 : amount * 10 ^ decimalPlaces currency ≤ ((c - t : ℤ) : ℚ) := by
    have : amount ≤ ((c : ℚ) - t) / 10 ^ decimalPlaces currency := by
      rw [ht, hc] at h
      have e : ((c : ℚ) - t) / 10 ^ decimalPlaces currency =
          (c : ℚ) / 10 ^ decimalPlaces currency - (t : ℚ) / 10 ^ decimalPlaces currency := by
        ring
      rw [e]
      linarith
    push_cast
    exact (le_div_iff₀ hf).mp this
  have h2 := Round_le_of_le_intCast _ _ h1
  rw [RoundToDecimalPlaces_eq, ht, hc]
  have h3 : Go.Round (amount * 10 ^ decimalPlaces currency) / 10 ^ decimalPlaces currency ≤
      ((c - t : ℤ) : ℚ) / 10 ^ decimalPlaces currency :=
    div_le_div_of_nonneg_right h2 hf.le
  push_cast at h3
  have e : ((c : ℚ) - t) / 10 ^ decimalPlaces currency =
      (c : ℚ) / 10 ^ decimalPlaces currency - (t : ℚ) / 10 ^ decimalPlaces currency := by
    ring
  rw [e] at h3
  linarith

end Rounding

/-! ## Maps, indexes and ledger sums -/

section LedgerLemmas

open models repositories utils services spec

theorem mapGet_eq_none_iff {α : Type} (m : List (String × α)) (k : String) :
    mapGet m k = none ↔ k ∉ m.map Prod.fst := by
  induction m with
  | nil => simp [mapGet]
  | cons a t ih =>
    obtain ⟨k', v'⟩ := a
    by_cases h : k' = k
    · simp [mapGet, h]
    · have h' : ¬ k = k' := fun hc => h hc.symm
      simp [mapGet, h, h', ih]

theorem mapSet_of_fresh {α : Type} (m : List (String × α)) (k : String) (v : α)
    (h : mapGet m k = none) : mapSet m k v = m ++ [(k, v)] := by
  induction m with
  | nil => rfl
  | cons a t ih =>
    obtain ⟨k', v'⟩ := a
    by_cases hk : k' = k
    · simp [mapGet, hk] at h
    · simp only [mapGet, hk, if_false] at h
      simp [mapSet, hk, ih h]

theorem mapGet_of_mem_nodup {α : Type} (m : List (String × α)) (k : String) (v : α)
    (hn : (m.map Prod.fst).Nodup) (h : (k, v) ∈ m) : mapGet m k = some v := by
  induction m with
  | nil => simp at h
  | cons a t ih =>
    obtain ⟨k', v'⟩ := a
    simp only [List.map_cons, List.nodup_cons] at hn
    rcases List.mem_cons.mp h with h1 | h1
    · cases h1
      simp [mapGet]
    · have hne : k' ≠ k := by
        intro hc
        subst hc
        exact hn.1 (List.mem_map.mpr ⟨(k', v), h1, rfl⟩)
      simp [mapGet, hne, ih hn.2 h1]

theorem mem_of_mapGet_eq_some {α : Type} (m : List (String × α)) (k : String) (v : α)
    (h : mapGet m k = some v) : (k, v) ∈ m := by
  induction m with
  | nil => simp [mapGet] at h
  | cons a t ih =>
    obtain ⟨k', v'⟩ := a
    by_cases hk : k' = k
    · simp only [mapGet, hk, if_true, Option.some.injEq] at h
      subst hk h
      exact List.mem_cons_self _ _
    · simp only [mapGet, hk, if_false] at h
      exact List.mem_cons_of_mem _ (ih h)

theorem contains_eq_true_iff (slice : List String) (item : String) :
    contains slice item = true ↔ item ∈ slice := by
  induction slice with
  | nil => simp [contains]
  | cons a t ih =>
    by_cases h : a = item
    · simp [contains, h]
    · have h' : ¬ item = a := fun hc => h hc.symm
      simp [contains, h, h', ih]

/-- The entry of an index after `indexAdd`. -/
theorem getD_mapGet_indexAdd (idx : List (String × List String)) (key id k : String) :
    (mapGet (indexAdd idx key id) k).getD [] =
      if k = key then
        (if id ∈ (mapGet idx key).getD [] then (mapGet idx key).getD []
         else (mapGet idx key).getD [] ++ [id])
      else (mapGet idx k).getD [] := by
  unfold indexAdd
  by_cases hk : k = key
  · subst hk
    cases hg : mapGet idx k with
    | none =>
      simp only [mapGet_mapSet_self, Option.getD_some, Option.getD_none, if_true]
      by_cases hc : contains [] id = true
      · simp [contains] at hc
      · simp [hc, mapGet_mapSet_self]
    | some cur =>
      simp only [hg, Option.getD_some, if_true]
      by_cases hc : contains cur id = true
      · simp [hc, hg, (contains_eq_true_iff cur id).mp hc]
      · have hm : id ∉ cur := fun hm => hc ((contains_eq_true_iff cur id).mpr hm)
        simp [hc, hm, mapGet_mapSet_self]
  · rw [if_neg hk]
    cases hg : mapGet idx key with
    | none =>
      simp only [mapGet_mapSet_self, Option.getD_some]
      by_cases hc : contains [] id = true
      · simp [contains] at hc
      · simp [hc, mapGet_mapSet_ne _ _ _ _ hk]
    | some cur =>
      simp only [hg, Option.getD_some]
      by_cases hc : contains cur id = true
      · simp [hc]
      · simp [hc, mapGet_mapSet_ne _ _ _ _ hk]

theorem refundSum_append_single (txs : List (String × Transaction)) (k : String)
    (t : Transaction) (pid : String) :
    refundSum (txs ++ [(k, t)]) pid =
      refundSum txs pid +
        (if t.Type_ = TransactionTypeRefund ∧ t.PaymentID = pid then t.Amount else 0) := by
  unfold refundSum refundsOf
  by_cases h : t.Type_ = TransactionTypeRefund ∧ t.PaymentID = pid
  · simp [List.filter_append, List.filter_cons, h]
  · simp [List.filter_append, List.filter_cons, h]

theorem refundSum_eq_zero_of_no_tx (txs : List (String × Transaction)) (pid : String)
    (h : ∀ kv ∈ txs, kv.2.PaymentID ≠ pid) : refundSum txs pid = 0 := by
  unfold refundSum refundsOf
  have : (txs.map Prod.snd).filter
      (fun t => t.Type_ = TransactionTypeRefund ∧ t.PaymentID = pid) = [] := by
    rw [List.filter_eq_nil_iff]
    intro t ht
    obtain ⟨kv, hkv, rfl⟩ := List.mem_map.mp ht
    simp [h kv hkv]
  rw [this]
  rfl

theorem foldl_refund_total (l : List Transaction) (acc : ℚ) :
    l.foldl (fun total tx =>
        if tx.Type_ = TransactionTypeRefund then total + tx.Amount else total) acc =
      acc + ((l.filter (fun t => t.Type_ = TransactionTypeRefund)).map (fun t => t.Amount)).sum := by
  induction l generalizing acc with
  | nil => simp
  | cons a t ih =>
    by_cases h : a.Type_ = TransactionTypeRefund
    · simp [List.foldl, h, ih, List.filter_cons, add_assoc]
    · simp [List.foldl, h, ih, List.filter_cons]

theorem filterMap_mapGet_keys (txs : List (String × Transaction))
    (hn : (txs.map Prod.fst).Nodup) (l : List (String × Transaction))
    (hl : ∀ kv ∈ l, kv ∈ txs) :
    (l.map Prod.fst).filterMap (fun id => mapGet txs id) = l.map Prod.snd := by
  induction l with
  | nil => rfl
  | cons a t ih =>
    obtain ⟨k, v⟩ := a
    have h1 : mapGet txs k = some v := mapGet_of_mem_nodup txs k v hn (hl _ (List.mem_cons_self _ _))
    simp only [List.map_cons, List.filterMap_cons, h1]
    rw [ih (fun kv hkv => hl kv (List.mem_cons_of_mem _ hkv))]

end LedgerLemmas

/-! ## Effect of `CreateRefund` -/

section RefundEffects

open models repositories utils services spec

/-- The message built by `validateRefundRequest` lists exactly the entries of
`refundViolations`. -/
theorem validateRefundRequest_eq (req : CreateRefundRequest) :
    RefundService.validateRefundRequest req =
      if refundViolations req = [] then none
      else some ("validation failed: " ++ Go.Join (refundViolations req) "; ") := by
  unfold RefundService.validateRefundRequest refundViolations
  simp only [ValidateRequired_eq, ValidatePositiveAmount,
    NewValidationErrors, ValidationErrors.HasErrors, ValidationErrors.Error]
  by_cases h1 : isBlank req.PaymentID = true <;> by_cases h3 : req.Amount ≤ 0 <;>
    by_cases h5 : isBlank req.Reason = true <;>
    simp [h1, h3, h5, ValidationErrors.Add]

theorem refundViolations_eq_nil_iff (req : CreateRefundRequest) :
    refundViolations req = [] ↔
      (isBlank req.PaymentID = false ∧ 0 < req.Amount ∧ isBlank req.Reason = false) := by
  unfold refundViolations
  by_cases h1 : isBlank req.PaymentID = true <;> by_cases h3 : req.Amount ≤ 0 <;>
    by_cases h5 : isBlank req.Reason = true <;>
    simp [h1, h3, h5]
  exact not_le.mp h3

theorem CreateRefund_of_invalid (s : Stores) (e : Env) (req : CreateRefundRequest)
    (h : refundViolations req ≠ []) :
    RefundService.CreateRefund s e req =
      (.error ("validation failed: " ++ Go.Join (refundViolations req) "; "), s) := by
  unfold RefundService.CreateRefund
  rw [validateRefundRequest_eq, if_neg h]

theorem CreateRefund_of_absent (s : Stores) (e : Env) (req : CreateRefundRequest)
    (h : refundViolations req = [])
    (hP : mapGet s.paymentRepo.payments req.PaymentID = none) :
    RefundService.CreateRefund s e req =
      (.error ("payment not found: " ++ req.PaymentID), s) := by
  unfold RefundService.CreateRefund PaymentRepository.FindByID
  rw [validateRefundRequest_eq, if_pos h]
  simp [hP]

theorem CreateRefund_of_not_completed (s : Stores) (e : Env) (req : CreateRefundRequest)
    (P : Payment) (h : refundViolations req = [])
    (hP : mapGet s.paymentRepo.payments req.PaymentID = some P)
    (hs : P.Status ≠ PaymentStatusCompleted) :
    RefundService.CreateRefund s e req = (.error "can only refund completed payments", s) := by
  unfold RefundService.CreateRefund PaymentRepository.FindByID
  rw [validateRefundRequest_eq, if_pos h]
  simp [hP, hs]

theorem CreateRefund_of_exceeding (s : Stores) (e : Env) (req : CreateRefundRequest)
    (P : Payment) (h : refundViolations req = [])
    (hP : mapGet s.paymentRepo.payments req.PaymentID = some P)
    (hs : P.Status = PaymentStatusCompleted)
    (hx : RefundService.getTotalRefunded s P.ID + req.Amount > P.Amount) :
    RefundService.CreateRefund s e req =
      (.error (RefundService.exceedMessage req.Amount P.Amount
        (RefundService.getTotalRefunded s P.ID)), s) := by
  unfold RefundService.CreateRefund PaymentRepository.FindByID
  rw [validateRefundRequest_eq, if_pos h]
  simp [hP, hs, hx]

/-- Outcome of `CreateRefund` when every check passes. -/
theorem CreateRefund_of_fitting (s : Stores) (e : Env) (req : CreateRefundRequest)
    (P : Payment) (h : refundViolations req = [])
    (hP : mapGet s.paymentRepo.payments req.PaymentID = some P)
    (hs : P.Status = PaymentStatusCompleted)
    (hx : ¬ RefundService.getTotalRefunded s P.ID + req.Amount > P.Amount) :
    RefundService.CreateRefund s e req =
      (.ok (refundRecord e req P),
       if RefundService.getTotalRefunded s P.ID + req.Amount ≥ P.Amount then
         { paymentRepo := s.paymentRepo.Save (refundedPayment e P),
           transactionRepo := s.transactionRepo.Save (refundTransaction e req P) }
       else { s with transactionRepo := s.transactionRepo.Save (refundTransaction e req P) }) := by
  unfold RefundService.CreateRefund PaymentRepository.FindByID
  rw [validateRefundRequest_eq, if_pos h]
  simp only [hP, hs]
  by_cases hge : RefundService.getTotalRefunded s P.ID + req.Amount ≥ P.Amount
  · simp [hx, hge, refundRecord, refundTransaction, refundedPayment]
  · simp [hx, hge, refundRecord, refundTransaction]

/-- In well-formed stores the index-based `FindByPaymentID` returns the ledger
entries of the payment. -/
theorem FindByPaymentID_of_WellFormed (s : Stores) (h : WellFormed s) (pid : String) :
    s.transactionRepo.FindByPaymentID pid =
      (s.transactionRepo.transactions.filter (fun kv => kv.2.PaymentID = pid)).map Prod.snd := by
  unfold TransactionRepository.FindByPaymentID
  simp only [h.txIdx pid]
  exact filterMap_mapGet_keys _ h.txNodup _ (fun kv hkv => (List.mem_filter.mp hkv).1)

/-- In well-formed stores `getTotalRefunded` is the refunded total of the ledger. -/
theorem getTotalRefunded_of_WellFormed (s : Stores) (h : WellFormed s) (pid : String) :
    RefundService.getTotalRefunded s pid = refundedTotal s pid := by
  unfold RefundService.getTotalRefunded refundedTotal refundSum refundsOf
  rw [foldl_refund_total, FindByPaymentID_of_WellFormed s h pid, zero_add]
  congr 1
  generalize s.transactionRepo.transactions = txs
  induction txs with
  | nil => rfl
  | cons a t ih =>
    by_cases h1 : a.2.PaymentID = pid <;> by_cases h2 : a.2.Type_ = TransactionTypeRefund <;>
      simp [List.filter_cons, h1, h2] <;> simpa using ih

end RefundEffects

/-! ## Preservation of well-formedness -/

section Preservation

open models repositories utils services spec

theorem status_ne_facts :
    PaymentStatusCompleted ≠ PaymentStatusPending ∧
    PaymentStatusCompleted ≠ PaymentStatusCancelled ∧
    PaymentStatusRefunded ≠ PaymentStatusPending ∧
    PaymentStatusRefunded ≠ PaymentStatusCancelled ∧
    PaymentStatusCancelled ≠ PaymentStatusPending ∧
    PaymentStatusRefunded ≠ PaymentStatusCompleted ∧
    PaymentStatusCancelled ≠ PaymentStatusCompleted ∧
    PaymentStatusFailed ≠ PaymentStatusPending ∧
    PaymentStatusFailed ≠ PaymentStatusCompleted ∧
    PaymentStatusFailed ≠ PaymentStatusCancelled ∧
    PaymentStatusFailed ≠ PaymentStatusRefunded ∧
    TransactionTypeCharge ≠ TransactionTypeRefund := by decide

theorem mapGet_Save_payments (r : PaymentRepository) (P : Payment) (k : String) :
    mapGet (r.Save P).payments k = if k = P.ID then some P else mapGet r.payments k := by
  unfold PaymentRepository.Save
  by_cases h : k = P.ID
  · subst h
    simp [mapGet_mapSet_self]
  · simp [h, mapGet_mapSet_ne _ _ _ _ h]

theorem emptyStores_WellFormed : WellFormed emptyStores := by
  refine ⟨?_, ?_, ?_, ?_, ?_, ?_, ?_, ?_, ?_⟩ <;>
    simp [emptyStores, NewPaymentRepository, NewTransactionRepository, mapGet]

/-- Saving a payment record keeps the stores well-formed when the record is
consistent with the ledger. -/
theorem WellFormed_save_payment (s : Stores) (P : Payment) (h : WellFormed s)
    (hstatus : P.Status = PaymentStatusPending ∨ P.Status = PaymentStatusCompleted ∨
      P.Status = PaymentStatusCancelled ∨ P.Status = PaymentStatusRefunded)
    (hnoTx : P.Status = PaymentStatusPending ∨ P.Status = PaymentStatusCancelled →
      ∀ kv ∈ s.transactionRepo.transactions, kv.2.PaymentID ≠ P.ID)
    (hgrid : OnGrid P.Currency P.Amount)
    (hrgrid : OnGrid P.Currency (refundedTotal s P.ID))
    (hcap : refundedTotal s P.ID ≤ P.Amount) :
    WellFormed { s with paymentRepo := s.paymentRepo.Save P } := by
  have key : ∀ k Q, mapGet (s.paymentRepo.Save P).payments k = some Q →
      (k = P.ID ∧ Q = P) ∨ (k ≠ P.ID ∧ mapGet s.paymentRepo.payments k = some Q) := by
    intro k Q hQ
    rw [mapGet_Save_payments] at hQ
    by_cases hk : k = P.ID
    · rw [if_pos hk] at hQ
      exact Or.inl ⟨hk, (Option.some.inj hQ).symm⟩
    · rw [if_neg hk] at hQ
      exact Or.inr ⟨hk, hQ⟩
  refine ⟨?_, h.txNodup, h.txIdx, ?_, ?_, ?_, ?_, ?_, ?_⟩
  · intro k Q hQ
    rcases key k Q hQ with ⟨hk, rfl⟩ | ⟨_, hQ'⟩
    · exact hk.symm
    · exact h.payKey k Q hQ'
  · intro kv hkv
    show mapGet (s.paymentRepo.Save P).payments kv.2.PaymentID ≠ none
    rw [mapGet_Save_payments]
    by_cases hk : kv.2.PaymentID = P.ID
    · simp [hk]
    · rw [if_neg hk]
      exact h.txRef kv hkv
  · intro k Q hQ
    rcases key k Q hQ with ⟨_, rfl⟩ | ⟨_, hQ'⟩
    · exact hstatus
    · exact h.status k Q hQ'
  · intro k Q hQ hst
    rcases key k Q hQ with ⟨hk, rfl⟩ | ⟨_, hQ'⟩
    · rw [hk]
      exact hnoTx hst
    · exact h.noTx k Q hQ' hst
  · intro k Q hQ
    rcases key k Q hQ with ⟨_, rfl⟩ | ⟨_, hQ'⟩
    · exact hgrid
    · exact h.amountGrid k Q hQ'
  · intro k Q hQ
    rcases key k Q hQ with ⟨hk, rfl⟩ | ⟨_, hQ'⟩
    · rw [hk]
      exact hrgrid
    · exact h.refundGrid k Q hQ'
  · intro k Q hQ
    rcases key k Q hQ with ⟨hk, rfl⟩ | ⟨_, hQ'⟩
    · rw [hk]
      exact hcap
    · exact h.refundCap k Q hQ'

theorem Save_transactions_of_fresh (r : TransactionRepository) (tx : Transaction)
    (hf : mapGet r.transactions tx.ID = none) :
    (r.Save tx).transactions = r.transactions ++ [(tx.ID, tx)] := by
  unfold TransactionRepository.Save
  exact mapSet_of_fresh _ _ _ hf

/-- Appending a transaction with a fresh ID keeps the stores well-formed when
it belongs to a payment that is neither pending nor cancelled and, if it is a
refund, it is on the grid and fits under the payment amount. -/
theorem WellFormed_save_transaction (s : Stores) (tx : Transaction) (P : Payment) (h : WellFormed s)
    (hf : mapGet s.transactionRepo.transactions tx.ID = none)
    (hP : mapGet s.paymentRepo.payments tx.PaymentID = some P)
    (hst : P.Status ≠ PaymentStatusPending ∧ P.Status ≠ PaymentStatusCancelled)
    (hgrid : tx.Type_ = TransactionTypeRefund → OnGrid P.Currency tx.Amount)
    (hcap : tx.Type_ = TransactionTypeRefund →
      refundedTotal s tx.PaymentID + tx.Amount ≤ P.Amount) :
    WellFormed { s with transactionRepo := s.transactionRepo.Save tx } := by
  have htx := Save_transactions_of_fresh s.transactionRepo tx hf
  have hmem : ∀ kv, kv ∈ (s.transactionRepo.Save tx).transactions →
      kv ∈ s.transactionRepo.transactions ∨ kv = (tx.ID, tx) := by
    intro kv hkv
    rw [htx] at hkv
    simpa using hkv
  have htot : ∀ k, refundedTotal { s with transactionRepo := s.transactionRepo.Save tx } k =
      refundedTotal s k +
        (if tx.Type_ = TransactionTypeRefund ∧ tx.PaymentID = k then tx.Amount else 0) := by
    intro k
    unfold refundedTotal
    show refundSum (s.transactionRepo.Save tx).transactions k = _
    rw [htx, refundSum_append_single]
  refine ⟨h.payKey, ?_, ?_, ?_, h.status, ?_, h.amountGrid, ?_, ?_⟩
  · show ((s.transactionRepo.Save tx).transactions.map Prod.fst).Nodup
    rw [htx, List.map_append, List.nodup_append]
    refine ⟨h.txNodup, by simp, ?_⟩
    intro a ha hb
    simp only [List.map_cons, List.map_nil, List.mem_singleton] at hb
    subst hb
    exact (mapGet_eq_none_iff _ _).mp hf ha
  · intro pid
    show (mapGet (s.transactionRepo.Save tx).paymentIdx pid).getD [] =
      ((s.transactionRepo.Save tx).transactions.filter
        (fun kv => kv.2.PaymentID = pid)).map Prod.fst
    rw [htx]
    have hidx : (s.transactionRepo.Save tx).paymentIdx =
        indexAdd s.transactionRepo.paymentIdx tx.PaymentID tx.ID := rfl
    rw [hidx, getD_mapGet_indexAdd, List.filter_append, List.map_append]
    by_cases hk : pid = tx.PaymentID
    · subst hk
      have hnot : tx.ID ∉ (mapGet s.transactionRepo.paymentIdx tx.PaymentID).getD [] := by
        rw [h.txIdx]
        intro hc
        obtain ⟨kv, hkv, hkey⟩ := List.mem_map.mp hc
        exact (mapGet_eq_none_iff _ _).mp hf
          (List.mem_map.mpr ⟨kv, (List.mem_filter.mp hkv).1, hkey⟩)
      rw [if_pos rfl, if_neg hnot, h.txIdx]
      simp
    · have hk' : ¬ tx.PaymentID = pid := fun hc => hk hc.symm
      simp [hk, hk', h.txIdx]
  · intro kv hkv
    rcases hmem kv hkv with h1 | h1
    · exact h.txRef kv h1
    · subst h1
      show mapGet s.paymentRepo.payments tx.PaymentID ≠ none
      rw [hP]
      simp
  · intro k Q hQ hs kv hkv
    rcases hmem kv hkv with h1 | h1
    · exact h.noTx k Q hQ hs kv h1
    · subst h1
      intro hc
      have hc' : tx.PaymentID = k := hc
      have hQ' : mapGet s.paymentRepo.payments tx.PaymentID = some Q := by
        rw [hc']
        exact hQ
      rw [hP] at hQ'
      have : P = Q := Option.some.inj hQ'
      subst this
      rcases hs with hs | hs
      · exact hst.1 hs
      · exact hst.2 hs
  · intro k Q hQ
    rw [htot]
    by_cases hc : tx.Type_ = TransactionTypeRefund ∧ tx.PaymentID = k
    · rw [if_pos hc]
      have hk := hc.2
      subst hk
      rw [hP] at hQ
      have : P = Q := Option.some.inj hQ
      subst this
      exact OnGrid_add _ _ _ (h.refundGrid _ P hP) (hgrid hc.1)
    · rw [if_neg hc, add_zero]
      exact h.refundGrid k Q hQ
  · intro k Q hQ
    rw [htot]
    by_cases hc : tx.Type_ = TransactionTypeRefund ∧ tx.PaymentID = k
    · rw [if_pos hc]
      have hk := hc.2
      subst hk
      rw [hP] at hQ
      have : P = Q := Option.some.inj hQ
      subst this
      exact hcap hc.1
    · rw [if_neg hc, add_zero]
      exact h.refundCap k Q hQ

end Preservation

section StepPreservation

open models repositories utils services spec

theorem WellFormed_ProcessPayment_pending (s : Stores) (e : Env) (P : Payment) (h : WellFormed s)
    (hP : mapGet s.paymentRepo.payments P.ID = some P)
    (hf : mapGet s.transactionRepo.transactions e.uuid1 = none) :
    WellFormed
      { paymentRepo := s.paymentRepo.Save (completedPayment e P),
        transactionRepo := s.transactionRepo.Save (chargeTransaction e P) } := by
  have h1 : WellFormed { s with paymentRepo := s.paymentRepo.Save (completedPayment e P) } := by
    refine WellFormed_save_payment s (completedPayment e P) h (Or.inr (Or.inl rfl)) ?_
      (h.amountGrid _ P hP) (h.refundGrid _ P hP) (h.refundCap _ P hP)
    intro hs
    rcases hs with hs | hs
    · exact absurd hs status_ne_facts.1
    · exact absurd hs status_ne_facts.2.1
  refine WellFormed_save_transaction _ (chargeTransaction e P) (completedPayment e P) h1 hf ?_
    ⟨status_ne_facts.1, status_ne_facts.2.1⟩ ?_ ?_
  · show mapGet (s.paymentRepo.Save (completedPayment e P)).payments P.ID = _
    rw [mapGet_Save_payments]
    exact if_pos rfl
  · intro hc
    exact absurd hc status_ne_facts.2.2.2.2.2.2.2.2.2.2.2
  · intro hc
    exact absurd hc status_ne_facts.2.2.2.2.2.2.2.2.2.2.2

theorem WellFormed_CreateRefund_fitting (s : Stores) (e : Env) (req : CreateRefundRequest)
    (P : Payment) (h : WellFormed s)
    (hP : mapGet s.paymentRepo.payments P.ID = some P)
    (hs : P.Status = PaymentStatusCompleted)
    (hf : mapGet s.transactionRepo.transactions e.uuid2 = none)
    (hx : ¬ RefundService.getTotalRefunded s P.ID + req.Amount > P.Amount) :
    WellFormed { s with transactionRepo := s.transactionRepo.Save (refundTransaction e req P) } ∧
    WellFormed
      { paymentRepo := s.paymentRepo.Save (refundedPayment e P),
        transactionRepo := s.transactionRepo.Save (refundTransaction e req P) } := by
  have hst : P.Status ≠ PaymentStatusPending ∧ P.Status ≠ PaymentStatusCancelled := by
    rw [hs]
    exact ⟨status_ne_facts.1, status_ne_facts.2.1⟩
  have h1 : WellFormed
      { s with transactionRepo := s.transactionRepo.Save (refundTransaction e req P) } := by
    refine WellFormed_save_transaction s (refundTransaction e req P) P h hf hP hst ?_ ?_
    · intro _
      exact OnGrid_RoundToDecimalPlaces _ _
    · intro _
      rw [getTotalRefunded_of_WellFormed s h] at hx
      exact add_RoundToDecimalPlaces_le P.Currency _ _ _ (h.refundGrid _ P hP)
        (h.amountGrid _ P hP) (not_lt.mp hx)
  refine ⟨h1, ?_⟩
  refine WellFormed_save_payment _ (refundedPayment e P) h1 (Or.inr (Or.inr (Or.inr rfl))) ?_
    (h.amountGrid _ P hP) (h1.refundGrid _ P hP) (h1.refundCap _ P hP)
  intro hc
  rcases hc with hc | hc
  · exact absurd hc status_ne_facts.2.2.1
  · exact absurd hc status_ne_facts.2.2.2.1

/-- Every service call with fresh IDs keeps the stores well-formed. -/
theorem WellFormed_step (s : Stores) (e : Env) (op : Op) (h : WellFormed s) (hf : freshIDs s e op) :
    WellFormed (step s e op) := by
  cases op with
  | createPayment req =>
    show WellFormed (PaymentService.CreatePayment s e req).2
    have hf : mapGet s.paymentRepo.payments e.uuid1 = none := hf
    by_cases hv : createViolations req = []
    · rw [CreatePayment_of_valid s e req hv]
      have hno : ∀ kv ∈ s.transactionRepo.transactions, kv.2.PaymentID ≠ e.uuid1 := by
        intro kv hkv hc
        have := h.txRef kv hkv
        rw [hc] at this
        exact this hf
      have hz : refundedTotal s e.uuid1 = 0 := refundSum_eq_zero_of_no_tx _ _ hno
      refine WellFormed_save_payment s (createdPayment e req) h (Or.inl rfl) (fun _ => hno)
        (OnGrid_RoundToDecimalPlaces _ _) ?_ ?_
      · show OnGrid _ (refundedTotal s e.uuid1)
        rw [hz]
        exact OnGrid_zero _
      · show refundedTotal s e.uuid1 ≤ RoundToDecimalPlaces req.Amount req.Currency
        rw [hz]
        exact RoundToDecimalPlaces_nonneg _ _
          ((createViolations_eq_nil_iff req).mp hv).2.2.1.le
    · rw [CreatePayment_of_invalid s e req hv]
      exact h
  | processPayment id =>
    show WellFormed (PaymentService.ProcessPayment s e id).2
    have hf : mapGet s.transactionRepo.transactions e.uuid1 = none := hf
    cases hP : mapGet s.paymentRepo.payments id with
    | none =>
      rw [ProcessPayment_of_absent s e id hP]
      exact h
    | some P =>
      by_cases hs : P.Status = PaymentStatusPending
      · rw [ProcessPayment_of_pending s e id P hP hs]
        have hid := h.payKey id P hP
        subst hid
        exact WellFormed_ProcessPayment_pending s e P h hP hf
      · rw [ProcessPayment_of_not_pending s e id P hP hs]
        exact h
  | cancelPayment id =>
    show WellFormed (PaymentService.CancelPayment s e id).2
    cases hP : mapGet s.paymentRepo.payments id with
    | none =>
      rw [CancelPayment_of_absent s e id hP]
      exact h
    | some P =>
      by_cases hs : P.Status = PaymentStatusPending
      · rw [CancelPayment_of_pending s e id P hP hs]
        have hid := h.payKey id P hP
        subst hid
        exact WellFormed_save_payment s (cancelledPayment e P) h (Or.inr (Or.inr (Or.inl rfl)))
          (fun _ => h.noTx _ P hP (Or.inl hs)) (h.amountGrid _ P hP) (h.refundGrid _ P hP)
          (h.refundCap _ P hP)
      · rw [CancelPayment_of_not_pending s e id P hP hs]
        exact h
  | createRefund req =>
    show WellFormed (RefundService.CreateRefund s e req).2
    have hf : mapGet s.transactionRepo.transactions e.uuid2 = none := hf
    by_cases hv : refundViolations req = []
    · cases hP : mapGet s.paymentRepo.payments req.PaymentID with
      | none =>
        rw [CreateRefund_of_absent s e req hv hP]
        exact h
      | some P =>
        by_cases hs : P.Status = PaymentStatusCompleted
        · by_cases hx : RefundService.getTotalRefunded s P.ID + req.Amount > P.Amount
          · rw [CreateRefund_of_exceeding s e req P hv hP hs hx]
            exact h
          · rw [CreateRefund_of_fitting s e req P hv hP hs hx]
            have hid := h.payKey _ P hP
            rw [← hid] at hP
            have hI := WellFormed_CreateRefund_fitting s e req P h hP hs hf hx
            show WellFormed (if _ then _ else _)
            split
            · exact hI.2
            · exact hI.1
        · rw [CreateRefund_of_not_completed s e req P hv hP hs]
          exact h
    · rw [CreateRefund_of_invalid s e req hv]
      exact h

/-- Every reachable state is well-formed. -/
theorem WellFormed_of_Reachable (s : Stores) (h : Reachable s) : WellFormed s := by
  induction h with
  | init => exact emptyStores_WellFormed
  | step s e op _ hf ih => exact WellFormed_step s e op ih hf

end StepPreservation

/-! ## The concrete run is reachable -/

section ScenarioLemmas

open models repositories utils services spec

theorem scenario_s1_reachable : Reachable scenario.s1 :=
  Reachable.step _ _ _ Reachable.init (by decide)

theorem scenario_s2_reachable : Reachable scenario.s2 :=
  Reachable.step _ _ _ scenario_s1_reachable (by decide!)

theorem scenario_s3_reachable : Reachable scenario.s3 :=
  Reachable.step _ _ _ scenario_s2_reachable (by decide!)

theorem scenario_s4_reachable : Reachable scenario.s4 :=
  Reachable.step _ _ _ scenario_s3_reachable (by decide!)

theorem scenario_s1_payment : scenario.s1.paymentRepo.FindByID "p1" = .ok scenario.pending := by
  decide!

theorem scenario_s2_payment : scenario.s2.paymentRepo.FindByID "p1" = .ok scenario.completed := by
  decide!

theorem scenario_s4_payment : scenario.s4.paymentRepo.FindByID "p1" = .ok scenario.completed := by
  decide!

end ScenarioLemmas

/-! ## Claims on `ProcessPayment` and on the status state machine -/

section ProcessClaims

open models repositories utils services spec

theorem chargesOf_mapSet_of_no_tx (txs : List (String × Transaction)) (k : String)
    (tx : Transaction) (pid : String) (hno : ∀ kv ∈ txs, kv.2.PaymentID ≠ pid)
    (ht : tx.Type_ = TransactionTypeCharge) (hp : tx.PaymentID = pid) :
    chargesOf (mapSet txs k tx) pid = [tx] := by
  unfold chargesOf
  induction txs with
  | nil => simp [mapSet, ht, hp]
  | cons a t ih =>
    obtain ⟨k', v'⟩ := a
    have hv : v'.PaymentID ≠ pid := hno (k', v') (List.mem_cons_self _ _)
    have ht' : ∀ kv ∈ t, kv.2.PaymentID ≠ pid :=
      fun kv hkv => hno kv (List.mem_cons_of_mem _ hkv)
    by_cases hk : k' = k
    · have hnil : (t.map Prod.snd).filter
          (fun x => x.Type_ = TransactionTypeCharge ∧ x.PaymentID = pid) = [] := by
        rw [List.filter_eq_nil_iff]
        intro x hx
        obtain ⟨kv, hkv, rfl⟩ := List.mem_map.mp hx
        simp [ht' kv hkv]
      simp only [mapSet, hk, if_true, List.map_cons, List.filter_cons]
      rw [hnil]
      simp [ht, hp]
    · simp only [mapSet, hk, if_false, List.map_cons, List.filter_cons]
      simp only [hv, and_false, decide_False]
      exact ih ht'

/-- C3: for a pending payment of a reachable state, a first `ProcessPayment` on
its ID succeeds and a second one fails with the not-pending error (naming the
status completed) and changes nothing; afterwards the payment is completed and
the ledger holds exactly one charge-type transaction for it. -/
theorem ProcessPayment_twice (s : Stores) (h : Reachable s) (e1 e2 : Env) (id : String)
    (P : Payment) (hP : s.paymentRepo.FindByID id = .ok P)
    (hs : P.Status = PaymentStatusPending) :
    (∃ P1, (PaymentService.ProcessPayment s e1 id).1 = .ok P1) ∧
    PaymentService.ProcessPayment (PaymentService.ProcessPayment s e1 id).2 e2 id =
      (.error "payment is not in pending status: completed",
        (PaymentService.ProcessPayment s e1 id).2) ∧
    (∃ P2,
      (PaymentService.ProcessPayment
        (PaymentService.ProcessPayment s e1 id).2 e2 id).2.paymentRepo.FindByID id = .ok P2 ∧
      P2.Status = PaymentStatusCompleted) ∧
    (chargesOf (PaymentService.ProcessPayment
        (PaymentService.ProcessPayment s e1 id).2 e2 id).2.transactionRepo.transactions
      id).length = 1 := by
  have hw := WellFormed_of_Reachable s h
  have hP' := (FindByID_eq_ok_iff _ _ _).mp hP
  have hid := hw.payKey id P hP'
  have hfirst := ProcessPayment_of_pending s e1 id P hP' hs
  have hstored : mapGet (PaymentService.ProcessPayment s e1 id).2.paymentRepo.payments id =
      some (completedPayment e1 P) := by
    rw [hfirst]
    show mapGet (s.paymentRepo.Save (completedPayment e1 P)).payments id = _
    rw [mapGet_Save_payments]
    exact if_pos hid.symm
  have hsecond := ProcessPayment_of_not_pending (PaymentService.ProcessPayment s e1 id).2 e2 id
    (completedPayment e1 P) hstored status_ne_facts.1
  refine ⟨⟨_, by rw [hfirst]⟩, hsecond, ?_, ?_⟩
  · rw [hsecond]
    exact ⟨completedPayment e1 P, (FindByID_eq_ok_iff _ _ _).mpr hstored, rfl⟩
  · rw [hsecond, hfirst]
    show (chargesOf (mapSet s.transactionRepo.transactions e1.uuid1 (chargeTransaction e1 P))
      id).length = 1
    rw [chargesOf_mapSet_of_no_tx _ _ _ id (hw.noTx id P hP' (Or.inl hs)) rfl hid]
    rfl

theorem ProcessPayment_twice_witness :
    (∃ P1, (PaymentService.ProcessPayment scenario.s1 ⟨"t1", "", 2, 2, 2⟩ "p1").1 = .ok P1) ∧
    PaymentService.ProcessPayment
      (PaymentService.ProcessPayment scenario.s1 ⟨"t1", "", 2, 2, 2⟩ "p1").2
      ⟨"t2", "", 3, 3, 3⟩ "p1" =
      (.error "payment is not in pending status: completed",
        (PaymentService.ProcessPayment scenario.s1 ⟨"t1", "", 2, 2, 2⟩ "p1").2) :=
  ⟨(ProcessPayment_twice scenario.s1 scenario_s1_reachable ⟨"t1", "", 2, 2, 2⟩
      ⟨"t2", "", 3, 3, 3⟩ "p1" scenario.pending scenario_s1_payment rfl).1,
   (ProcessPayment_twice scenario.s1 scenario_s1_reachable ⟨"t1", "", 2, 2, 2⟩
      ⟨"t2", "", 3, 3, 3⟩ "p1" scenario.pending scenario_s1_payment rfl).2.1⟩

/-- C4: when `ProcessPayment` succeeds (its generated transaction ID being
fresh), it was called on a pending payment `P`; the record stored under `P.ID`
is the returned one and has status completed; the ledger is the old ledger
followed by exactly one new transaction, of type charge, with `P`'s ID, amount
and currency and the order and user references as metadata; the returned
payment's `TransactionID` is that transaction's ID, and `FindByID` on the
ledger returns the transaction under it. -/
theorem ProcessPayment_success_effects (s : Stores) (e : Env) (id : String) (P' : Payment)
    (hf : mapGet s.transactionRepo.transactions e.uuid1 = none)
    (h : (PaymentService.ProcessPayment s e id).1 = .ok P') :
    ∃ P tx, s.paymentRepo.FindByID id = .ok P ∧ P.Status = PaymentStatusPending ∧
      (PaymentService.ProcessPayment s e id).2.paymentRepo.FindByID P.ID = .ok P' ∧
      P'.Status = PaymentStatusCompleted ∧
      (PaymentService.ProcessPayment s e id).2.transactionRepo.transactions =
        s.transactionRepo.transactions ++ [(tx.ID, tx)] ∧
      tx.Type_ = TransactionTypeCharge ∧ tx.PaymentID = P.ID ∧ tx.Amount = P.Amount ∧
      tx.Currency = P.Currency ∧
      mapGet tx.Metadata "order_id" = some P.OrderID ∧
      mapGet tx.Metadata "user_id" = some P.UserID ∧
      P'.TransactionID = tx.ID ∧
      (PaymentService.ProcessPayment s e id).2.transactionRepo.FindByID P'.TransactionID =
        .ok tx := by
  cases hP : mapGet s.paymentRepo.payments id with
  | none =>
    rw [ProcessPayment_of_absent s e id hP] at h
    simp at h
  | some P =>
    by_cases hs : P.Status = PaymentStatusPending
    · rw [ProcessPayment_of_pending s e id P hP hs] at h ⊢
      have hp : completedPayment e P = P' := by simpa using h
      subst hp
      refine ⟨P, chargeTransaction e P, (FindByID_eq_ok_iff _ _ _).mpr hP, hs, ?_, rfl, ?_, rfl,
        rfl, rfl, rfl, ?_, ?_, rfl, ?_⟩
      · rw [FindByID_eq_ok_iff]
        exact mapGet_mapSet_self _ _ _
      · exact Save_transactions_of_fresh s.transactionRepo (chargeTransaction e P) hf
      · simp [chargeTransaction, mapGet]
      · simp [chargeTransaction, mapGet]
      · show (s.transactionRepo.Save (chargeTransaction e P)).FindByID e.uuid1 = _
        unfold TransactionRepository.FindByID TransactionRepository.Save
        have : mapGet (mapSet s.transactionRepo.transactions (chargeTransaction e P).ID
            (chargeTransaction e P)) e.uuid1 = some (chargeTransaction e P) :=
          mapGet_mapSet_self _ _ _
        simp only [this]
    · rw [ProcessPayment_of_not_pending s e id P hP hs] at h
      simp at h

theorem ProcessPayment_success_effects_witness :
    ∃ P tx, scenario.s1.paymentRepo.FindByID "p1" = .ok P ∧
      P.Status = PaymentStatusPending ∧
      (PaymentService.ProcessPayment scenario.s1 ⟨"t1", "", 2, 2, 2⟩ "p1").2.paymentRepo.FindByID
        P.ID = .ok scenario.completed ∧
      scenario.completed.Status = PaymentStatusCompleted ∧
      (PaymentService.ProcessPayment scenario.s1
          ⟨"t1", "", 2, 2, 2⟩ "p1").2.transactionRepo.transactions =
        scenario.s1.transactionRepo.transactions ++ [(tx.ID, tx)] ∧
      tx.Type_ = TransactionTypeCharge ∧ tx.PaymentID = P.ID ∧ tx.Amount = P.Amount ∧
      tx.Currency = P.Currency ∧
      mapGet tx.Metadata "order_id" = some P.OrderID ∧
      mapGet tx.Metadata "user_id" = some P.UserID ∧
      scenario.completed.TransactionID = tx.ID ∧
      (PaymentService.ProcessPayment scenario.s1
          ⟨"t1", "", 2, 2, 2⟩ "p1").2.transactionRepo.FindByID
        scenario.completed.TransactionID = .ok tx :=
  ProcessPayment_success_effects scenario.s1 ⟨"t1", "", 2, 2, 2⟩ "p1" scenario.completed
    (by decide) (by decide!)

end ProcessClaims

section StateMachineClaims

open models repositories utils services spec

/-- The status of a stored payment across one call: unchanged, or one of the
three transitions, each made only by its own operation on that payment. -/
theorem step_status_transition (s : Stores) (hw : WellFormed s) (e : Env) (op : Op)
    (hf : freshIDs s e op) (id : String) (P : Payment)
    (hP : mapGet s.paymentRepo.payments id = some P) :
    ∃ P', mapGet (step s e op).paymentRepo.payments id = some P' ∧
      (P'.Status = P.Status ∨
       (op = .processPayment id ∧ P.Status = PaymentStatusPending ∧
          P'.Status = PaymentStatusCompleted) ∨
       (op = .cancelPayment id ∧ P.Status = PaymentStatusPending ∧
          P'.Status = PaymentStatusCancelled) ∨
       ((∃ req, op = .createRefund req ∧ req.PaymentID = id) ∧
          P.Status = PaymentStatusCompleted ∧ P'.Status = PaymentStatusRefunded)) := by
  cases op with
  | createPayment req =>
    show ∃ P', mapGet (PaymentService.CreatePayment s e req).2.paymentRepo.payments id = _ ∧ _
    have hf : mapGet s.paymentRepo.payments e.uuid1 = none := hf
    by_cases hv : createViolations req = []
    · rw [CreatePayment_of_valid s e req hv]
      refine ⟨P, ?_, Or.inl rfl⟩
      show mapGet (s.paymentRepo.Save (createdPayment e req)).payments id = _
      rw [mapGet_Save_payments, if_neg]
      · exact hP
      · intro hc
        have hc' : id = e.uuid1 := hc
        rw [hc', hf] at hP
        exact absurd hP (by simp)
    · rw [CreatePayment_of_invalid s e req hv]
      exact ⟨P, hP, Or.inl rfl⟩
  | processPayment pid =>
    show ∃ P', mapGet (PaymentService.ProcessPayment s e pid).2.paymentRepo.payments id = _ ∧ _
    cases hQ : mapGet s.paymentRepo.payments pid with
    | none =>
      rw [ProcessPayment_of_absent s e pid hQ]
      exact ⟨P, hP, Or.inl rfl⟩
    | some Q =>
      by_cases hs : Q.Status = PaymentStatusPending
      · rw [ProcessPayment_of_pending s e pid Q hQ hs]
        have hid : Q.ID = pid := hw.payKey pid Q hQ
        show ∃ P', mapGet (s.paymentRepo.Save (completedPayment e Q)).payments id = _ ∧ _
        rw [mapGet_Save_payments]
        by_cases hk : id = (completedPayment e Q).ID
        · rw [if_pos hk]
          have hk' : id = pid := hk.trans hid
          subst hk'
          rw [hQ] at hP
          have hPQ : Q = P := Option.some.inj hP
          subst hPQ
          exact ⟨_, rfl, Or.inr (Or.inl ⟨rfl, hs, rfl⟩)⟩
        · rw [if_neg hk]
          exact ⟨P, hP, Or.inl rfl⟩
      · rw [ProcessPayment_of_not_pending s e pid Q hQ hs]
        exact ⟨P, hP, Or.inl rfl⟩
  | cancelPayment pid =>
    show ∃ P', mapGet (PaymentService.CancelPayment s e pid).2.paymentRepo.payments id = _ ∧ _
    cases hQ : mapGet s.paymentRepo.payments pid with
    | none =>
      rw [CancelPayment_of_absent s e pid hQ]
      exact ⟨P, hP, Or.inl rfl⟩
    | some Q =>
      by_cases hs : Q.Status = PaymentStatusPending
      · rw [CancelPayment_of_pending s e pid Q hQ hs]
        have hid : Q.ID = pid := hw.payKey pid Q hQ
        show ∃ P', mapGet (s.paymentRepo.Save (cancelledPayment e Q)).payments id = _ ∧ _
        rw [mapGet_Save_payments]
        by_cases hk : id = (cancelledPayment e Q).ID
        · rw [if_pos hk]
          have hk' : id = pid := hk.trans hid
          subst hk'
          rw [hQ] at hP
          have hPQ : Q = P := Option.some.inj hP
          subst hPQ
          exact ⟨_, rfl, Or.inr (Or.inr (Or.inl ⟨rfl, hs, rfl⟩))⟩
        · rw [if_neg hk]
          exact ⟨P, hP, Or.inl rfl⟩
      · rw [CancelPayment_of_not_pending s e pid Q hQ hs]
        exact ⟨P, hP, Or.inl rfl⟩
  | createRefund req =>
    show ∃ P', mapGet (RefundService.CreateRefund s e req).2.paymentRepo.payments id = _ ∧ _
    by_cases hv : refundViolations req = []
    · cases hQ : mapGet s.paymentRepo.payments req.PaymentID with
      | none =>
        rw [CreateRefund_of_absent s e req hv hQ]
        exact ⟨P, hP, Or.inl rfl⟩
      | some Q =>
        by_cases hs : Q.Status = PaymentStatusCompleted
        · by_cases hx : RefundService.getTotalRefunded s Q.ID + req.Amount > Q.Amount
          · rw [CreateRefund_of_exceeding s e req Q hv hQ hs hx]
            exact ⟨P, hP, Or.inl rfl⟩
          · rw [CreateRefund_of_fitting s e req Q hv hQ hs hx]
            have hid : Q.ID = req.PaymentID := hw.payKey _ Q hQ
            by_cases hge : RefundService.getTotalRefunded s Q.ID + req.Amount ≥ Q.Amount
            · rw [if_pos hge]
              show ∃ P', mapGet (s.paymentRepo.Save (refundedPayment e Q)).payments id = _ ∧ _
              rw [mapGet_Save_payments]
              by_cases hk : id = (refundedPayment e Q).ID
              · rw [if_pos hk]
                have hk' : id = req.PaymentID := hk.trans hid
                rw [hk', hQ] at hP
                have hPQ : Q = P := Option.some.inj hP
                subst hPQ
                exact ⟨_, rfl, Or.inr (Or.inr (Or.inr ⟨⟨req, rfl, hk'.symm⟩, hs, rfl⟩))⟩
              · rw [if_neg hk]
                exact ⟨P, hP, Or.inl rfl⟩
            · rw [if_neg hge]
              exact ⟨P, hP, Or.inl rfl⟩
        · rw [CreateRefund_of_not_completed s e req Q hv hQ hs]
          exact ⟨P, hP, Or.inl rfl⟩
    · rw [CreateRefund_of_invalid s e req hv]
      exact ⟨P, hP, Or.inl rfl⟩

/-- C10: for every reachable state, every service call with fresh generated IDs
and every stored payment, the payment is still stored after the call and its
status is unchanged or has gone from pending to completed (only by
`ProcessPayment` on it), from pending to cancelled (only by `CancelPayment` on
it) or from completed to refunded (only by `CreateRefund` on it); so a
cancelled or refunded payment keeps its status, and no stored payment of a
reachable state has status failed. -/
theorem status_state_machine (s : Stores) (h : Reachable s) (e : Env) (op : Op)
    (hf : freshIDs s e op) (id : String) (P : Payment)
    (hP : s.paymentRepo.FindByID id = .ok P) :
    P.Status ≠ PaymentStatusFailed ∧
    ∃ P', (step s e op).paymentRepo.FindByID id = .ok P' ∧
      (P'.Status = P.Status ∨
       (op = .processPayment id ∧ P.Status = PaymentStatusPending ∧
          P'.Status = PaymentStatusCompleted) ∨
       (op = .cancelPayment id ∧ P.Status = PaymentStatusPending ∧
          P'.Status = PaymentStatusCancelled) ∨
       ((∃ req, op = .createRefund req ∧ req.PaymentID = id) ∧
          P.Status = PaymentStatusCompleted ∧ P'.Status = PaymentStatusRefunded)) ∧
      (P.Status = PaymentStatusCancelled ∨ P.Status = PaymentStatusRefunded →
        P'.Status = P.Status) ∧
      P'.Status ≠ PaymentStatusFailed := by
  have hw := WellFormed_of_Reachable s h
  have hP' := (FindByID_eq_ok_iff _ _ _).mp hP
  have hnf : ∀ Q : Payment,
      (Q.Status = PaymentStatusPending ∨ Q.Status = PaymentStatusCompleted ∨
        Q.Status = PaymentStatusCancelled ∨ Q.Status = PaymentStatusRefunded) →
      Q.Status ≠ PaymentStatusFailed := by
    intro Q hQ hc
    rw [hc] at hQ
    rcases hQ with hQ | hQ | hQ | hQ
    · exact absurd hQ (by decide)
    · exact absurd hQ (by decide)
    · exact absurd hQ (by decide)
    · exact absurd hQ (by decide)
  refine ⟨hnf P (hw.status id P hP'), ?_⟩
  obtain ⟨P1, hP1, htr⟩ := step_status_transition s hw e op hf id P hP'
  have hw1 := WellFormed_step s e op hw hf
  refine ⟨P1, (FindByID_eq_ok_iff _ _ _).mpr hP1, htr, ?_, hnf P1 (hw1.status id P1 hP1)⟩
  intro hterm
  rcases htr with h0 | ⟨_, hpend, _⟩ | ⟨_, hpend, _⟩ | ⟨_, hcomp, _⟩
  · exact h0
  · rw [hpend] at hterm
    rcases hterm with hc | hc
    · exact absurd hc (by decide)
    · exact absurd hc (by decide)
  · rw [hpend] at hterm
    rcases hterm with hc | hc
    · exact absurd hc (by decide)
    · exact absurd hc (by decide)
  · rw [hcomp] at hterm
    rcases hterm with hc | hc
    · exact absurd hc (by decide)
    · exact absurd hc (by decide)

theorem status_state_machine_witness :
    scenario.completed.Status ≠ PaymentStatusFailed ∧
    ∃ P', (step scenario.s2 ⟨"r1", "t2", 3, 3, 3⟩
        (.createRefund ⟨"p1", 100, "Full refund"⟩)).paymentRepo.FindByID "p1" = .ok P' ∧
      (P'.Status = scenario.completed.Status ∨
       (Op.createRefund ⟨"p1", 100, "Full refund"⟩ = .processPayment "p1" ∧
          scenario.completed.Status = PaymentStatusPending ∧
          P'.Status = PaymentStatusCompleted) ∨
       (Op.createRefund ⟨"p1", 100, "Full refund"⟩ = .cancelPayment "p1" ∧
          scenario.completed.Status = PaymentStatusPending ∧
          P'.Status = PaymentStatusCancelled) ∨
       ((∃ req, Op.createRefund ⟨"p1", 100, "Full refund"⟩ = .createRefund req ∧
            req.PaymentID = "p1") ∧
          scenario.completed.Status = PaymentStatusCompleted ∧
          P'.Status = PaymentStatusRefunded)) ∧
      (scenario.completed.Status = PaymentStatusCancelled ∨
        scenario.completed.Status = PaymentStatusRefunded →
        P'.Status = scenario.completed.Status) ∧
      P'.Status ≠ PaymentStatusFailed :=
  status_state_machine scenario.s2 scenario_s2_reachable ⟨"r1", "t2", 3, 3, 3⟩
    (.createRefund ⟨"p1", 100, "Full refund"⟩) (by decide!) "p1" scenario.completed
    scenario_s2_payment

end StateMachineClaims

/-! ## More reachable runs -/

section MoreScenarioLemmas

open models repositories utils services spec

theorem scenario_s5_reachable : Reachable scenario.s5 :=
  Reachable.step _ _ _ scenario_s2_reachable (by decide!)

theorem scenario_s5_payment : scenario.s5.paymentRepo.FindByID "p1" = .ok scenario.refunded := by
  decide!

theorem scenario_q2_reachable : Reachable scenario.q2 :=
  Reachable.step _ _ _ (Reachable.step _ _ _ Reachable.init (by decide)) (by decide!)

theorem scenario_q3_reachable : Reachable scenario.q3 :=
  Reachable.step _ _ _ scenario_q2_reachable (by decide!)

theorem scenario_q4_reachable : Reachable scenario.q4 :=
  Reachable.step _ _ _ scenario_q3_reachable (by decide!)

theorem scenario_q2_payment : scenario.q2.paymentRepo.FindByID "p1" = .ok scenario.completedQ := by
  decide!

theorem scenario_q3_payment : scenario.q3.paymentRepo.FindByID "p1" = .ok scenario.completedQ := by
  decide!

theorem scenario_q4_payment : scenario.q4.paymentRepo.FindByID "p1" = .ok scenario.refundedQ := by
  decide!

end MoreScenarioLemmas

/-! ## Shape of one step -/

section StepShape

open models repositories utils services spec

/-- A record differs from another one at most in status, transaction
back-reference and update time. -/
theorem sameCore_iff (P P' : Payment) :
    ({ P' with Status := P.Status, TransactionID := P.TransactionID,
               UpdatedAt := P.UpdatedAt } = P) ↔
      (P'.ID = P.ID ∧ P'.OrderID = P.OrderID ∧ P'.UserID = P.UserID ∧ P'.Amount = P.Amount ∧
        P'.Currency = P.Currency ∧ P'.MethodID = P.MethodID ∧
        P'.Description = P.Description ∧ P'.CreatedAt = P.CreatedAt) := by
  cases P
  cases P'
  simp

/-- The payment repository after one call on well-formed stores: unchanged, or
one record saved under a fresh key, or one stored record re-saved with at most
its status, transaction back-reference and update time changed. -/
theorem step_paymentRepo_cases (s : Stores) (e : Env) (op : Op) (hw : WellFormed s)
    (hf : freshIDs s e op) :
    (step s e op).paymentRepo = s.paymentRepo ∨
    (∃ P', (step s e op).paymentRepo = s.paymentRepo.Save P' ∧
      mapGet s.paymentRepo.payments P'.ID = none) ∨
    (∃ P P', (step s e op).paymentRepo = s.paymentRepo.Save P' ∧
      mapGet s.paymentRepo.payments P.ID = some P ∧
      { P' with Status := P.Status, TransactionID := P.TransactionID,
                UpdatedAt := P.UpdatedAt } = P) := by
  cases op with
  | createPayment req =>
    have hstep : step s e (Op.createPayment req) = (PaymentService.CreatePayment s e req).2 := rfl
    rw [hstep]
    by_cases hv : createViolations req = []
    · rw [CreatePayment_of_valid s e req hv]
      exact Or.inr (Or.inl ⟨createdPayment e req, rfl, hf⟩)
    · rw [CreatePayment_of_invalid s e req hv]
      exact Or.inl rfl
  | processPayment pid =>
    have hstep : step s e (Op.processPayment pid) = (PaymentService.ProcessPayment s e pid).2 := rfl
    rw [hstep]
    cases hQ : mapGet s.paymentRepo.payments pid with
    | none =>
      rw [ProcessPayment_of_absent s e pid hQ]
      exact Or.inl rfl
    | some Q =>
      by_cases hs : Q.Status = PaymentStatusPending
      · rw [ProcessPayment_of_pending s e pid Q hQ hs]
        have hid : Q.ID = pid := hw.payKey pid Q hQ
        rw [← hid] at hQ
        exact Or.inr (Or.inr ⟨Q, completedPayment e Q, rfl, hQ, rfl⟩)
      · rw [ProcessPayment_of_not_pending s e pid Q hQ hs]
        exact Or.inl rfl
  | cancelPayment pid =>
    have hstep : step s e (Op.cancelPayment pid) = (PaymentService.CancelPayment s e pid).2 := rfl
    rw [hstep]
    cases hQ : mapGet s.paymentRepo.payments pid with
    | none =>
      rw [CancelPayment_of_absent s e pid hQ]
      exact Or.inl rfl
    | some Q =>
      by_cases hs : Q.Status = PaymentStatusPending
      · rw [CancelPayment_of_pending s e pid Q hQ hs]
        have hid : Q.ID = pid := hw.payKey pid Q hQ
        rw [← hid] at hQ
        exact Or.inr (Or.inr ⟨Q, cancelledPayment e Q, rfl, hQ, rfl⟩)
      · rw [CancelPayment_of_not_pending s e pid Q hQ hs]
        exact Or.inl rfl
  | createRefund req =>
    have hstep : step s e (Op.createRefund req) = (RefundService.CreateRefund s e req).2 := rfl
    rw [hstep]
    by_cases hv : refundViolations req = []
    · cases hQ : mapGet s.paymentRepo.payments req.PaymentID with
      | none =>
        rw [CreateRefund_of_absent s e req hv hQ]
        exact Or.inl rfl
      | some Q =>
        by_cases hs : Q.Status = PaymentStatusCompleted
        · by_cases hx : RefundService.getTotalRefunded s Q.ID + req.Amount > Q.Amount
          · rw [CreateRefund_of_exceeding s e req Q hv hQ hs hx]
            exact Or.inl rfl
          · rw [CreateRefund_of_fitting s e req Q hv hQ hs hx]
            have hid : Q.ID = req.PaymentID := hw.payKey _ Q hQ
            rw [← hid] at hQ
            by_cases hge : RefundService.getTotalRefunded s Q.ID + req.Amount ≥ Q.Amount
            · rw [if_pos hge]
              exact Or.inr (Or.inr ⟨Q, refundedPayment e Q, rfl, hQ, rfl⟩)
            · rw [if_neg hge]
              exact Or.inl rfl
        · rw [CreateRefund_of_not_completed s e req Q hv hQ hs]
          exact Or.inl rfl
    · rw [CreateRefund_of_invalid s e req hv]
      exact Or.inl rfl

/-- The ledger after one call with fresh IDs: unchanged, or one transaction
saved under a key that was not in use. -/
theorem step_transactionRepo_cases (s : Stores) (e : Env) (op : Op) (hf : freshIDs s e op) :
    (step s e op).transactionRepo = s.transactionRepo ∨
    (∃ tx, (step s e op).transactionRepo = s.transactionRepo.Save tx ∧
      mapGet s.transactionRepo.transactions tx.ID = none) := by
  cases op with
  | createPayment req =>
    have hstep : step s e (Op.createPayment req) = (PaymentService.CreatePayment s e req).2 := rfl
    rw [hstep]
    by_cases hv : createViolations req = []
    · rw [CreatePayment_of_valid s e req hv]
      exact Or.inl rfl
    · rw [CreatePayment_of_invalid s e req hv]
      exact Or.inl rfl
  | processPayment pid =>
    have hstep : step s e (Op.processPayment pid) = (PaymentService.ProcessPayment s e pid).2 := rfl
    rw [hstep]
    cases hQ : mapGet s.paymentRepo.payments pid with
    | none =>
      rw [ProcessPayment_of_absent s e pid hQ]
      exact Or.inl rfl
    | some Q =>
      by_cases hs : Q.Status = PaymentStatusPending
      · rw [ProcessPayment_of_pending s e pid Q hQ hs]
        exact Or.inr ⟨chargeTransaction e Q, rfl, hf⟩
      · rw [ProcessPayment_of_not_pending s e pid Q hQ hs]
        exact Or.inl rfl
  | cancelPayment pid =>
    have hstep : step s e (Op.cancelPayment pid) = (PaymentService.CancelPayment s e pid).2 := rfl
    rw [hstep]
    cases hQ : mapGet s.paymentRepo.payments pid with
    | none =>
      rw [CancelPayment_of_absent s e pid hQ]
      exact Or.inl rfl
    | some Q =>
      by_cases hs : Q.Status = PaymentStatusPending
      · rw [CancelPayment_of_pending s e pid Q hQ hs]
        exact Or.inl rfl
      · rw [CancelPayment_of_not_pending s e pid Q hQ hs]
        exact Or.inl rfl
  | createRefund req =>
    have hstep : step s e (Op.createRefund req) = (RefundService.CreateRefund s e req).2 := rfl
    rw [hstep]
    by_cases hv : refundViolations req = []
    · cases hQ : mapGet s.paymentRepo.payments req.PaymentID with
      | none =>
        rw [CreateRefund_of_absent s e req hv hQ]
        exact Or.inl rfl
      | some Q =>
        by_cases hs : Q.Status = PaymentStatusCompleted
        · by_cases hx : RefundService.getTotalRefunded s Q.ID + req.Amount > Q.Amount
          · rw [CreateRefund_of_exceeding s e req Q hv hQ hs hx]
            exact Or.inl rfl
          · rw [CreateRefund_of_fitting s e req Q hv hQ hs hx]
            by_cases hge : RefundService.getTotalRefunded s Q.ID + req.Amount ≥ Q.Amount
            · rw [if_pos hge]
              exact Or.inr ⟨refundTransaction e req Q, rfl, hf⟩
            · rw [if_neg hge]
              exact Or.inr ⟨refundTransaction e req Q, rfl, hf⟩
        · rw [CreateRefund_of_not_completed s e req Q hv hQ hs]
          exact Or.inl rfl
    · rw [CreateRefund_of_invalid s e req hv]
      exact Or.inl rfl

end StepShape

/-! ## The user index under the service operations -/

section UserIndex

open models repositories utils services spec

theorem mapSet_keys_of_present {α : Type} (m : List (String × α)) (k : String) (v v' : α)
    (h : mapGet m k = some v) : (mapSet m k v').map Prod.fst = m.map Prod.fst := by
  induction m with
  | nil => simp [mapGet] at h
  | cons a t ih =>
    obtain ⟨k0, v0⟩ := a
    by_cases hk : k0 = k
    · simp [mapSet, hk]
    · simp only [mapGet, hk, if_false] at h
      simp [mapSet, hk, ih h]

theorem mapSet_filter_keys_of_present {α : Type} (m : List (String × α)) (k : String)
    (v v' : α) (q : α → Bool) (h : mapGet m k = some v) (hq : q v' = q v) :
    ((mapSet m k v').filter (fun kv => q kv.2)).map Prod.fst =
      (m.filter (fun kv => q kv.2)).map Prod.fst := by
  induction m with
  | nil => simp [mapGet] at h
  | cons a t ih =>
    obtain ⟨k0, v0⟩ := a
    by_cases hk : k0 = k
    · simp only [mapGet, hk, if_true, Option.some.injEq] at h
      subst h
      subst hk
      simp only [mapSet, if_true, List.filter_cons, hq]
      split <;> simp
    · simp only [mapGet, hk, if_false] at h
      simp only [mapSet, hk, if_false, List.filter_cons]
      split
      · simp [ih h]
      · exact ih h

theorem filterMap_mapGet_keys_of_nodup {α : Type} (m : List (String × α))
    (hn : (m.map Prod.fst).Nodup) (l : List (String × α)) (hl : ∀ kv ∈ l, kv ∈ m) :
    (l.map Prod.fst).filterMap (fun id => mapGet m id) = l.map Prod.snd := by
  induction l with
  | nil => rfl
  | cons a t ih =>
    obtain ⟨k, v⟩ := a
    have h1 : mapGet m k = some v := mapGet_of_mem_nodup m k v hn (hl _ (List.mem_cons_self _ _))
    simp only [List.map_cons, List.filterMap_cons, h1]
    rw [ih (fun kv hkv => hl kv (List.mem_cons_of_mem _ hkv))]

theorem UserIndexed_empty : UserIndexed NewPaymentRepository := by
  refine ⟨?_, ?_⟩ <;> simp [NewPaymentRepository, mapGet]

/-- Saving a record under a fresh key keeps the user index exact. -/
theorem UserIndexed_Save_fresh (r : PaymentRepository) (P : Payment) (h : UserIndexed r)
    (hf : mapGet r.payments P.ID = none) : UserIndexed (r.Save P) := by
  have hp : (r.Save P).payments = r.payments ++ [(P.ID, P)] := mapSet_of_fresh _ _ _ hf
  have hi : (r.Save P).userIdx = indexAdd r.userIdx P.UserID P.ID := rfl
  refine ⟨?_, ?_⟩
  · rw [hp, List.map_append, List.nodup_append]
    refine ⟨h.payNodup, by simp, ?_⟩
    intro a ha hb
    simp only [List.map_cons, List.map_nil, List.mem_singleton] at hb
    subst hb
    exact (mapGet_eq_none_iff _ _).mp hf ha
  · intro u
    rw [hp, hi, getD_mapGet_indexAdd, List.filter_append, List.map_append]
    by_cases hk : u = P.UserID
    · subst hk
      have hnot : P.ID ∉ (mapGet r.userIdx P.UserID).getD [] := by
        rw [h.userIdx]
        intro hc
        obtain ⟨kv, hkv, hkey⟩ := List.mem_map.mp hc
        exact (mapGet_eq_none_iff _ _).mp hf
          (List.mem_map.mpr ⟨kv, (List.mem_filter.mp hkv).1, hkey⟩)
      rw [if_pos rfl, if_neg hnot, h.userIdx]
      simp
    · have hk' : ¬ P.UserID = u := fun hc => hk hc.symm
      simp [hk, hk', h.userIdx]

/-- Saving again a stored record whose user is unchanged keeps the user index
exact. -/
theorem UserIndexed_Save_same (r : PaymentRepository) (P P' : Payment) (h : UserIndexed r)
    (hP : mapGet r.payments P'.ID = some P) (hu : P'.UserID = P.UserID) :
    UserIndexed (r.Save P') := by
  have hp : (r.Save P').payments = mapSet r.payments P'.ID P' := rfl
  have hi : (r.Save P').userIdx = indexAdd r.userIdx P'.UserID P'.ID := rfl
  have hmem : P'.ID ∈ (mapGet r.userIdx P'.UserID).getD [] := by
    rw [h.userIdx]
    refine List.mem_map.mpr ⟨(P'.ID, P), List.mem_filter.mpr ⟨mem_of_mapGet_eq_some _ _ _ hP, ?_⟩,
      rfl⟩
    simp [hu]
  refine ⟨?_, ?_⟩
  · rw [hp, mapSet_keys_of_present _ _ P P' hP]
    exact h.payNodup
  · intro u
    rw [hp, hi, getD_mapGet_indexAdd]
    have hfil := mapSet_filter_keys_of_present r.payments P'.ID P P'
      (fun p => decide (p.UserID = u)) hP (by simp [hu])
    rw [hfil]
    by_cases hk : u = P'.UserID
    · subst hk
      rw [if_pos rfl, if_pos hmem]
      exact h.userIdx _
    · rw [if_neg hk]
      exact h.userIdx u

/-- Every service call with fresh IDs keeps the user index exact. -/
theorem UserIndexed_step (s : Stores) (e : Env) (op : Op) (hw : WellFormed s)
    (hu : UserIndexed s.paymentRepo) (hf : freshIDs s e op) :
    UserIndexed (step s e op).paymentRepo := by
  rcases step_paymentRepo_cases s e op hw hf with h0 | ⟨P', h1, hfresh⟩ | ⟨P, P', h2, hP, hcore⟩
  · rw [h0]
    exact hu
  · rw [h1]
    exact UserIndexed_Save_fresh _ _ hu hfresh
  · rw [h2]
    have hc := (sameCore_iff P P').mp hcore
    refine UserIndexed_Save_same _ P P' hu ?_ hc.2.2.1
    rw [hc.1]
    exact hP

theorem UserIndexed_of_Reachable (s : Stores) (h : Reachable s) :
    UserIndexed s.paymentRepo := by
  induction h with
  | init => exact UserIndexed_empty
  | step s e op hr hf ih => exact UserIndexed_step s e op (WellFormed_of_Reachable s hr) ih hf

/-- With an exact user index `FindByUserID` returns the user's records, in the
order of the primary map. -/
theorem FindByUserID_of_UserIndexed (r : PaymentRepository) (h : UserIndexed r) (u : String) :
    r.FindByUserID u = (r.payments.filter (fun kv => kv.2.UserID = u)).map Prod.snd := by
  unfold PaymentRepository.FindByUserID
  simp only [h.userIdx u]
  exact filterMap_mapGet_keys_of_nodup _ h.payNodup _ (fun kv hkv => (List.mem_filter.mp hkv).1)

end UserIndex

/-! ## Claims on `GetPaymentTotal` -/

section TotalClaims

open models repositories utils services spec

end TotalClaims

/-! ## Claims on the effects of `CreateRefund` -/

section RefundEffectClaims

open models repositories utils services spec

/-- What a successful `CreateRefund` was called on, and what it returned and
stored. -/
theorem CreateRefund_ok_inv (s : Stores) (e : Env) (req : CreateRefundRequest) (r : Refund)
    (hok : (RefundService.CreateRefund s e req).1 = .ok r) :
    ∃ P, mapGet s.paymentRepo.payments req.PaymentID = some P ∧
      refundViolations req = [] ∧
      P.Status = PaymentStatusCompleted ∧
      ¬ RefundService.getTotalRefunded s P.ID + req.Amount > P.Amount ∧
      r = refundRecord e req P ∧
      (RefundService.CreateRefund s e req).2 =
        (if RefundService.getTotalRefunded s P.ID + req.Amount ≥ P.Amount then
          { paymentRepo := s.paymentRepo.Save (refundedPayment e P),
            transactionRepo := s.transactionRepo.Save (refundTransaction e req P) }
        else { s with transactionRepo := s.transactionRepo.Save (refundTransaction e req P) }) := by
  by_cases hv : refundViolations req = []
  · cases hQ : mapGet s.paymentRepo.payments req.PaymentID with
    | none =>
      rw [CreateRefund_of_absent s e req hv hQ] at hok
      simp at hok
    | some Q =>
      by_cases hs : Q.Status = PaymentStatusCompleted
      · by_cases hx : RefundService.getTotalRefunded s Q.ID + req.Amount > Q.Amount
        · rw [CreateRefund_of_exceeding s e req Q hv hQ hs hx] at hok
          simp at hok
        · rw [CreateRefund_of_fitting s e req Q hv hQ hs hx] at hok ⊢
          have hr : refundRecord e req Q = r := by simpa using hok
          exact ⟨Q, rfl, hv, hs, hx, hr.symm, rfl⟩
      · rw [CreateRefund_of_not_completed s e req Q hv hQ hs] at hok
        simp at hok
  · rw [CreateRefund_of_invalid s e req hv] at hok
    simp at hok

/-- C13: when `CreateRefund` succeeds in a reachable state (its generated
transaction ID being fresh) against the stored payment `P`, the returned refund
has `P`'s ID, the request's reason, status completed and the requested amount
rounded for `P`'s currency; and the ledger is the old ledger followed by
exactly one new transaction, of type refund, with `P`'s ID and currency, the
refund's amount, and the refund's ID and the reason as metadata. -/
theorem CreateRefund_success_effects (s : Stores) (h : Reachable s) (e : Env)
    (req : CreateRefundRequest) (r : Refund)
    (hf : mapGet s.transactionRepo.transactions e.uuid2 = none)
    (hok : (RefundService.CreateRefund s e req).1 = .ok r) :
    ∃ P tx, s.paymentRepo.FindByID req.PaymentID = .ok P ∧
      r.PaymentID = P.ID ∧ r.Reason = req.Reason ∧ r.Status = RefundStatusCompleted ∧
      r.Amount = RoundToDecimalPlaces req.Amount P.Currency ∧
      (RefundService.CreateRefund s e req).2.transactionRepo.transactions =
        s.transactionRepo.transactions ++ [(tx.ID, tx)] ∧
      tx.Type_ = TransactionTypeRefund ∧ tx.PaymentID = P.ID ∧ tx.Amount = r.Amount ∧
      tx.Currency = P.Currency ∧
      mapGet tx.Metadata "refund_id" = some r.ID ∧
      mapGet tx.Metadata "reason" = some req.Reason := by
  have hw := WellFormed_of_Reachable s h
  obtain ⟨P, hP, _, _, _, hr, hst⟩ := CreateRefund_ok_inv s e req r hok
  have hid := hw.payKey _ P hP
  subst hr
  refine ⟨P, refundTransaction e req P, (FindByID_eq_ok_iff _ _ _).mpr hP, hid.symm, rfl, rfl,
    rfl, ?_, rfl, rfl, rfl, rfl, ?_, ?_⟩
  · rw [hst]
    split
    · exact Save_transactions_of_fresh s.transactionRepo (refundTransaction e req P) hf
    · exact Save_transactions_of_fresh s.transactionRepo (refundTransaction e req P) hf
  · simp [refundTransaction, refundRecord, mapGet]
  · simp [refundTransaction, mapGet]

theorem CreateRefund_success_effects_witness :
    ∃ P tx, scenario.s2.paymentRepo.FindByID "p1" = .ok P ∧
      (⟨"r1", "p1", 50, "Customer request", "completed", 3⟩ : Refund).PaymentID = P.ID ∧
      (⟨"r1", "p1", 50, "Customer request", "completed", 3⟩ : Refund).Reason =
        "Customer request" ∧
      (⟨"r1", "p1", 50, "Customer request", "completed", 3⟩ : Refund).Status =
        RefundStatusCompleted ∧
      (⟨"r1", "p1", 50, "Customer request", "completed", 3⟩ : Refund).Amount =
        RoundToDecimalPlaces 50 P.Currency ∧
      (RefundService.CreateRefund scenario.s2 ⟨"r1", "t2", 3, 3, 3⟩
          ⟨"p1", 50, "Customer request"⟩).2.transactionRepo.transactions =
        scenario.s2.transactionRepo.transactions ++ [(tx.ID, tx)] ∧
      tx.Type_ = TransactionTypeRefund ∧ tx.PaymentID = P.ID ∧
      tx.Amount = (⟨"r1", "p1", 50, "Customer request", "completed", 3⟩ : Refund).Amount ∧
      tx.Currency = P.Currency ∧
      mapGet tx.Metadata "refund_id" =
        some (⟨"r1", "p1", 50, "Customer request", "completed", 3⟩ : Refund).ID ∧
      mapGet tx.Metadata "reason" = some "Customer request" :=
  CreateRefund_success_effects scenario.s2 scenario_s2_reachable ⟨"r1", "t2", 3, 3, 3⟩
    ⟨"p1", 50, "Customer request"⟩ ⟨"r1", "p1", 50, "Customer request", "completed", 3⟩
    (by decide!) (by decide!)

end RefundEffectClaims

/-! ## Rounding and the remaining balance, exact rendering -/

section RefundComparisonClaims

open models repositories utils services spec

theorem intCast_le_Round_of_le (x : ℚ) (m : ℤ) (h : (m : ℚ) ≤ x) : (m : ℚ) ≤ Go.Round x := by
  unfold Go.Round
  split
  · have h1 : m ≤ Int.floor (x + 1 / 2) := by
      rw [Int.le_floor]
      linarith
    exact_mod_cast h1
  · have h1 : Int.floor (-x + 1 / 2) < -m + 1 := by
      rw [Int.floor_lt]
      push_cast
      linarith
    have h2 : m ≤ -Int.floor (-x + 1 / 2) := by omega
    exact_mod_cast h2

/-- A request that reaches the remaining balance still reaches it after
rounding, when the balance is on the grid of the currency. -/
theorem le_add_RoundToDecimalPlaces (currency : String) (total amount cap : ℚ)
    (ht : OnGrid currency total) (hc : OnGrid currency cap) (h : cap ≤ total + amount) :
    cap ≤ total + RoundToDecimalPlaces amount currency := by
  obtain ⟨t, ht⟩ := ht
  obtain ⟨c, hc⟩ := hc
  have hf := pow10_pos (decimalPlaces currency)
  have e : ((c : ℚ) - t) / 10 ^ decimalPlaces currency =
      (c : ℚ) / 10 ^ decimalPlaces currency - (t : ℚ) / 10 ^ decimalPlaces currency := by
    ring
  have h1 : ((c - t : ℤ) : ℚ) ≤ amount * 10 ^ decimalPlaces currency := by
    have : ((c : ℚ) - t) / 10 ^ decimalPlaces currency ≤ amount := by
      rw [ht, hc] at h
      rw [e]
      linarith
    push_cast
    exact (div_le_iff₀ hf).mp this
  have h2 := intCast_le_Round_of_le _ _ h1
  rw [RoundToDecimalPlaces_eq, ht, hc]
  have h3 : ((c - t : ℤ) : ℚ) / 10 ^ decimalPlaces currency ≤
      Go.Round (amount * 10 ^ decimalPlaces currency) / 10 ^ decimalPlaces currency :=
    div_le_div_of_nonneg_right h2 hf.le
  push_cast at h3
  rw [e] at h3
  linarith

end RefundComparisonClaims

/-! ## Claims on refund failures and on the ledger -/

section LedgerClaims

open models repositories utils services spec

/-- C17 (claim as stated fails): with a negative amount and a one-blank reason
only the amount rule is violated when "empty" is read literally, yet the
message of `CreateRefund` also carries the reason entry. -/
theorem CreateRefund_message_lists_whitespace_reason :
    refundViolationsEmptyOnly ⟨"p1", -1, " "⟩ = ["amount must be a positive amount"] ∧
    RefundService.CreateRefund emptyStores ⟨"r1", "t1", 1, 1, 1⟩ ⟨"p1", -1, " "⟩ =
      (.error "validation failed: amount must be a positive amount; reason is required",
        emptyStores) ∧
    ("validation failed: amount must be a positive amount; reason is required" : String) ≠
      "validation failed: " ++ Go.Join (refundViolationsEmptyOnly ⟨"p1", -1, " "⟩) "; " := by
  decide

/-- C17 (amended): when a request violates at least one rule (blank payment ID,
amount not positive, blank reason), `CreateRefund` fails whatever the stores
hold, leaves them unchanged, and its message is "validation failed: " followed
by the entries of all violated rules joined by "; " in the order payment_id,
amount, reason. -/
theorem CreateRefund_reports_all_violations (s : Stores) (e : Env)
    (req : CreateRefundRequest) (h : refundViolations req ≠ []) :
    RefundService.CreateRefund s e req =
      (.error ("validation failed: " ++ Go.Join (refundViolations req) "; "), s) :=
  CreateRefund_of_invalid s e req h

theorem CreateRefund_reports_all_violations_witness :
    refundViolations ⟨" ", 0, ""⟩ =
      ["payment_id is required", "amount must be a positive amount", "reason is required"] ∧
    RefundService.CreateRefund scenario.s2 ⟨"r1", "t2", 3, 3, 3⟩ ⟨" ", 0, ""⟩ =
      (.error ("validation failed: " ++ Go.Join (refundViolations ⟨" ", 0, ""⟩) "; "),
        scenario.s2) :=
  ⟨by decide, CreateRefund_reports_all_violations scenario.s2 ⟨"r1", "t2", 3, 3, 3⟩
    ⟨" ", 0, ""⟩ (by decide)⟩

/-- C18: for a request that passes validation, `CreateRefund` fails with
"payment not found: " followed by the ID when no payment has that ID, and with
"can only refund completed payments" when the payment has any status other
than completed; in both cases the stores, the ledger included, are unchanged. -/
theorem CreateRefund_lookup_failures (s : Stores) (e : Env) (req : CreateRefundRequest)
    (hv : RefundService.validateRefundRequest req = none) :
    (mapGet s.paymentRepo.payments req.PaymentID = none →
      RefundService.CreateRefund s e req =
        (.error ("payment not found: " ++ req.PaymentID), s)) ∧
    (∀ P, mapGet s.paymentRepo.payments req.PaymentID = some P →
      P.Status ≠ PaymentStatusCompleted →
      RefundService.CreateRefund s e req =
        (.error "can only refund completed payments", s)) := by
  have hv' : refundViolations req = [] := by
    by_contra hc
    rw [validateRefundRequest_eq, if_neg hc] at hv
    simp at hv
  exact ⟨CreateRefund_of_absent s e req hv', fun P hP hs =>
    CreateRefund_of_not_completed s e req P hv' hP hs⟩

theorem CreateRefund_lookup_failures_witness :
    RefundService.CreateRefund emptyStores ⟨"r1", "t1", 1, 1, 1⟩ ⟨"nonexistent", 50, "Test"⟩ =
      (.error "payment not found: nonexistent", emptyStores) ∧
    RefundService.CreateRefund scenario.s1 ⟨"r1", "t1", 2, 2, 2⟩ ⟨"p1", 50, "Test"⟩ =
      (.error "can only refund completed payments", scenario.s1) :=
  ⟨(CreateRefund_lookup_failures emptyStores ⟨"r1", "t1", 1, 1, 1⟩
      ⟨"nonexistent", 50, "Test"⟩ (by decide)).1 (by decide),
   (CreateRefund_lookup_failures scenario.s1 ⟨"r1", "t1", 2, 2, 2⟩ ⟨"p1", 50, "Test"⟩
      (by decide)).2 scenario.pending (by decide!) (by decide)⟩

/-- C19 (claim as stated fails): `CancelPayment` on the pending payment
succeeds and changes its status to cancelled, and the ledger, empty before, is
still empty: no transaction mirrors the change. -/
theorem CancelPayment_appends_no_transaction :
    scenario.s1.paymentRepo.FindByID "p1" = .ok scenario.pending ∧
    scenario.s1.transactionRepo.transactions = [] ∧
    (PaymentService.CancelPayment scenario.s1 ⟨"", "", 2, 2, 2⟩ "p1").1 =
      .ok (cancelledPayment ⟨"", "", 2, 2, 2⟩ scenario.pending) ∧
    (cancelledPayment ⟨"", "", 2, 2, 2⟩ scenario.pending).Status = "cancelled" ∧
    (PaymentService.CancelPayment scenario.s1
      ⟨"", "", 2, 2, 2⟩ "p1").2.transactionRepo.transactions = [] := by
  decide!

/-- C19 (amended): in a reachable state, whenever a service call with fresh
generated IDs changes the status of a stored payment, either the call is
`CancelPayment` on that payment and the ledger is unchanged, or the call is a
`ProcessPayment` or a `CreateRefund` and the ledger is the old ledger followed
by exactly one new transaction referencing that payment. -/
theorem status_change_ledger (s : Stores) (h : Reachable s) (e : Env) (op : Op)
    (hf : freshIDs s e op) (id : String) (P P' : Payment)
    (hP : s.paymentRepo.FindByID id = .ok P)
    (hP' : (step s e op).paymentRepo.FindByID id = .ok P')
    (hch : P'.Status ≠ P.Status) :
    (op = .cancelPayment id ∧ (step s e op).transactionRepo = s.transactionRepo) ∨
    ((op = .processPayment id ∨ ∃ req, op = .createRefund req ∧ req.PaymentID = id) ∧
      ∃ tx, (step s e op).transactionRepo.transactions =
          s.transactionRepo.transactions ++ [(tx.ID, tx)] ∧
        tx.PaymentID = id) := by
  have hw := WellFormed_of_Reachable s h
  have hPm := (FindByID_eq_ok_iff _ _ _).mp hP
  have hPm' := (FindByID_eq_ok_iff _ _ _).mp hP'
  have hkey := hw.payKey id P hPm
  obtain ⟨P1, hP1, htr⟩ := step_status_transition s hw e op hf id P hPm
  rw [hPm'] at hP1
  have hPP : P' = P1 := Option.some.inj hP1
  subst hPP
  rcases htr with h0 | ⟨hop, hpend, _⟩ | ⟨hop, hpend, _⟩ | ⟨⟨req, hop, hreq⟩, hcomp, _⟩
  · exact absurd h0 hch
  · subst hop
    have hf' : mapGet s.transactionRepo.transactions e.uuid1 = none := hf
    refine Or.inr ⟨Or.inl rfl, chargeTransaction e P, ?_, hkey⟩
    show (PaymentService.ProcessPayment s e id).2.transactionRepo.transactions = _
    rw [ProcessPayment_of_pending s e id P hPm hpend]
    exact Save_transactions_of_fresh s.transactionRepo (chargeTransaction e P) hf'
  · subst hop
    refine Or.inl ⟨rfl, ?_⟩
    show (PaymentService.CancelPayment s e id).2.transactionRepo = _
    rw [CancelPayment_of_pending s e id P hPm hpend]
  · subst hop
    have hf' : mapGet s.transactionRepo.transactions e.uuid2 = none := hf
    have hPr : mapGet s.paymentRepo.payments req.PaymentID = some P := by
      rw [hreq]
      exact hPm
    have hstep : step s e (Op.createRefund req) = (RefundService.CreateRefund s e req).2 := rfl
    rw [hstep] at hPm' ⊢
    have same : (RefundService.CreateRefund s e req).2 = s → False := by
      intro hsame
      rw [hsame, hPm] at hPm'
      exact hch (congrArg Payment.Status (Option.some.inj hPm').symm)
    by_cases hv : refundViolations req = []
    · by_cases hx : RefundService.getTotalRefunded s P.ID + req.Amount > P.Amount
      · exact absurd (by rw [CreateRefund_of_exceeding s e req P hv hPr hcomp hx]) same
      · refine Or.inr ⟨Or.inr ⟨req, rfl, hreq⟩, refundTransaction e req P, ?_, hkey⟩
        rw [CreateRefund_of_fitting s e req P hv hPr hcomp hx]
        split
        · exact Save_transactions_of_fresh s.transactionRepo (refundTransaction e req P) hf'
        · exact Save_transactions_of_fresh s.transactionRepo (refundTransaction e req P) hf'
    · exact absurd (by rw [CreateRefund_of_invalid s e req hv]) same

theorem status_change_ledger_witness :
    (Op.processPayment "p1" = .cancelPayment "p1" ∧
      (step scenario.s1 ⟨"t1", "", 2, 2, 2⟩ (.processPayment "p1")).transactionRepo =
        scenario.s1.transactionRepo) ∨
    ((Op.processPayment "p1" = .processPayment "p1" ∨
        ∃ req, Op.processPayment "p1" = .createRefund req ∧ req.PaymentID = "p1") ∧
      ∃ tx, (step scenario.s1 ⟨"t1", "", 2, 2, 2⟩
            (.processPayment "p1")).transactionRepo.transactions =
          scenario.s1.transactionRepo.transactions ++ [(tx.ID, tx)] ∧
        tx.PaymentID = "p1") :=
  status_change_ledger scenario.s1 scenario_s1_reachable ⟨"t1", "", 2, 2, 2⟩
    (.processPayment "p1") (by decide) "p1" scenario.pending scenario.completed
    scenario_s1_payment scenario_s2_payment (by decide)

theorem mapGet_append_of_some {α : Type} (m l : List (String × α)) (k : String) (v : α)
    (h : mapGet m k = some v) : mapGet (m ++ l) k = some v := by
  induction m with
  | nil => simp [mapGet] at h
  | cons a t ih =>
    obtain ⟨k0, v0⟩ := a
    by_cases hk : k0 = k
    · simpa [mapGet, hk] using h
    · simp only [mapGet, hk, if_false] at h
      simp [mapGet, hk, ih h]

/-- C20: under every service call with fresh generated IDs the ledger only
grows at its end: the ledger after the call is the ledger before it followed
by the new entries, every transaction found before the call is found after it
as the same record, and the transaction count does not decrease. -/
theorem ledger_append_only (s : Stores) (e : Env) (op : Op) (hf : freshIDs s e op) :
    (∃ l, (step s e op).transactionRepo.transactions = s.transactionRepo.transactions ++ l) ∧
    (∀ id tx, s.transactionRepo.FindByID id = .ok tx →
      (step s e op).transactionRepo.FindByID id = .ok tx) ∧
    s.transactionRepo.Count ≤ (step s e op).transactionRepo.Count := by
  have happ : ∃ l, (step s e op).transactionRepo.transactions =
      s.transactionRepo.transactions ++ l := by
    rcases step_transactionRepo_cases s e op hf with h0 | ⟨tx, h1, hfresh⟩
    · exact ⟨[], by rw [h0, List.append_nil]⟩
    · exact ⟨[(tx.ID, tx)], by rw [h1, Save_transactions_of_fresh _ _ hfresh]⟩
  obtain ⟨l, hl⟩ := happ
  refine ⟨⟨l, hl⟩, ?_, ?_⟩
  · intro id tx hfound
    have hg : mapGet s.transactionRepo.transactions id = some tx := by
      unfold TransactionRepository.FindByID at hfound
      cases hm : mapGet s.transactionRepo.transactions id with
      | none => simp [hm] at hfound
      | some t =>
        simp only [hm, Except.ok.injEq] at hfound
        rw [hfound]
    unfold TransactionRepository.FindByID
    rw [hl, mapGet_append_of_some _ _ _ _ hg]
  · unfold TransactionRepository.Count
    rw [hl, List.length_append]
    exact Nat.le_add_right _ _

theorem ledger_append_only_witness :
    (∃ l, (step scenario.s2 ⟨"r1", "t2", 3, 3, 3⟩
        (.createRefund ⟨"p1", 40, "Partial refund 1"⟩)).transactionRepo.transactions =
      scenario.s2.transactionRepo.transactions ++ l) ∧
    (∀ id tx, scenario.s2.transactionRepo.FindByID id = .ok tx →
      (step scenario.s2 ⟨"r1", "t2", 3, 3, 3⟩
        (.createRefund ⟨"p1", 40, "Partial refund 1"⟩)).transactionRepo.FindByID id = .ok tx) ∧
    scenario.s2.transactionRepo.Count ≤
      (step scenario.s2 ⟨"r1", "t2", 3, 3, 3⟩
        (.createRefund ⟨"p1", 40, "Partial refund 1"⟩)).transactionRepo.Count :=
  ledger_append_only scenario.s2 ⟨"r1", "t2", 3, 3, 3⟩
    (.createRefund ⟨"p1", 40, "Partial refund 1"⟩) (by decide!)

end LedgerClaims

/-! ## Claims on the ledger repository, the summary and the currency helpers -/

section RepositoryClaims

open models repositories utils services spec

theorem mapSet_length_of_present {α : Type} (m : List (String × α)) (k : String) (v v' : α)
    (h : mapGet m k = some v) : (mapSet m k v').length = m.length := by
  have := congrArg List.length (mapSet_keys_of_present m k v v' h)
  simpa using this

theorem TransactionRepository_FindByID_eq_ok_iff (r : TransactionRepository) (id : String)
    (tx : Transaction) : r.FindByID id = .ok tx ↔ mapGet r.transactions id = some tx := by
  unfold TransactionRepository.FindByID
  cases h : mapGet r.transactions id <;> simp

/-- C21 (claim as stated fails): saving a transaction under the ID `t1`, which
the ledger already holds, returns no error and replaces the stored charge of
100 by the new record. -/
theorem Save_overwrites_stored_transaction :
    scenario.s2.transactionRepo.FindByID "t1" =
      .ok ⟨"t1", "p1", "charge", 100, "USD", "completed",
        [("order_id", "order-123"), ("user_id", "user-456")], 2⟩ ∧
    (scenario.s2.transactionRepo.SaveResult
        ⟨"t1", "p1", "charge", 1, "USD", "completed", [], 9⟩).1 =
      .ok ⟨"t1", "p1", "charge", 1, "USD", "completed", [], 9⟩ ∧
    (scenario.s2.transactionRepo.SaveResult
        ⟨"t1", "p1", "charge", 1, "USD", "completed", [], 9⟩).2.FindByID "t1" =
      .ok ⟨"t1", "p1", "charge", 1, "USD", "completed", [], 9⟩ := by
  decide!

/-- C21 (amended): `Save` on the ledger is an upsert that never fails: it
returns the transaction handed in, which `FindByID` then returns under its ID,
and leaves every other entry as it was; when the ID was already stored the
stored transaction is replaced and the count is unchanged, and when the ID is
fresh the transaction is appended and the count grows by one. -/
theorem Save_transaction_upsert (r : TransactionRepository) (tx : Transaction) :
    (r.SaveResult tx).1 = .ok tx ∧
    (r.SaveResult tx).2.FindByID tx.ID = .ok tx ∧
    (∀ k, k ≠ tx.ID → (r.SaveResult tx).2.FindByID k = r.FindByID k) ∧
    (∀ old, r.FindByID tx.ID = .ok old → (r.SaveResult tx).2.Count = r.Count) ∧
    (mapGet r.transactions tx.ID = none →
      (r.SaveResult tx).2.transactions = r.transactions ++ [(tx.ID, tx)] ∧
      (r.SaveResult tx).2.Count = r.Count + 1) := by
  refine ⟨rfl, ?_, ?_, ?_, ?_⟩
  · rw [TransactionRepository_FindByID_eq_ok_iff]
    exact mapGet_mapSet_self _ _ _
  · intro k hk
    unfold TransactionRepository.FindByID
    have : mapGet (r.SaveResult tx).2.transactions k = mapGet r.transactions k :=
      mapGet_mapSet_ne _ _ _ _ hk
    simp only [this]
  · intro old hold
    rw [TransactionRepository_FindByID_eq_ok_iff] at hold
    exact mapSet_length_of_present _ _ old tx hold
  · intro hf
    have happ : (r.SaveResult tx).2.transactions = r.transactions ++ [(tx.ID, tx)] :=
      Save_transactions_of_fresh r tx hf
    refine ⟨happ, ?_⟩
    unfold TransactionRepository.Count
    rw [happ, List.length_append]
    rfl

theorem foldl_type_total (l : List Transaction) (txType : TransactionType) (acc : ℚ) :
    l.foldl (fun total tx => if tx.Type_ = txType then total + tx.Amount else total) acc =
      acc + ((l.filter (fun t => t.Type_ = txType)).map (fun t => t.Amount)).sum := by
  induction l generalizing acc with
  | nil => simp
  | cons a t ih =>
    by_cases h : a.Type_ = txType
    · simp [List.foldl, h, ih, List.filter_cons, add_assoc]
    · simp [List.foldl, h, ih, List.filter_cons]

/-- C27: `ValidateCurrency` returns no error exactly when the upper-case form of
the code is one of USD, EUR, GBP, CAD, JPY, and otherwise returns "unsupported
currency: " followed by the code as given; so `usd` is accepted, and `INVALID`
and the empty string are rejected. -/
theorem ValidateCurrency_iff (code : String) :
    (ValidateCurrency code = none ↔ Go.ToUpper code ∈ ["USD", "EUR", "GBP", "CAD", "JPY"]) ∧
    (Go.ToUpper code ∉ ["USD", "EUR", "GBP", "CAD", "JPY"] →
      ValidateCurrency code = some ("unsupported currency: " ++ code)) ∧
    ValidateCurrency "usd" = none ∧ ValidateCurrency "USD" = none ∧
    ValidateCurrency "INVALID" = some "unsupported currency: INVALID" ∧
    ValidateCurrency "" = some "unsupported currency: " := by
  refine ⟨?_, ?_, by decide, by decide, by decide, by decide⟩
  · rw [ValidateCurrency_eq]
    unfold supportedCode
    by_cases h : Go.ToUpper code ∈ ["USD", "EUR", "GBP", "CAD", "JPY"]
    · simp [h]
    · simp [h]
  · intro h
    rw [ValidateCurrency_eq]
    unfold supportedCode
    rw [if_neg h]

/-- C30: whenever `CreatePayment`, `ProcessPayment`, `CancelPayment` or
`CreateRefund` returns an error, the stores after the call are the stores
before it: no payment is added or changed and no transaction is appended. -/
theorem error_leaves_stores_unchanged (s : Stores) (e : Env) :
    (∀ req msg, (PaymentService.CreatePayment s e req).1 = .error msg →
      (PaymentService.CreatePayment s e req).2 = s) ∧
    (∀ id msg, (PaymentService.ProcessPayment s e id).1 = .error msg →
      (PaymentService.ProcessPayment s e id).2 = s) ∧
    (∀ id msg, (PaymentService.CancelPayment s e id).1 = .error msg →
      (PaymentService.CancelPayment s e id).2 = s) ∧
    (∀ req msg, (RefundService.CreateRefund s e req).1 = .error msg →
      (RefundService.CreateRefund s e req).2 = s) := by
  refine ⟨?_, ?_, ?_, ?_⟩
  · intro req msg h
    by_cases hv : createViolations req = []
    · rw [CreatePayment_of_valid s e req hv] at h
      simp at h
    · rw [CreatePayment_of_invalid s e req hv]
  · intro id msg h
    cases hP : mapGet s.paymentRepo.payments id with
    | none => rw [ProcessPayment_of_absent s e id hP]
    | some P =>
      by_cases hs : P.Status = PaymentStatusPending
      · rw [ProcessPayment_of_pending s e id P hP hs] at h
        simp at h
      · rw [ProcessPayment_of_not_pending s e id P hP hs]
  · intro id msg h
    cases hP : mapGet s.paymentRepo.payments id with
    | none => rw [CancelPayment_of_absent s e id hP]
    | some P =>
      by_cases hs : P.Status = PaymentStatusPending
      · rw [CancelPayment_of_pending s e id P hP hs] at h
        simp at h
      · rw [CancelPayment_of_not_pending s e id P hP hs]
  · intro req msg h
    by_cases hv : refundViolations req = []
    · cases hP : mapGet s.paymentRepo.payments req.PaymentID with
      | none => rw [CreateRefund_of_absent s e req hv hP]
      | some P =>
        by_cases hs : P.Status = PaymentStatusCompleted
        · by_cases hx : RefundService.getTotalRefunded s P.ID + req.Amount > P.Amount
          · rw [CreateRefund_of_exceeding s e req P hv hP hs hx]
          · rw [CreateRefund_of_fitting s e req P hv hP hs hx] at h
            simp at h
        · rw [CreateRefund_of_not_completed s e req P hv hP hs]
    · rw [CreateRefund_of_invalid s e req hv]

end RepositoryClaims

/-! ## Rounding to the nearest integer, exact rendering -/

section RoundingClaims

open models repositories utils services spec

/-- The result of `math.Round` is an integer at distance at most one half, and
at distance exactly one half only on the side away from zero. -/
theorem Round_spec (x : ℚ) :
    ∃ n : ℤ, Go.Round x = (n : ℚ) ∧ |(n : ℚ) - x| ≤ 1 / 2 ∧
      (|(n : ℚ) - x| = 1 / 2 → |x| < |(n : ℚ)|) := by
  unfold Go.Round
  by_cases h : 0 ≤ x
  · rw [if_pos h]
    refine ⟨Int.floor (x + 1 / 2), rfl, ?_, ?_⟩
    · have h1 := Int.floor_le (x + 1 / 2)
      have h2 := Int.lt_floor_add_one (x + 1 / 2)
      rw [abs_le]
      constructor <;> linarith
    · intro ht
      have h1 := Int.floor_le (x + 1 / 2)
      have h2 := Int.lt_floor_add_one (x + 1 / 2)
      have hn : ((Int.floor (x + 1 / 2) : ℤ) : ℚ) - x = 1 / 2 := by
        rcases abs_eq (by norm_num : (0 : ℚ) ≤ 1 / 2) |>.mp ht with h3 | h3
        · exact h3
        · linarith
      rw [abs_of_nonneg h, abs_of_nonneg (by linarith)]
      linarith
  · rw [if_neg h]
    have hx : x < 0 := not_le.mp h
    refine ⟨-Int.floor (-x + 1 / 2), by push_cast; rfl, ?_, ?_⟩
    · have h1 := Int.floor_le (-x + 1 / 2)
      have h2 := Int.lt_floor_add_one (-x + 1 / 2)
      push_cast
      rw [abs_le]
      constructor <;> linarith
    · intro ht
      have h1 := Int.floor_le (-x + 1 / 2)
      have h2 := Int.lt_floor_add_one (-x + 1 / 2)
      push_cast at ht ⊢
      have hn : -((Int.floor (-x + 1 / 2) : ℤ) : ℚ) - x = -(1 / 2) := by
        rcases abs_eq (by norm_num : (0 : ℚ) ≤ 1 / 2) |>.mp ht with h3 | h3
        · linarith
        · exact h3
      rw [abs_of_neg hx, abs_of_nonpos (by linarith)]
      linarith

/-- No integer is nearer to `x` than `math.Round x`. -/
theorem Round_nearest (x : ℚ) (m : ℤ) : |Go.Round x - x| ≤ |(m : ℚ) - x| := by
  obtain ⟨n, hn, hd, _⟩ := Round_spec x
  rw [hn]
  by_cases hmn : m = n
  · rw [hmn]
  · have h1 : (1 : ℚ) ≤ |(m : ℚ) - n| := by
      have : (1 : ℤ) ≤ |m - n| := Int.one_le_abs (sub_ne_zero.mpr hmn)
      have h2 : ((1 : ℤ) : ℚ) ≤ ((|m - n| : ℤ) : ℚ) := by exact_mod_cast this
      simpa using h2
    have h3 : |(m : ℚ) - n| ≤ |(m : ℚ) - x| + |(n : ℚ) - x| := by
      have := abs_sub_le (m : ℚ) x n
      rw [abs_sub_comm x (n : ℚ)] at this
      exact this
    linarith

theorem decimalPlaces_of_upper (currency : String) :
    (Go.ToUpper currency ∈ ["USD", "EUR", "GBP", "CAD"] → decimalPlaces currency = 2) ∧
    (Go.ToUpper currency = "JPY" → decimalPlaces currency = 0) := by
  unfold decimalPlaces
  constructor
  · intro h
    simp only [List.mem_cons, List.mem_singleton, List.not_mem_nil, or_false] at h
    rcases h with h | h | h | h <;> rw [h] <;> rfl
  · intro h
    rw [h]
    rfl

end RoundingClaims

/-! ## Claim on `Delete` -/

section DeleteClaims

open models repositories utils services spec

theorem mapGet_mapDelete_self {α : Type} (m : List (String × α)) (k : String) :
    mapGet (mapDelete m k) k = none := by
  induction m with
  | nil => rfl
  | cons a t ih =>
    obtain ⟨k0, v0⟩ := a
    by_cases h : k0 = k
    · simp [mapDelete, h, ih]
    · simp [mapDelete, mapGet, h, ih]

theorem mapGet_mapDelete_ne {α : Type} (m : List (String × α)) (k k' : String)
    (h : k' ≠ k) : mapGet (mapDelete m k) k' = mapGet m k' := by
  induction m with
  | nil => rfl
  | cons a t ih =>
    obtain ⟨k0, v0⟩ := a
    by_cases h0 : k0 = k
    · subst h0
      simp [mapDelete, mapGet, h.symm, ih]
    · by_cases h1 : k0 = k'
      · subst h1
        simp [mapDelete, mapGet, h0]
      · simp [mapDelete, mapGet, h0, h1, ih]

theorem mapDelete_of_not_mem {α : Type} (m : List (String × α)) (k : String)
    (h : k ∉ m.map Prod.fst) : mapDelete m k = m := by
  induction m with
  | nil => rfl
  | cons a t ih =>
    obtain ⟨k0, v0⟩ := a
    simp only [List.map_cons, List.mem_cons, not_or] at h
    have h0 : ¬ k0 = k := fun hc => h.1 hc.symm
    simp [mapDelete, h0, ih h.2]

theorem mapDelete_length {α : Type} (m : List (String × α)) (k : String) (v : α)
    (hn : (m.map Prod.fst).Nodup) (h : mapGet m k = some v) :
    (mapDelete m k).length + 1 = m.length := by
  induction m with
  | nil => simp [mapGet] at h
  | cons a t ih =>
    obtain ⟨k0, v0⟩ := a
    simp only [List.map_cons, List.nodup_cons] at hn
    by_cases h0 : k0 = k
    · subst h0
      simp [mapDelete, mapDelete_of_not_mem t k0 hn.1]
    · simp only [mapGet, h0, if_false] at h
      simp [mapDelete, h0, ih hn.2 h]

theorem mapDelete_sublist {α : Type} (m : List (String × α)) (k : String) :
    (mapDelete m k).Sublist m := by
  induction m with
  | nil => exact List.Sublist.slnil
  | cons a t ih =>
    obtain ⟨k0, v0⟩ := a
    by_cases h0 : k0 = k
    · simp only [mapDelete, h0, if_true]
      exact List.Sublist.cons _ ih
    · simp only [mapDelete, h0, if_false]
      exact List.Sublist.cons₂ _ ih

theorem mem_filterMap_mapGet {α : Type} (m : List (String × α)) (ids : List String) (v : α)
    (h : v ∈ ids.filterMap (fun id => mapGet m id)) : ∃ k, mapGet m k = some v := by
  obtain ⟨k, _, hk⟩ := List.mem_filterMap.mp h
  exact ⟨k, hk⟩

/-- C23: `Delete` of an ID that is not stored fails with not-found and returns
the repository unchanged; `Delete` of a stored ID succeeds, the count decreases
by one, `FindByID` of that ID fails with not-found, `FindByID` of every other
ID is as before, and every payment returned afterwards by `FindByOrderID`,
`FindByUserID` or `FindByStatus` is a record stored under another ID. -/
theorem Delete_outcomes (r : PaymentRepository) (id : String)
    (hmap : (r.payments.map Prod.fst).Nodup) :
    (mapGet r.payments id = none →
      r.Delete id = (some ("payment not found: " ++ id), r)) ∧
    (∀ P, mapGet r.payments id = some P →
      (r.Delete id).1 = none ∧
      (r.Delete id).2.Count + 1 = r.Count ∧
      (r.Delete id).2.FindByID id = .error ("payment not found: " ++ id) ∧
      (∀ k, k ≠ id → (r.Delete id).2.FindByID k = r.FindByID k) ∧
      (∀ o p, p ∈ (r.Delete id).2.FindByOrderID o →
        ∃ k, k ≠ id ∧ (r.Delete id).2.FindByID k = .ok p) ∧
      (∀ u p, p ∈ (r.Delete id).2.FindByUserID u →
        ∃ k, k ≠ id ∧ (r.Delete id).2.FindByID k = .ok p) ∧
      (∀ st p, p ∈ (r.Delete id).2.FindByStatus st →
        ∃ k, k ≠ id ∧ (r.Delete id).2.FindByID k = .ok p)) := by
  constructor
  · intro h
    unfold PaymentRepository.Delete
    rw [h]
  · intro P hP
    have hdel : r.Delete id = (none, { r with payments := mapDelete r.payments id }) := by
      unfold PaymentRepository.Delete
      rw [hP]
    have hgone : mapGet (mapDelete r.payments id) id = none := mapGet_mapDelete_self _ _
    have stored : ∀ k p, mapGet (mapDelete r.payments id) k = some p →
        k ≠ id ∧ (r.Delete id).2.FindByID k = .ok p := by
      intro k p hk
      refine ⟨?_, ?_⟩
      · intro hc
        rw [hc, hgone] at hk
        exact absurd hk (by simp)
      · rw [hdel, FindByID_eq_ok_iff]
        exact hk
    rw [hdel]
    refine ⟨rfl, mapDelete_length _ _ P hmap hP, ?_, ?_, ?_, ?_, ?_⟩
    · unfold PaymentRepository.FindByID
      simp only [hgone]
    · intro k hk
      unfold PaymentRepository.FindByID
      simp only [mapGet_mapDelete_ne _ _ _ hk]
    · intro o p hp
      obtain ⟨k, hk⟩ := mem_filterMap_mapGet _ _ p hp
      have := stored k p hk
      rw [hdel] at this
      exact ⟨k, this⟩
    · intro u p hp
      obtain ⟨k, hk⟩ := mem_filterMap_mapGet _ _ p hp
      have := stored k p hk
      rw [hdel] at this
      exact ⟨k, this⟩
    · intro st p hp
      have hp' : p ∈ (mapDelete r.payments id).map Prod.snd := (List.mem_filter.mp hp).1
      obtain ⟨kv, hkv, rfl⟩ := List.mem_map.mp hp'
      have hnd : ((mapDelete r.payments id).map Prod.fst).Nodup :=
        hmap.sublist ((mapDelete_sublist r.payments id).map Prod.fst)
      have hk := mapGet_of_mem_nodup _ kv.1 kv.2 hnd hkv
      have := stored kv.1 kv.2 hk
      rw [hdel] at this
      exact ⟨kv.1, this⟩

theorem Delete_outcomes_witness :
    ((saveAll scenario.saved).payments.map Prod.fst).Nodup ∧
    (saveAll scenario.saved).Delete "p9" =
      (some "payment not found: p9", saveAll scenario.saved) ∧
    ((saveAll scenario.saved).Delete "p1").1 = none ∧
    ((saveAll scenario.saved).Delete "p1").2.Count + 1 = (saveAll scenario.saved).Count ∧
    ((saveAll scenario.saved).Delete "p1").2.FindByID "p1" =
      .error "payment not found: p1" :=
  ⟨by decide,
   (Delete_outcomes (saveAll scenario.saved) "p9" (by decide)).1 (by decide),
   ((Delete_outcomes (saveAll scenario.saved) "p1" (by decide)).2 scenario.resaved
      (by decide!)).1,
   ((Delete_outcomes (saveAll scenario.saved) "p1" (by decide)).2 scenario.resaved
      (by decide!)).2.1,
   ((Delete_outcomes (saveAll scenario.saved) "p1" (by decide)).2 scenario.resaved
      (by decide!)).2.2.1⟩

end DeleteClaims

/-! ## Claim on sequences of `Save` calls -/

section SaveSequenceClaims

open models repositories utils services spec

theorem OrderIndexed_empty : OrderIndexed NewPaymentRepository := by
  refine ⟨?_, ?_⟩ <;> simp [NewPaymentRepository, mapGet]

/-- Saving a record under a fresh key keeps the order index exact. -/
theorem OrderIndexed_Save_fresh (r : PaymentRepository) (P : Payment) (h : OrderIndexed r)
    (hf : mapGet r.payments P.ID = none) : OrderIndexed (r.Save P) := by
  have hp : (r.Save P).payments = r.payments ++ [(P.ID, P)] := mapSet_of_fresh _ _ _ hf
  have hi : (r.Save P).orderIdx = indexAdd r.orderIdx P.OrderID P.ID := rfl
  refine ⟨?_, ?_⟩
  · rw [hp, List.map_append, List.nodup_append]
    refine ⟨h.payNodup, by simp, ?_⟩
    intro a ha hb
    simp only [List.map_cons, List.map_nil, List.mem_singleton] at hb
    subst hb
    exact (mapGet_eq_none_iff _ _).mp hf ha
  · intro o
    rw [hp, hi, getD_mapGet_indexAdd, List.filter_append, List.map_append]
    by_cases hk : o = P.OrderID
    · subst hk
      have hnot : P.ID ∉ (mapGet r.orderIdx P.OrderID).getD [] := by
        rw [h.orderIdx]
        intro hc
        obtain ⟨kv, hkv, hkey⟩ := List.mem_map.mp hc
        exact (mapGet_eq_none_iff _ _).mp hf
          (List.mem_map.mpr ⟨kv, (List.mem_filter.mp hkv).1, hkey⟩)
      rw [if_pos rfl, if_neg hnot, h.orderIdx]
      simp
    · have hk' : ¬ P.OrderID = o := fun hc => hk hc.symm
      simp [hk, hk', h.orderIdx]

/-- Saving again a stored record whose order is unchanged keeps the order index
exact. -/
theorem OrderIndexed_Save_same (r : PaymentRepository) (P P' : Payment) (h : OrderIndexed r)
    (hP : mapGet r.payments P'.ID = some P) (ho : P'.OrderID = P.OrderID) :
    OrderIndexed (r.Save P') := by
  have hp : (r.Save P').payments = mapSet r.payments P'.ID P' := rfl
  have hi : (r.Save P').orderIdx = indexAdd r.orderIdx P'.OrderID P'.ID := rfl
  have hmem : P'.ID ∈ (mapGet r.orderIdx P'.OrderID).getD [] := by
    rw [h.orderIdx]
    refine List.mem_map.mpr ⟨(P'.ID, P), List.mem_filter.mpr ⟨mem_of_mapGet_eq_some _ _ _ hP, ?_⟩,
      rfl⟩
    simp [ho]
  refine ⟨?_, ?_⟩
  · rw [hp, mapSet_keys_of_present _ _ P P' hP]
    exact h.payNodup
  · intro o
    rw [hp, hi, getD_mapGet_indexAdd]
    have hfil := mapSet_filter_keys_of_present r.payments P'.ID P P'
      (fun p => decide (p.OrderID = o)) hP (by simp [ho])
    rw [hfil]
    by_cases hk : o = P'.OrderID
    · subst hk
      rw [if_pos rfl, if_pos hmem]
      exact h.orderIdx _
    · rw [if_neg hk]
      exact h.orderIdx o

/-- With an exact order index `FindByOrderID` returns the order's records, in
the order of the primary map. -/
theorem FindByOrderID_of_OrderIndexed (r : PaymentRepository) (h : OrderIndexed r)
    (o : String) :
    r.FindByOrderID o = (r.payments.filter (fun kv => kv.2.OrderID = o)).map Prod.snd := by
  unfold PaymentRepository.FindByOrderID
  simp only [h.orderIdx o]
  exact filterMap_mapGet_keys_of_nodup _ h.payNodup _ (fun kv hkv => (List.mem_filter.mp hkv).1)

theorem saveAll_append_single (l : List Payment) (p : Payment) :
    saveAll (l ++ [p]) = (saveAll l).Save p := by
  unfold saveAll
  rw [List.foldl_append]
  rfl

theorem distinctIDs_append_single (l : List Payment) (p : Payment) :
    distinctIDs (l ++ [p]) =
      if p.ID ∈ distinctIDs l then distinctIDs l else distinctIDs l ++ [p.ID] := by
  unfold distinctIDs
  rw [List.foldl_append]
  rfl

theorem lastSaved_append_single (l : List Payment) (p : Payment) (id : String) :
    lastSaved (l ++ [p]) id = if p.ID = id then some p else lastSaved l id := by
  unfold lastSaved
  rw [List.foldl_append]
  rfl

theorem lastSaved_mem (l : List Payment) (id : String) (q : Payment)
    (h : lastSaved l id = some q) : q ∈ l ∧ q.ID = id := by
  induction l using List.reverseRecOn with
  | nil => simp [lastSaved] at h
  | append_singleton l p ih =>
    rw [lastSaved_append_single] at h
    by_cases hp : p.ID = id
    · rw [if_pos hp] at h
      have : p = q := Option.some.inj h
      subst this
      exact ⟨by simp, hp⟩
    · rw [if_neg hp] at h
      exact ⟨List.mem_append_left _ (ih h).1, (ih h).2⟩

theorem distinctIDs_nodup (l : List Payment) : (distinctIDs l).Nodup := by
  induction l using List.reverseRecOn with
  | nil => simp [distinctIDs]
  | append_singleton l p ih =>
    rw [distinctIDs_append_single]
    by_cases hp : p.ID ∈ distinctIDs l
    · rw [if_pos hp]
      exact ih
    · rw [if_neg hp, List.nodup_append]
      refine ⟨ih, by simp, ?_⟩
      intro a ha hb
      simp only [List.mem_singleton] at hb
      subst hb
      exact hp ha

theorem mem_distinctIDs_iff (l : List Payment) (id : String) :
    id ∈ distinctIDs l ↔ ∃ p ∈ l, p.ID = id := by
  induction l using List.reverseRecOn with
  | nil => simp [distinctIDs]
  | append_singleton l p ih =>
    rw [distinctIDs_append_single]
    by_cases hp : p.ID ∈ distinctIDs l
    · rw [if_pos hp, ih]
      constructor
      · rintro ⟨q, hq, hid⟩
        exact ⟨q, List.mem_append_left _ hq, hid⟩
      · rintro ⟨q, hq, hid⟩
        rcases List.mem_append.mp hq with h1 | h1
        · exact ⟨q, h1, hid⟩
        · simp only [List.mem_singleton] at h1
          subst h1
          subst hid
          exact ih.mp hp
    · rw [if_neg hp, List.mem_append, ih]
      constructor
      · rintro (⟨q, hq, hid⟩ | h1)
        · exact ⟨q, List.mem_append_left _ hq, hid⟩
        · simp only [List.mem_singleton] at h1
          exact ⟨p, by simp, h1.symm⟩
      · rintro ⟨q, hq, hid⟩
        rcases List.mem_append.mp hq with h1 | h1
        · exact Or.inl ⟨q, h1, hid⟩
        · simp only [List.mem_singleton] at h1
          subst h1
          exact Or.inr (by simp [hid])

/-- The repository after a sequence of saves with stable owners: its keys are
the distinct IDs in order of first save, each key holds the record saved last
under it, and both indexes are exact. -/
theorem saveAll_spec (l : List Payment) (h : StableOwners l) :
    (saveAll l).payments.map Prod.fst = distinctIDs l ∧
    (∀ id, mapGet (saveAll l).payments id = lastSaved l id) ∧
    UserIndexed (saveAll l) ∧ OrderIndexed (saveAll l) := by
  induction l using List.reverseRecOn with
  | nil =>
    exact ⟨rfl, fun _ => rfl, UserIndexed_empty, OrderIndexed_empty⟩
  | append_singleton l p ih =>
    have hl : StableOwners l := fun a ha b hb hab =>
      h a (List.mem_append_left _ ha) b (List.mem_append_left _ hb) hab
    obtain ⟨hkeys, hget, hu, ho⟩ := ih hl
    rw [saveAll_append_single]
    have hgetS : ∀ id, mapGet ((saveAll l).Save p).payments id = lastSaved (l ++ [p]) id := by
      intro id
      rw [mapGet_Save_payments, lastSaved_append_single, hget]
      by_cases hid : id = p.ID
      · rw [if_pos hid, if_pos hid.symm]
      · rw [if_neg hid, if_neg (fun hc => hid hc.symm)]
    cases hq : mapGet (saveAll l).payments p.ID with
    | none =>
      have hnot : p.ID ∉ distinctIDs l := by
        rw [← hkeys]
        exact (mapGet_eq_none_iff _ _).mp hq
      refine ⟨?_, hgetS, UserIndexed_Save_fresh _ _ hu hq, OrderIndexed_Save_fresh _ _ ho hq⟩
      have hp : ((saveAll l).Save p).payments = (saveAll l).payments ++ [(p.ID, p)] :=
        mapSet_of_fresh _ _ _ hq
      rw [hp, distinctIDs_append_single, if_neg hnot, List.map_append, hkeys]
      rfl
    | some q =>
      have hin : p.ID ∈ distinctIDs l := by
        rw [← hkeys]
        by_contra hc
        rw [(mapGet_eq_none_iff _ _).mpr hc] at hq
        exact absurd hq (by simp)
      have hq' : lastSaved l p.ID = some q := by
        rw [← hget]
        exact hq
      obtain ⟨hqm, hqid⟩ := lastSaved_mem l p.ID q hq'
      have hown := h p (by simp) q (List.mem_append_left _ hqm) hqid.symm
      refine ⟨?_, hgetS, UserIndexed_Save_same _ q p hu hq hown.2,
        OrderIndexed_Save_same _ q p ho hq hown.1⟩
      have hp : ((saveAll l).Save p).payments = mapSet (saveAll l).payments p.ID p := rfl
      rw [hp, mapSet_keys_of_present _ _ q p hq, distinctIDs_append_single, if_pos hin, hkeys]

end SaveSequenceClaims

section SaveSequenceTheorem

open models repositories utils services spec

theorem saveAll_values (l : List Payment) (h : StableOwners l) :
    (saveAll l).payments.map Prod.snd = (distinctIDs l).filterMap (lastSaved l) := by
  obtain ⟨hkeys, hget, hu, _⟩ := saveAll_spec l h
  have h1 := filterMap_mapGet_keys_of_nodup (saveAll l).payments hu.payNodup
    (saveAll l).payments (fun _ hkv => hkv)
  rw [← h1, hkeys]
  congr 1
  funext id
  exact hget id

theorem saveAll_value_ids (l : List Payment) (h : StableOwners l) :
    ((saveAll l).payments.map Prod.snd).map (fun p => p.ID) = distinctIDs l := by
  obtain ⟨hkeys, hget, hu, _⟩ := saveAll_spec l h
  rw [← hkeys, List.map_map]
  apply List.map_congr_left
  intro kv hkv
  have h1 := mapGet_of_mem_nodup _ kv.1 kv.2 hu.payNodup hkv
  rw [hget] at h1
  exact (lastSaved_mem l kv.1 kv.2 h1).2

/-- C22: after any sequence of `Save` calls on a new repository in which each
payment ID always carries the same order and user, `Count` is the number of
distinct IDs saved, `FindByID` returns the record saved last under an ID, and
`FindByUserID` (resp. `FindByOrderID`) returns exactly the stored records of
that user (resp. order), in order of first save and without repeating an ID,
however many times a payment was saved again. -/
theorem Save_sequence_indexes (l : List Payment) (h : StableOwners l) :
    (saveAll l).Count = (distinctIDs l).length ∧
    (distinctIDs l).Nodup ∧
    (∀ id, id ∈ distinctIDs l ↔ ∃ p ∈ l, p.ID = id) ∧
    (∀ id p, (saveAll l).FindByID id = .ok p ↔ lastSaved l id = some p) ∧
    (∀ u, (saveAll l).FindByUserID u =
      ((distinctIDs l).filterMap (lastSaved l)).filter (fun p => p.UserID = u)) ∧
    (∀ o, (saveAll l).FindByOrderID o =
      ((distinctIDs l).filterMap (lastSaved l)).filter (fun p => p.OrderID = o)) ∧
    (∀ u, (((saveAll l).FindByUserID u).map (fun p => p.ID)).Nodup) ∧
    (∀ o, (((saveAll l).FindByOrderID o).map (fun p => p.ID)).Nodup) := by
  obtain ⟨hkeys, hget, hu, ho⟩ := saveAll_spec l h
  have hvals := saveAll_values l h
  have hids := saveAll_value_ids l h
  have hUser : ∀ u, (saveAll l).FindByUserID u =
      ((saveAll l).payments.map Prod.snd).filter (fun p => p.UserID = u) := by
    intro u
    rw [FindByUserID_of_UserIndexed _ hu, List.filter_map]
    rfl
  have hOrder : ∀ o, (saveAll l).FindByOrderID o =
      ((saveAll l).payments.map Prod.snd).filter (fun p => p.OrderID = o) := by
    intro o
    rw [FindByOrderID_of_OrderIndexed _ ho, List.filter_map]
    rfl
  have hnd : ∀ c : Payment → Bool,
      ((((saveAll l).payments.map Prod.snd).filter c).map (fun p => p.ID)).Nodup := by
    intro c
    have hsub : ((((saveAll l).payments.map Prod.snd).filter c).map (fun p => p.ID)).Sublist
        (((saveAll l).payments.map Prod.snd).map (fun p => p.ID)) :=
      (List.filter_sublist _).map _
    rw [hids] at hsub
    exact (distinctIDs_nodup l).sublist hsub
  refine ⟨?_, distinctIDs_nodup l, mem_distinctIDs_iff l, ?_, ?_, ?_, ?_, ?_⟩
  · unfold PaymentRepository.Count
    rw [← hkeys, List.length_map]
  · intro id p
    rw [FindByID_eq_ok_iff, hget]
  · intro u
    rw [hUser, hvals]
  · intro o
    rw [hOrder, hvals]
  · intro u
    rw [hUser]
    exact hnd _
  · intro o
    rw [hOrder]
    exact hnd _

theorem Save_sequence_indexes_witness :
    StableOwners scenario.saved ∧
    (saveAll scenario.saved).Count = 2 ∧
    (saveAll scenario.saved).FindByUserID "user-456" =
      [scenario.resaved, scenario.savedSecond] ∧
    (saveAll scenario.saved).FindByUserID "user-456" =
      ((distinctIDs scenario.saved).filterMap (lastSaved scenario.saved)).filter
        (fun p => p.UserID = "user-456") ∧
    (saveAll scenario.saved).FindByOrderID "order-123" =
      ((distinctIDs scenario.saved).filterMap (lastSaved scenario.saved)).filter
        (fun p => p.OrderID = "order-123") :=
  ⟨by decide, by decide, by decide!,
   (Save_sequence_indexes scenario.saved (by decide)).2.2.2.2.1 "user-456",
   (Save_sequence_indexes scenario.saved (by decide)).2.2.2.2.2.1 "order-123"⟩

end SaveSequenceTheorem

/-! ## The five outcomes of one step -/

section StepCases

open models repositories utils services spec

/-- One call on well-formed stores with fresh IDs either changes nothing or is a
successful `CreatePayment`, `ProcessPayment`, `CancelPayment` or `CreateRefund`
with the effect listed. -/
theorem step_cases (s : Stores) (e : Env) (op : Op) (hw : WellFormed s)
    (hf : freshIDs s e op) :
    step s e op = s ∨
    (∃ req, op = .createPayment req ∧ createViolations req = [] ∧
      mapGet s.paymentRepo.payments e.uuid1 = none ∧
      step s e op = { s with paymentRepo := s.paymentRepo.Save (createdPayment e req) }) ∨
    (∃ P, op = .processPayment P.ID ∧ mapGet s.paymentRepo.payments P.ID = some P ∧
      P.Status = PaymentStatusPending ∧
      mapGet s.transactionRepo.transactions e.uuid1 = none ∧
      step s e op =
        { paymentRepo := s.paymentRepo.Save (completedPayment e P),
          transactionRepo := s.transactionRepo.Save (chargeTransaction e P) }) ∨
    (∃ P, op = .cancelPayment P.ID ∧ mapGet s.paymentRepo.payments P.ID = some P ∧
      P.Status = PaymentStatusPending ∧
      step s e op = { s with paymentRepo := s.paymentRepo.Save (cancelledPayment e P) }) ∨
    (∃ req P, op = .createRefund req ∧ req.PaymentID = P.ID ∧
      mapGet s.paymentRepo.payments P.ID = some P ∧
      P.Status = PaymentStatusCompleted ∧ refundViolations req = [] ∧
      mapGet s.transactionRepo.transactions e.uuid2 = none ∧
      refundedTotal s P.ID + req.Amount ≤ P.Amount ∧
      step s e op =
        (if refundedTotal s P.ID + req.Amount ≥ P.Amount then
          { paymentRepo := s.paymentRepo.Save (refundedPayment e P),
            transactionRepo := s.transactionRepo.Save (refundTransaction e req P) }
        else
          { s with transactionRepo := s.transactionRepo.Save (refundTransaction e req P) })) := by
  cases op with
  | createPayment req =>
    have hstep : step s e (Op.createPayment req) = (PaymentService.CreatePayment s e req).2 := rfl
    by_cases hv : createViolations req = []
    · refine Or.inr (Or.inl ⟨req, rfl, hv, hf, ?_⟩)
      rw [hstep, CreatePayment_of_valid s e req hv]
    · refine Or.inl ?_
      rw [hstep, CreatePayment_of_invalid s e req hv]
  | processPayment pid =>
    have hstep : step s e (Op.processPayment pid) = (PaymentService.ProcessPayment s e pid).2 := rfl
    cases hQ : mapGet s.paymentRepo.payments pid with
    | none =>
      refine Or.inl ?_
      rw [hstep, ProcessPayment_of_absent s e pid hQ]
    | some Q =>
      by_cases hs : Q.Status = PaymentStatusPending
      · have hid : Q.ID = pid := hw.payKey pid Q hQ
        subst hid
        refine Or.inr (Or.inr (Or.inl ⟨Q, rfl, hQ, hs, hf, ?_⟩))
        rw [hstep, ProcessPayment_of_pending s e Q.ID Q hQ hs]
      · refine Or.inl ?_
        rw [hstep, ProcessPayment_of_not_pending s e pid Q hQ hs]
  | cancelPayment pid =>
    have hstep : step s e (Op.cancelPayment pid) = (PaymentService.CancelPayment s e pid).2 := rfl
    cases hQ : mapGet s.paymentRepo.payments pid with
    | none =>
      refine Or.inl ?_
      rw [hstep, CancelPayment_of_absent s e pid hQ]
    | some Q =>
      by_cases hs : Q.Status = PaymentStatusPending
      · have hid : Q.ID = pid := hw.payKey pid Q hQ
        subst hid
        refine Or.inr (Or.inr (Or.inr (Or.inl ⟨Q, rfl, hQ, hs, ?_⟩)))
        rw [hstep, CancelPayment_of_pending s e Q.ID Q hQ hs]
      · refine Or.inl ?_
        rw [hstep, CancelPayment_of_not_pending s e pid Q hQ hs]
  | createRefund req =>
    have hstep : step s e (Op.createRefund req) = (RefundService.CreateRefund s e req).2 := rfl
    by_cases hv : refundViolations req = []
    · cases hQ : mapGet s.paymentRepo.payments req.PaymentID with
      | none =>
        refine Or.inl ?_
        rw [hstep, CreateRefund_of_absent s e req hv hQ]
      | some Q =>
        by_cases hs : Q.Status = PaymentStatusCompleted
        · by_cases hx : RefundService.getTotalRefunded s Q.ID + req.Amount > Q.Amount
          · refine Or.inl ?_
            rw [hstep, CreateRefund_of_exceeding s e req Q hv hQ hs hx]
          · have hid : Q.ID = req.PaymentID := hw.payKey _ Q hQ
            have ht := getTotalRefunded_of_WellFormed s hw Q.ID
            have hQ' : mapGet s.paymentRepo.payments Q.ID = some Q := by
              rw [hid]
              exact hQ
            refine Or.inr (Or.inr (Or.inr (Or.inr ⟨req, Q, rfl, hid.symm, hQ', hs, hv, hf, ?_, ?_⟩)))
            · rw [← ht]
              exact not_lt.mp hx
            · rw [hstep, CreateRefund_of_fitting s e req Q hv hQ hs hx, ht]
        · refine Or.inl ?_
          rw [hstep, CreateRefund_of_not_completed s e req Q hv hQ hs]
    · refine Or.inl ?_
      rw [hstep, CreateRefund_of_invalid s e req hv]

/-- A stored payment is still stored after a step, with at most its status,
transaction back-reference and update time changed. -/
theorem step_payment_persists (s : Stores) (e : Env) (op : Op) (hw : WellFormed s)
    (hf : freshIDs s e op) (id : String) (P : Payment)
    (hP : mapGet s.paymentRepo.payments id = some P) :
    ∃ P', mapGet (step s e op).paymentRepo.payments id = some P' ∧
      { P' with Status := P.Status, TransactionID := P.TransactionID,
                UpdatedAt := P.UpdatedAt } = P := by
  rcases step_paymentRepo_cases s e op hw hf with h0 | ⟨Q', h1, hfresh⟩ | ⟨Q, Q', h2, hQ, hcore⟩
  · rw [h0]
    exact ⟨P, hP, rfl⟩
  · rw [h1, mapGet_Save_payments]
    have hne : ¬ id = Q'.ID := by
      intro hc
      rw [hc, hfresh] at hP
      exact absurd hP (by simp)
    rw [if_neg hne]
    exact ⟨P, hP, rfl⟩
  · rw [h2, mapGet_Save_payments]
    have hc := (sameCore_iff Q Q').mp hcore
    by_cases hk : id = Q'.ID
    · rw [if_pos hk]
      rw [hk, hc.1, hQ] at hP
      have hPQ : Q = P := Option.some.inj hP
      subst hPQ
      exact ⟨Q', rfl, hcore⟩
    · rw [if_neg hk]
      exact ⟨P, hP, rfl⟩

end StepCases

/-! ## Consistency of the ledger with the payment store -/

section LedgerConsistency

open models repositories utils services spec

theorem mem_mapSet {α : Type} (m : List (String × α)) (k : String) (v : α)
    (kv : String × α) (h : kv ∈ mapSet m k v) : kv ∈ m ∨ kv = (k, v) := by
  induction m with
  | nil =>
    simp only [mapSet, List.mem_singleton] at h
    exact Or.inr h
  | cons a t ih =>
    obtain ⟨k0, v0⟩ := a
    by_cases hk : k0 = k
    · simp only [mapSet, hk, if_true, List.mem_cons] at h
      rcases h with h | h
      · exact Or.inr h
      · exact Or.inl (List.mem_cons_of_mem _ h)
    · simp only [mapSet, hk, if_false, List.mem_cons] at h
      rcases h with h | h
      · exact Or.inl (by rw [h]; exact List.mem_cons_self _ _)
      · rcases ih h with h1 | h1
        · exact Or.inl (List.mem_cons_of_mem _ h1)
        · exact Or.inr h1

theorem emptyStores_LedgerConsistent : LedgerConsistent emptyStores := by
  refine ⟨?_, ?_, ?_, ?_⟩ <;>
    simp [emptyStores, NewPaymentRepository, NewTransactionRepository, mapGet]

theorem LedgerConsistent_save_payment (s : Stores) (P : Payment) (h : LedgerConsistent s)
    (hcur : ∀ kv ∈ s.transactionRepo.transactions, kv.2.PaymentID = P.ID →
      kv.2.Currency = P.Currency)
    (hsup : supportedCode P.Currency) :
    LedgerConsistent { s with paymentRepo := s.paymentRepo.Save P } := by
  refine ⟨h.txKey, ?_, h.txGrid, ?_⟩
  · intro kv hkv Q hQ
    have hQ' : mapGet (s.paymentRepo.Save P).payments kv.2.PaymentID = some Q := hQ
    rw [mapGet_Save_payments] at hQ'
    by_cases hk : kv.2.PaymentID = P.ID
    · rw [if_pos hk] at hQ'
      have : P = Q := Option.some.inj hQ'
      subst this
      exact hcur kv hkv hk
    · rw [if_neg hk] at hQ'
      exact h.txCurrency kv hkv Q hQ'
  · intro k Q hQ
    have hQ' : mapGet (s.paymentRepo.Save P).payments k = some Q := hQ
    rw [mapGet_Save_payments] at hQ'
    by_cases hk : k = P.ID
    · rw [if_pos hk] at hQ'
      have : P = Q := Option.some.inj hQ'
      subst this
      exact hsup
    · rw [if_neg hk] at hQ'
      exact h.paySupported k Q hQ'

theorem LedgerConsistent_save_transaction (s : Stores) (tx : Transaction) (P : Payment)
    (h : LedgerConsistent s)
    (hP : mapGet s.paymentRepo.payments tx.PaymentID = some P)
    (hcur : tx.Currency = P.Currency) (hgrid : OnGrid tx.Currency tx.Amount) :
    LedgerConsistent { s with transactionRepo := s.transactionRepo.Save tx } := by
  have hmem : ∀ kv, kv ∈ (s.transactionRepo.Save tx).transactions →
      kv ∈ s.transactionRepo.transactions ∨ kv = (tx.ID, tx) :=
    fun kv hkv => mem_mapSet _ _ _ kv hkv
  refine ⟨?_, ?_, ?_, h.paySupported⟩
  · intro kv hkv
    rcases hmem kv hkv with h1 | h1
    · exact h.txKey kv h1
    · rw [h1]
  · intro kv hkv Q hQ
    rcases hmem kv hkv with h1 | h1
    · exact h.txCurrency kv h1 Q hQ
    · subst h1
      have hQ' : mapGet s.paymentRepo.payments tx.PaymentID = some Q := hQ
      rw [hP] at hQ'
      have : P = Q := Option.some.inj hQ'
      subst this
      exact hcur
  · intro kv hkv
    rcases hmem kv hkv with h1 | h1
    · exact h.txGrid kv h1
    · subst h1
      exact hgrid

/-- Every service call with fresh IDs keeps the ledger consistent with the
payment store. -/
theorem LedgerConsistent_step (s : Stores) (e : Env) (op : Op) (hw : WellFormed s)
    (h : LedgerConsistent s) (hf : freshIDs s e op) : LedgerConsistent (step s e op) := by
  have old : ∀ P, mapGet s.paymentRepo.payments P.ID = some P →
      ∀ kv ∈ s.transactionRepo.transactions, kv.2.PaymentID = P.ID →
        kv.2.Currency = P.Currency := by
    intro P hP kv hkv hk
    exact h.txCurrency kv hkv P (by rw [hk]; exact hP)
  rcases step_cases s e op hw hf with h0 | ⟨req, _, hv, hfresh, hst⟩ |
    ⟨P, _, hP, _, _, hst⟩ | ⟨P, _, hP, _, hst⟩ | ⟨req, P, _, _, hP, _, _, _, _, hst⟩
  · rw [h0]
    exact h
  · rw [hst]
    refine LedgerConsistent_save_payment s _ h ?_ ((createViolations_eq_nil_iff req).mp hv).2.2.2.1
    intro kv hkv hk
    have := hw.txRef kv hkv
    rw [hk] at this
    exact absurd hfresh this
  · rw [hst]
    have h1 : LedgerConsistent { s with paymentRepo := s.paymentRepo.Save (completedPayment e P) } :=
      LedgerConsistent_save_payment s _ h (old P hP) (h.paySupported _ P hP)
    refine LedgerConsistent_save_transaction _ (chargeTransaction e P) (completedPayment e P) h1
      ?_ rfl (hw.amountGrid _ P hP)
    show mapGet (s.paymentRepo.Save (completedPayment e P)).payments P.ID = _
    rw [mapGet_Save_payments]
    exact if_pos rfl
  · rw [hst]
    exact LedgerConsistent_save_payment s _ h (old P hP) (h.paySupported _ P hP)
  · rw [hst]
    have h1 : LedgerConsistent
        { s with transactionRepo := s.transactionRepo.Save (refundTransaction e req P) } :=
      LedgerConsistent_save_transaction s (refundTransaction e req P) P h hP rfl
        (OnGrid_RoundToDecimalPlaces _ _)
    split
    · refine LedgerConsistent_save_payment _ (refundedPayment e P) h1 ?_ (h.paySupported _ P hP)
      intro kv hkv hk
      exact h1.txCurrency kv hkv P (by rw [hk]; exact hP)
    · exact h1

theorem LedgerConsistent_of_Reachable (s : Stores) (h : Reachable s) : LedgerConsistent s := by
  induction h with
  | init => exact emptyStores_LedgerConsistent
  | step s e op hr hf ih =>
    exact LedgerConsistent_step s e op (WellFormed_of_Reachable s hr) ih hf

theorem foldl_keep_refunds (l : List Transaction) (acc : List Transaction) :
    l.foldl (fun refunds tx =>
        if tx.Type_ = TransactionTypeRefund then refunds ++ [tx] else refunds) acc =
      acc ++ l.filter (fun t => t.Type_ = TransactionTypeRefund) := by
  induction l generalizing acc with
  | nil => simp
  | cons a t ih =>
    by_cases h : a.Type_ = TransactionTypeRefund
    · simp [List.foldl, h, ih, List.filter_cons]
    · simp [List.foldl, h, ih, List.filter_cons]

/-- In well-formed stores `GetRefundsForPayment` returns the refund entries of
the payment, in ledger order. -/
theorem GetRefundsForPayment_of_WellFormed (s : Stores) (h : WellFormed s) (pid : String) :
    RefundService.GetRefundsForPayment s pid = refundsOf s.transactionRepo.transactions pid := by
  unfold RefundService.GetRefundsForPayment refundsOf
  rw [foldl_keep_refunds, FindByPaymentID_of_WellFormed s h pid, List.nil_append]
  generalize s.transactionRepo.transactions = txs
  induction txs with
  | nil => rfl
  | cons a t ih =>
    by_cases h1 : a.2.PaymentID = pid <;> by_cases h2 : a.2.Type_ = TransactionTypeRefund <;>
      simp [List.filter_cons, h1, h2] <;> simpa using ih

theorem refundsOf_append_single (txs : List (String × Transaction)) (k : String)
    (t : Transaction) (pid : String) :
    refundsOf (txs ++ [(k, t)]) pid =
      refundsOf txs pid ++
        (if t.Type_ = TransactionTypeRefund ∧ t.PaymentID = pid then [t] else []) := by
  unfold refundsOf
  by_cases h : t.Type_ = TransactionTypeRefund ∧ t.PaymentID = pid
  · simp [List.filter_append, List.filter_cons, h]
  · simp [List.filter_append, List.filter_cons, h]

end LedgerConsistency

/-! ## Claims on refund listings, currency codes and precision -/

section CurrencyClaims

open models repositories utils services spec

theorem scenario_g4_reachable : Reachable scenario.g4 :=
  Reachable.step _ _ _ (Reachable.step _ _ _ scenario_s2_reachable (by decide!)) (by decide!)

theorem scenario_w2_reachable : Reachable scenario.w2 :=
  Reachable.step _ _ _ (Reachable.step _ _ _ Reachable.init (by decide)) (by decide!)

theorem Reachable_of_ReachableFrom (s0 s : Stores) (h0 : Reachable s0)
    (h : ReachableFrom s0 s) : Reachable s := by
  induction h with
  | refl => exact h0
  | step s e op _ hf ih => exact Reachable.step s e op ih hf

/-- C25: in every reachable state `GetRefundsForPayment` returns exactly the
ledger entries whose payment is the given one and whose type is refund, in
ledger (append) order and without repeating an ID; each returned entry is a
stored refund, never a charge; for an ID that no payment has the list is empty;
and each successful `CreateRefund` on the payment (fresh generated ID) adds
exactly one entry at the end of the list. -/
theorem GetRefundsForPayment_spec (s : Stores) (h : Reachable s) (paymentID : String) :
    RefundService.GetRefundsForPayment s paymentID =
      refundsOf s.transactionRepo.transactions paymentID ∧
    ((RefundService.GetRefundsForPayment s paymentID).map (fun t => t.ID)).Nodup ∧
    (∀ t ∈ RefundService.GetRefundsForPayment s paymentID,
      t.Type_ = TransactionTypeRefund ∧ t.Type_ ≠ TransactionTypeCharge ∧
      t.PaymentID = paymentID ∧ s.transactionRepo.FindByID t.ID = .ok t) ∧
    (mapGet s.paymentRepo.payments paymentID = none →
      RefundService.GetRefundsForPayment s paymentID = []) ∧
    (∀ e req r, mapGet s.transactionRepo.transactions e.uuid2 = none →
      req.PaymentID = paymentID → (RefundService.CreateRefund s e req).1 = .ok r →
      ∃ tx, tx.Amount = r.Amount ∧
        RefundService.GetRefundsForPayment (RefundService.CreateRefund s e req).2 paymentID =
          RefundService.GetRefundsForPayment s paymentID ++ [tx]) := by
  have hw := WellFormed_of_Reachable s h
  have hc := LedgerConsistent_of_Reachable s h
  have hget := GetRefundsForPayment_of_WellFormed s hw paymentID
  have hmem : ∀ t ∈ refundsOf s.transactionRepo.transactions paymentID,
      (t.Type_ = TransactionTypeRefund ∧ t.PaymentID = paymentID) ∧
      ∃ kv ∈ s.transactionRepo.transactions, kv.2 = t := by
    intro t ht
    unfold refundsOf at ht
    obtain ⟨h1, h2⟩ := List.mem_filter.mp ht
    obtain ⟨kv, hkv, hkt⟩ := List.mem_map.mp h1
    exact ⟨by simpa using h2, kv, hkv, hkt⟩
  have hids : (s.transactionRepo.transactions.map Prod.snd).map (fun t => t.ID) =
      s.transactionRepo.transactions.map Prod.fst := by
    rw [List.map_map]
    apply List.map_congr_left
    intro kv hkv
    exact hc.txKey kv hkv
  refine ⟨hget, ?_, ?_, ?_, ?_⟩
  · rw [hget]
    have hsub : ((refundsOf s.transactionRepo.transactions paymentID).map
        (fun t => t.ID)).Sublist
        ((s.transactionRepo.transactions.map Prod.snd).map (fun t => t.ID)) :=
      (List.filter_sublist _).map _
    rw [hids] at hsub
    exact hw.txNodup.sublist hsub
  · intro t ht
    rw [hget] at ht
    obtain ⟨⟨h1, h2⟩, kv, hkv, hkt⟩ := hmem t ht
    refine ⟨h1, ?_, h2, ?_⟩
    · rw [h1]
      exact fun hcc => status_ne_facts.2.2.2.2.2.2.2.2.2.2.2 hcc.symm
    · rw [TransactionRepository_FindByID_eq_ok_iff]
      have hk := hc.txKey kv hkv
      rw [hkt] at hk
      rw [hk]
      exact mapGet_of_mem_nodup _ kv.1 t hw.txNodup (by rw [← hkt]; exact hkv)
  · intro hnone
    rw [hget]
    unfold refundsOf
    rw [List.filter_eq_nil_iff]
    intro t ht
    obtain ⟨kv, hkv, hkt⟩ := List.mem_map.mp ht
    have href := hw.txRef kv hkv
    have : ¬ t.PaymentID = paymentID := by
      intro hcc
      rw [hkt, hcc] at href
      exact href hnone
    simp [this]
  · intro e req r hf hreq hok
    have hr' : Reachable (step s e (.createRefund req)) := Reachable.step s e _ h hf
    have hstep : step s e (.createRefund req) = (RefundService.CreateRefund s e req).2 := rfl
    rw [hstep] at hr'
    obtain ⟨P, hP, _, _, _, hrec, hst⟩ := CreateRefund_ok_inv s e req r hok
    have hid := hw.payKey _ P hP
    have htx : (RefundService.CreateRefund s e req).2.transactionRepo.transactions =
        s.transactionRepo.transactions ++ [(e.uuid2, refundTransaction e req P)] := by
      rw [hst]
      split
      · exact Save_transactions_of_fresh s.transactionRepo (refundTransaction e req P) hf
      · exact Save_transactions_of_fresh s.transactionRepo (refundTransaction e req P) hf
    refine ⟨refundTransaction e req P, by rw [hrec]; rfl, ?_⟩
    rw [GetRefundsForPayment_of_WellFormed _ (WellFormed_of_Reachable _ hr') paymentID, hget,
      htx, refundsOf_append_single]
    have hcond : (refundTransaction e req P).Type_ = TransactionTypeRefund ∧
        (refundTransaction e req P).PaymentID = paymentID := ⟨rfl, hid.trans hreq⟩
    rw [if_pos hcond]

theorem GetRefundsForPayment_spec_witness :
    RefundService.GetRefundsForPayment scenario.g4 "p1" =
      refundsOf scenario.g4.transactionRepo.transactions "p1" ∧
    (RefundService.GetRefundsForPayment scenario.g4 "p1").map (fun t => (t.ID, t.Amount)) =
      [("t2", 30), ("t3", 20)] ∧
    RefundService.GetRefundsForPayment scenario.g4 "unknown" = [] :=
  ⟨(GetRefundsForPayment_spec scenario.g4 scenario_g4_reachable "p1").1, by decide!,
   (GetRefundsForPayment_spec scenario.g4 scenario_g4_reachable "unknown").2.2.2.1 (by decide!)⟩

/-- C28 (claim as stated fails): a payment requested with currency `usd` is
stored with currency `usd`, not with the upper-case form `USD`, and so is the
charge transaction recorded for it. -/
theorem CreatePayment_keeps_currency_case :
    (PaymentService.CreatePayment emptyStores ⟨"p1", "", 1, 1, 1⟩
        ⟨"o1", "u1", 10, "usd", "m1", ""⟩).1 =
      .ok ⟨"p1", "o1", "u1", 10, "usd", "pending", "m1", "", "", 1, 1⟩ ∧
    Go.ToUpper "usd" = "USD" ∧
    scenario.w2.paymentRepo.payments.map (fun kv => (kv.1, kv.2.Currency)) = [("p1", "usd")] ∧
    scenario.w2.transactionRepo.transactions.map
      (fun kv => (kv.2.PaymentID, kv.2.Type_, kv.2.Currency)) = [("p1", "charge", "usd")] := by
  decide!

/-- C28 (amended): currency codes are stored as requested: after a successful
`CreatePayment` in a reachable state (fresh generated ID), in every state
reached later the payment is stored with the requested code unchanged, the
code is a supported one, and every transaction recorded for the payment
carries that same code. -/
theorem currency_stored_as_requested (s : Stores) (h : Reachable s) (e : Env)
    (req : CreatePaymentRequest) (p : Payment)
    (hf : mapGet s.paymentRepo.payments e.uuid1 = none)
    (hok : (PaymentService.CreatePayment s e req).1 = .ok p)
    (s' : Stores) (hlater : ReachableFrom (PaymentService.CreatePayment s e req).2 s') :
    supportedCode req.Currency ∧
    ∃ P', s'.paymentRepo.FindByID p.ID = .ok P' ∧ P'.Currency = req.Currency ∧
      ∀ kv ∈ s'.transactionRepo.transactions, kv.2.PaymentID = p.ID →
        kv.2.Currency = req.Currency := by
  have hv : createViolations req = [] := by
    by_contra hc
    rw [CreatePayment_of_invalid s e req hc] at hok
    simp at hok
  have hres := CreatePayment_of_valid s e req hv
  have hp : p = createdPayment e req := by
    rw [hres] at hok
    simpa using hok.symm
  have hr1 : Reachable (PaymentService.CreatePayment s e req).2 :=
    Reachable.step s e (.createPayment req) h hf
  have hstored : ∃ P', mapGet s'.paymentRepo.payments p.ID = some P' ∧
      P'.Currency = req.Currency := by
    induction hlater with
    | refl =>
      refine ⟨createdPayment e req, ?_, rfl⟩
      rw [hres, hp]
      exact mapGet_mapSet_self _ _ _
    | step t e' op hrt hft ih =>
      obtain ⟨Q, hQ, hQc⟩ := ih
      have hwt := WellFormed_of_Reachable t (Reachable_of_ReachableFrom _ t hr1 hrt)
      obtain ⟨Q', hQ', hcore⟩ := step_payment_persists t e' op hwt hft p.ID Q hQ
      exact ⟨Q', hQ', (((sameCore_iff Q Q').mp hcore).2.2.2.2.1).trans hQc⟩
  obtain ⟨P', hP', hcur⟩ := hstored
  have hc' := LedgerConsistent_of_Reachable s' (Reachable_of_ReachableFrom _ s' hr1 hlater)
  refine ⟨((createViolations_eq_nil_iff req).mp hv).2.2.2.1, P',
    (FindByID_eq_ok_iff _ _ _).mpr hP', hcur, ?_⟩
  intro kv hkv hk
  rw [← hcur]
  exact hc'.txCurrency kv hkv P' (by rw [hk]; exact hP')

theorem currency_stored_as_requested_witness :
    supportedCode "usd" ∧
    ∃ P', scenario.w2.paymentRepo.FindByID "p1" = .ok P' ∧ P'.Currency = "usd" ∧
      ∀ kv ∈ scenario.w2.transactionRepo.transactions, kv.2.PaymentID = "p1" →
        kv.2.Currency = "usd" :=
  currency_stored_as_requested emptyStores Reachable.init ⟨"p1", "", 1, 1, 1⟩
    ⟨"o1", "u1", 10, "usd", "m1", ""⟩
    ⟨"p1", "o1", "u1", 10, "usd", "pending", "m1", "", "", 1, 1⟩ (by decide) (by decide!)
    scenario.w2 (ReachableFrom.step _ _ _ ReachableFrom.refl (by decide!))

end CurrencyClaims

/-! ## The rate calculator of the shipping service -/

section ShippingLemmas

open shipping.models shipping.carriers shipping.services

theorem siftLeft_perm {α : Type} (less : α → α → Bool) (x : α) (l : List α) :
    (Go.siftLeft less x l).Perm (x :: l) := by
  induction l with
  | nil => exact List.Perm.refl _
  | cons y rest ih =>
    unfold Go.siftLeft
    by_cases h : less x y = true
    · rw [if_pos h]
      exact (ih.cons y).trans (List.Perm.swap x y rest)
    · rw [if_neg h]

theorem foldl_siftLeft_perm {α : Type} (less : α → α → Bool) (l acc : List α) :
    (l.foldl (fun sortedRev x => Go.siftLeft less x sortedRev) acc).Perm (l.reverse ++ acc) := by
  induction l generalizing acc with
  | nil => exact List.Perm.refl _
  | cons a t ih =>
    rw [List.foldl_cons, List.reverse_cons, List.append_assoc]
    refine (ih _).trans ?_
    refine List.Perm.append_left _ ?_
    exact siftLeft_perm less a acc

theorem sortSlice_perm {α : Type} (less : α → α → Bool) (l : List α) :
    (Go.sortSlice less l).Perm l := by
  unfold Go.sortSlice
  refine (List.reverse_perm _).trans ?_
  refine (foldl_siftLeft_perm less l []).trans ?_
  rw [List.append_nil]
  exact List.reverse_perm l

theorem siftLeft_sorted {α β : Type} [LinearOrder β] (f : α → β) (x : α) (l : List α)
    (h : l.Pairwise (fun a b => f b ≤ f a)) :
    (Go.siftLeft (fun a b => decide (f a < f b)) x l).Pairwise (fun a b => f b ≤ f a) := by
  induction l with
  | nil => exact List.pairwise_singleton _ _
  | cons y rest ih =>
    have hy := List.pairwise_cons.mp h
    unfold Go.siftLeft
    by_cases hxy : f x < f y
    · rw [if_pos (decide_eq_true hxy)]
      refine List.pairwise_cons.mpr ⟨?_, ih hy.2⟩
      intro w hw
      rcases List.mem_cons.mp ((siftLeft_perm _ x rest).mem_iff.mp hw) with hwx | hwr
      · rw [hwx]
        exact le_of_lt hxy
      · exact hy.1 w hwr
    · rw [if_neg (by simpa using hxy)]
      refine List.pairwise_cons.mpr ⟨?_, h⟩
      intro w hw
      rcases List.mem_cons.mp hw with hwy | hwr
      · rw [hwy]
        exact not_lt.mp hxy
      · exact le_trans (hy.1 w hwr) (not_lt.mp hxy)

theorem foldl_siftLeft_sorted {α β : Type} [LinearOrder β] (f : α → β) (l acc : List α)
    (h : acc.Pairwise (fun a b => f b ≤ f a)) :
    (l.foldl (fun sortedRev x => Go.siftLeft (fun a b => decide (f a < f b)) x sortedRev)
      acc).Pairwise (fun a b => f b ≤ f a) := by
  induction l generalizing acc with
  | nil => exact h
  | cons a t ih =>
    rw [List.foldl_cons]
    exact ih _ (siftLeft_sorted f a acc h)

theorem sortSlice_sorted {α β : Type} [LinearOrder β] (f : α → β) (l : List α) :
    (Go.sortSlice (fun a b => decide (f a < f b)) l).Pairwise (fun a b => f a ≤ f b) := by
  unfold Go.sortSlice
  rw [List.pairwise_reverse]
  exact foldl_siftLeft_sorted f l [] List.Pairwise.nil

end ShippingLemmas

section ShippingClaims

open shipping.models shipping.carriers shipping.services

theorem validateRequest_eq_none_iff (rc : RateCalculator) (req : RateRequest) :
    rc.validateRequest req = none ↔ 0 < req.Weight ∧ req.FromZip ≠ "" ∧ req.ToZip ≠ "" := by
  unfold RateCalculator.validateRequest
  by_cases h1 : req.Weight ≤ 0
  · simp [h1, not_lt.mpr h1]
  · by_cases h2 : req.FromZip = ""
    · simp [h1, h2]
    · by_cases h3 : req.ToZip = ""
      · simp [h1, h2, h3]
      · simp [h1, h2, h3, not_le.mp h1]

theorem GetAllRates_of_valid (rc : RateCalculator) (req : RateRequest)
    (hv : rc.validateRequest req = none) :
    rc.GetAllRates req = .ok (rc.carriers.foldl
      (fun allRates carrier =>
        match carrier.CalculateRates req with
        | .error _ => allRates
        | .ok rates => allRates ++ rates) []) := by
  unfold RateCalculator.GetAllRates
  rw [hv]

/-- The rates of the built-in carriers for a request with positive weight: one
of them takes one day and none takes less. -/
theorem builtin_rates_days (req : RateRequest) (hw : 0 < req.Weight) :
    ∃ rates, NewRateCalculator.carriers.foldl
      (fun allRates carrier =>
        match carrier.CalculateRates req with
        | .error _ => allRates
        | .ok rates => allRates ++ rates) [] = rates ∧
      (∃ x ∈ rates, x.EstimatedDays = 1) ∧ ∀ x ∈ rates, 1 ≤ x.EstimatedDays := by
  refine ⟨_, rfl, ?_, ?_⟩
  · by_cases hl : req.Weight > 3175 / 100
    · simp [NewRateCalculator, GetAllCarriers, FedExCarrier.asCarrier, UPSCarrier.asCarrier,
        USPSCarrier.asCarrier, FedExCarrier.CalculateRates, UPSCarrier.CalculateRates,
        USPSCarrier.CalculateRates, not_le.mpr hw, hl]
    · simp [NewRateCalculator, GetAllCarriers, FedExCarrier.asCarrier, UPSCarrier.asCarrier,
        USPSCarrier.asCarrier, FedExCarrier.CalculateRates, UPSCarrier.CalculateRates,
        USPSCarrier.CalculateRates, not_le.mpr hw, hl]
  · by_cases hl : req.Weight > 3175 / 100
    · simp [NewRateCalculator, GetAllCarriers, FedExCarrier.asCarrier, UPSCarrier.asCarrier,
        USPSCarrier.asCarrier, FedExCarrier.CalculateRates, UPSCarrier.CalculateRates,
        USPSCarrier.CalculateRates, not_le.mpr hw, hl]
    · simp [NewRateCalculator, GetAllCarriers, FedExCarrier.asCarrier, UPSCarrier.asCarrier,
        USPSCarrier.asCarrier, FedExCarrier.CalculateRates, UPSCarrier.CalculateRates,
        USPSCarrier.CalculateRates, not_le.mpr hw, hl]

/-- C33: for every rate calculator and every request that passes its validation,
`GetAllRates` succeeds, `GetRatesBySortOrder` with "price" returns a permutation
of its rates in which the rate never decreases from one entry to a later one,
and with "speed" a permutation in which the estimated days never decrease. -/
theorem GetRatesBySortOrder_sorted_perm (rc : RateCalculator) (req : RateRequest)
    (hv : rc.validateRequest req = none) :
    ∃ rates byPrice bySpeed, rc.GetAllRates req = .ok rates ∧
      rc.GetRatesBySortOrder req "price" = .ok byPrice ∧ byPrice.Perm rates ∧
      byPrice.Pairwise (fun a b => a.Rate ≤ b.Rate) ∧
      rc.GetRatesBySortOrder req "speed" = .ok bySpeed ∧ bySpeed.Perm rates ∧
      bySpeed.Pairwise (fun a b => a.EstimatedDays ≤ b.EstimatedDays) := by
  have hall := GetAllRates_of_valid rc req hv
  refine ⟨_, _, _, hall, ?_, sortSlice_perm (fun a b => decide (a.Rate < b.Rate)) _,
    sortSlice_sorted (fun r : ShippingRate => r.Rate) _, ?_,
    sortSlice_perm (fun a b => decide (a.EstimatedDays < b.EstimatedDays)) _,
    sortSlice_sorted (fun r : ShippingRate => r.EstimatedDays) _⟩
  · unfold RateCalculator.GetRatesBySortOrder
    rw [hall]
    simp
  · unfold RateCalculator.GetRatesBySortOrder
    rw [hall]
    simp

theorem GetRatesBySortOrder_sorted_perm_witness :
    (NewRateCalculator.GetRatesBySortOrder shipping.validRateRequest "price").map
      (fun l => l.map (fun r => (r.ServiceType, r.Rate))) =
        .ok [("first_class", 63 / 10), ("priority", 9), ("ground", 25 / 2),
          ("ground", 55 / 4), ("priority_express", 45 / 2), ("2day", 121 / 4),
          ("express", 125 / 4), ("overnight", 50), ("next_day_air", 209 / 4)] ∧
    ∃ rates byPrice bySpeed,
      NewRateCalculator.GetAllRates shipping.validRateRequest = .ok rates ∧
      NewRateCalculator.GetRatesBySortOrder shipping.validRateRequest "price" = .ok byPrice ∧
      byPrice.Perm rates ∧ byPrice.Pairwise (fun a b => a.Rate ≤ b.Rate) ∧
      NewRateCalculator.GetRatesBySortOrder shipping.validRateRequest "speed" = .ok bySpeed ∧
      bySpeed.Perm rates ∧
      bySpeed.Pairwise (fun a b => a.EstimatedDays ≤ b.EstimatedDays) :=
  ⟨by decide!,
    GetRatesBySortOrder_sorted_perm NewRateCalculator shipping.validRateRequest (by decide)⟩

/-- C34: for every request with positive weight and non-empty from and to zip
codes, `GetFastestRate` of the calculator with the built-in carriers succeeds;
the rate it returns is one of the rates of `GetAllRates`, no rate of
`GetAllRates` has fewer estimated days, and its estimated days are 1. -/
theorem GetFastestRate_builtin (req : RateRequest) (hw : 0 < req.Weight)
    (hf : req.FromZip ≠ "") (ht : req.ToZip ≠ "") :
    ∃ rates r, NewRateCalculator.GetAllRates req = .ok rates ∧
      NewRateCalculator.GetFastestRate req = .ok r ∧ r ∈ rates ∧
      (∀ x ∈ rates, r.EstimatedDays ≤ x.EstimatedDays) ∧ r.EstimatedDays = 1 := by
  have hv : NewRateCalculator.validateRequest req = none :=
    (validateRequest_eq_none_iff _ req).mpr ⟨hw, hf, ht⟩
  have hall := GetAllRates_of_valid NewRateCalculator req hv
  obtain ⟨rates, hrates, ⟨x1, hx1, hd1⟩, hmin⟩ := builtin_rates_days req hw
  rw [hrates] at hall
  have hperm := sortSlice_perm (fun a b : ShippingRate => decide (a.EstimatedDays < b.EstimatedDays)) rates
  have hsorted := sortSlice_sorted (fun r : ShippingRate => r.EstimatedDays) rates
  have hne : rates.length ≠ 0 := by
    intro h0
    rw [List.length_eq_zero] at h0
    rw [h0] at hx1
    exact absurd hx1 (List.not_mem_nil _)
  cases hs : Go.sortSlice (fun a b : ShippingRate => decide (a.EstimatedDays < b.EstimatedDays)) rates with
  | nil =>
    rw [hs] at hperm
    exact absurd (List.length_eq_zero.mpr hperm.symm.eq_nil) hne
  | cons r rest =>
    rw [hs] at hperm hsorted
    have hr : r ∈ rates := hperm.mem_iff.mp (List.mem_cons_self r rest)
    have hle : ∀ x ∈ rates, r.EstimatedDays ≤ x.EstimatedDays := by
      intro x hx
      rcases List.mem_cons.mp (hperm.mem_iff.mpr hx) with hxr | hxr
      · rw [hxr]
      · exact (List.pairwise_cons.mp hsorted).1 x hxr
    refine ⟨rates, r, hall, ?_, hr, hle, ?_⟩
    · unfold RateCalculator.GetFastestRate
      rw [hall]
      simp only [hne, if_false, hs]
    · have h1 := hle x1 hx1
      rw [hd1] at h1
      exact le_antisymm h1 (hmin r hr)

theorem GetFastestRate_builtin_witness :
    NewRateCalculator.GetFastestRate shipping.validRateRequest =
      .ok ⟨"fedex", "FedEx", "overnight", 50, "USD", 1, true⟩ ∧
    ∃ rates r, NewRateCalculator.GetAllRates shipping.validRateRequest = .ok rates ∧
      NewRateCalculator.GetFastestRate shipping.validRateRequest = .ok r ∧ r ∈ rates ∧
      (∀ x ∈ rates, r.EstimatedDays ≤ x.EstimatedDays) ∧ r.EstimatedDays = 1 :=
  ⟨by decide!,
    GetFastestRate_builtin shipping.validRateRequest (by decide) (by decide) (by decide)⟩

end ShippingClaims

/-! ## Claims on error messages and on stored amounts -/

section MessageClaims

open models repositories utils services spec

theorem containsStr_append_right (pre st : String) : containsStr (pre ++ st) st = true := by
  unfold containsStr
  rw [List.any_eq_true]
  refine ⟨st.data, ?_, ?_⟩
  · rw [List.mem_tails, String.data_append]
    exact List.suffix_append _ _
  · rw [List.isPrefixOf_iff_prefix]

/-- C32, as stated, fails: `CancelPayment` on the completed payment `p1` fails
with a message that does not contain "completed", and `CreateRefund` on the
pending payment `p1` fails with a message that does not contain "pending". -/
theorem CancelPayment_message_omits_status :
    scenario.s2.paymentRepo.FindByID "p1" = .ok scenario.completed ∧
    scenario.completed.Status = "completed" ∧
    (PaymentService.CancelPayment scenario.s2 ⟨"", "", 9, 9, 9⟩ "p1").1 =
      .error "only pending payments can be cancelled" ∧
    containsStr "only pending payments can be cancelled" "completed" = false ∧
    scenario.s1.paymentRepo.FindByID "p1" = .ok scenario.pending ∧
    scenario.pending.Status = "pending" ∧
    (RefundService.CreateRefund scenario.s1 ⟨"r1", "t1", 9, 9, 9⟩ ⟨"p1", 50, "Test"⟩).1 =
      .error "can only refund completed payments" ∧
    containsStr "can only refund completed payments" "pending" = false := by
  refine ⟨by decide!, by decide, by decide!, by decide, by decide!, by decide, by decide!,
    by decide⟩

/-- C32, amended: when the payment is stored with a status that does not permit
the operation, `ProcessPayment` fails with "payment is not in pending status: "
followed by the current status, so its message contains the status;
`CancelPayment` fails with the fixed text "only pending payments can be
cancelled" and `CreateRefund`, for a request that passes validation, with the
fixed text "can only refund completed payments". -/
theorem invalid_state_messages (s : Stores) (e : Env) (id : String) (P : Payment)
    (hP : s.paymentRepo.FindByID id = .ok P) :
    (P.Status ≠ PaymentStatusPending →
      (PaymentService.ProcessPayment s e id).1 =
        .error ("payment is not in pending status: " ++ P.Status) ∧
      containsStr ("payment is not in pending status: " ++ P.Status) P.Status = true ∧
      (PaymentService.CancelPayment s e id).1 =
        .error "only pending payments can be cancelled") ∧
    (P.Status ≠ PaymentStatusCompleted →
      ∀ req : CreateRefundRequest, req.PaymentID = id →
        RefundService.validateRefundRequest req = none →
        (RefundService.CreateRefund s e req).1 = .error "can only refund completed payments") := by
  have hQ := (FindByID_eq_ok_iff _ _ _).mp hP
  refine ⟨fun hs => ⟨?_, containsStr_append_right _ _, ?_⟩, ?_⟩
  · rw [ProcessPayment_of_not_pending s e id P hQ hs]
  · rw [CancelPayment_of_not_pending s e id P hQ hs]
  · intro hs req hid hv
    have hvv : refundViolations req = [] := by
      rw [validateRefundRequest_eq] at hv
      by_contra hne
      rw [if_neg hne] at hv
      exact absurd hv (by simp)
    rw [← hid] at hQ
    rw [CreateRefund_of_not_completed s e req P hvv hQ hs]

theorem invalid_state_messages_witness :
    scenario.s2.paymentRepo.FindByID "p1" = .ok scenario.completed ∧
    (PaymentService.ProcessPayment scenario.s2 ⟨"t9", "", 9, 9, 9⟩ "p1").1 =
      .error "payment is not in pending status: completed" ∧
    containsStr "payment is not in pending status: completed" "completed" = true ∧
    (PaymentService.CancelPayment scenario.s2 ⟨"t9", "", 9, 9, 9⟩ "p1").1 =
      .error "only pending payments can be cancelled" :=
  ⟨scenario_s2_payment,
    ((invalid_state_messages scenario.s2 ⟨"t9", "", 9, 9, 9⟩ "p1" scenario.completed
      scenario_s2_payment).1 (by decide)).1,
    ((invalid_state_messages scenario.s2 ⟨"t9", "", 9, 9, 9⟩ "p1" scenario.completed
      scenario_s2_payment).1 (by decide)).2.1,
    ((invalid_state_messages scenario.s2 ⟨"t9", "", 9, 9, 9⟩ "p1" scenario.completed
      scenario_s2_payment).1 (by decide)).2.2⟩

end MessageClaims

section PositivityClaims

open models repositories utils services spec

theorem Round_pos_iff (x : ℚ) (hx : 0 ≤ x) : 0 < Go.Round x ↔ 1 / 2 ≤ x := by
  unfold Go.Round
  rw [if_pos hx]
  constructor
  · intro h
    have h1 : (0 : ℤ) < Int.floor (x + 1 / 2) := by exact_mod_cast h
    have h2 : ((1 : ℤ) : ℚ) ≤ x + 1 / 2 := Int.le_floor.mp h1
    push_cast at h2
    linarith
  · intro h
    have h2 : ((1 : ℤ) : ℚ) ≤ x + 1 / 2 := by
      push_cast
      linarith
    have h1 : (1 : ℤ) ≤ Int.floor (x + 1 / 2) := Int.le_floor.mpr h2
    have h3 : (0 : ℤ) < Int.floor (x + 1 / 2) := by omega
    exact_mod_cast h3

theorem RoundToDecimalPlaces_pos_iff (amount : ℚ) (currency : String) (h : 0 ≤ amount) :
    0 < RoundToDecimalPlaces amount currency ↔
      1 / 2 ≤ amount * 10 ^ decimalPlaces currency := by
  rw [RoundToDecimalPlaces_eq]
  have hp := pow10_pos (decimalPlaces currency)
  rw [← Round_pos_iff _ (mul_nonneg h (le_of_lt hp))]
  constructor
  · intro hq
    by_contra hn
    have h0 : Go.Round (amount * 10 ^ decimalPlaces currency) ≤ 0 := not_lt.mp hn
    have := div_nonpos_of_nonpos_of_nonneg h0 (le_of_lt hp)
    linarith
  · intro hq
    exact div_pos hq hp

/-- C37, as stated, fails: a request of 0.4 yen and a request of 0.004 dollars
pass validation and are stored with amount 0, and a refund of 0.004 dollars on a
completed payment appends a refund transaction of amount 0. -/
theorem CreatePayment_stores_zero_amount :
    (0 : ℚ) < scenario.tinyYen.Amount ∧
    (PaymentService.CreatePayment emptyStores ⟨"p1", "", 1, 1, 1⟩ scenario.tinyYen).1 =
      .ok ⟨"p1", "o1", "u1", 0, "JPY", "pending", "m1", "", "", 1, 1⟩ ∧
    (PaymentService.CreatePayment emptyStores ⟨"p1", "", 1, 1, 1⟩ scenario.tinyYen).2.paymentRepo.FindByID
      "p1" = .ok ⟨"p1", "o1", "u1", 0, "JPY", "pending", "m1", "", "", 1, 1⟩ ∧
    (0 : ℚ) < scenario.tinyDollar.Amount ∧
    (PaymentService.CreatePayment emptyStores ⟨"p1", "", 1, 1, 1⟩ scenario.tinyDollar).1 =
      .ok ⟨"p1", "o1", "u1", 0, "USD", "pending", "m1", "", "", 1, 1⟩ ∧
    (0 : ℚ) < scenario.tinyRefund.Amount ∧
    (RefundService.CreateRefund scenario.s2 ⟨"r1", "t2", 3, 3, 3⟩ scenario.tinyRefund).1 =
      .ok ⟨"r1", "p1", 0, "Tiny", "completed", 3⟩ ∧
    (RefundService.CreateRefund scenario.s2 ⟨"r1", "t2", 3, 3,
      3⟩ scenario.tinyRefund).2.transactionRepo.FindByID "t2" =
      .ok ⟨"t2", "p1", "refund", 0, "USD", "completed",
        [("refund_id", "r1"), ("reason", "Tiny")], 3⟩ := by
  refine ⟨by decide!, by decide!, by decide!, by decide!, by decide!, by decide!, by decide!,
    by decide!⟩

/-- C37, amended: every payment stored by a successful `CreatePayment` has an
amount that is not negative, and that is positive exactly when the requested
amount is at least half of the smallest unit of the requested currency; every
refund transaction appended by a successful `CreateRefund` has an amount that
is not negative, and that is positive exactly when the requested amount is at
least half of the smallest unit of the payment's currency. -/
theorem stored_amounts_nonneg (s : Stores) (e : Env) :
    (∀ req p, (PaymentService.CreatePayment s e req).1 = .ok p →
      (PaymentService.CreatePayment s e req).2.paymentRepo.FindByID p.ID = .ok p ∧
      0 ≤ p.Amount ∧
      (0 < p.Amount ↔ 1 / 2 ≤ req.Amount * 10 ^ decimalPlaces req.Currency)) ∧
    (∀ req r, (RefundService.CreateRefund s e req).1 = .ok r →
      ∃ P tx, s.paymentRepo.FindByID req.PaymentID = .ok P ∧
        (RefundService.CreateRefund s e req).2.transactionRepo.FindByID e.uuid2 = .ok tx ∧
        tx.Type_ = TransactionTypeRefund ∧ tx.Amount = r.Amount ∧ 0 ≤ tx.Amount ∧
        (0 < tx.Amount ↔ 1 / 2 ≤ req.Amount * 10 ^ decimalPlaces P.Currency)) := by
  constructor
  · intro req p hok
    by_cases hv : createViolations req = []
    · rw [CreatePayment_of_valid s e req hv] at hok ⊢
      have hp : p = createdPayment e req := (Except.ok.inj hok).symm
      have hpos : 0 < req.Amount := ((createViolations_eq_nil_iff req).mp hv).2.2.1
      subst hp
      refine ⟨?_, ?_, ?_⟩
      · rw [FindByID_eq_ok_iff, mapGet_Save_payments, if_pos rfl]
      · exact RoundToDecimalPlaces_nonneg _ _ (le_of_lt hpos)
      · exact RoundToDecimalPlaces_pos_iff _ _ (le_of_lt hpos)
    · rw [CreatePayment_of_invalid s e req hv] at hok
      exact absurd hok (by simp)
  · intro req r hok
    obtain ⟨P, hP, hv, hs, hx, hr, hst⟩ := CreateRefund_ok_inv s e req r hok
    have hpos : 0 < req.Amount := ((refundViolations_eq_nil_iff req).mp hv).2.1
    refine ⟨P, refundTransaction e req P, (FindByID_eq_ok_iff _ _ _).mpr hP, ?_, rfl, ?_, ?_, ?_⟩
    · rw [hst]
      unfold TransactionRepository.FindByID
      split_ifs
      · show (match mapGet (s.transactionRepo.Save (refundTransaction e req P)).transactions
          e.uuid2 with | none => _ | some tx => _) = _
        unfold TransactionRepository.Save
        rw [show (refundTransaction e req P).ID = e.uuid2 from rfl, mapGet_mapSet_self]
      · show (match mapGet (s.transactionRepo.Save (refundTransaction e req P)).transactions
          e.uuid2 with | none => _ | some tx => _) = _
        unfold TransactionRepository.Save
        rw [show (refundTransaction e req P).ID = e.uuid2 from rfl, mapGet_mapSet_self]
    · rw [hr]
      rfl
    · exact RoundToDecimalPlaces_nonneg _ _ (le_of_lt hpos)
    · exact RoundToDecimalPlaces_pos_iff _ _ (le_of_lt hpos)

end PositivityClaims

/-! ## Charges, refunds and the status of a payment -/

section ChargeConsistency

open models repositories utils services spec

theorem chargesOf_append_single (txs : List (String × Transaction)) (k : String)
    (t : Transaction) (pid : String) :
    chargesOf (txs ++ [(k, t)]) pid =
      chargesOf txs pid ++
        (if t.Type_ = TransactionTypeCharge ∧ t.PaymentID = pid then [t] else []) := by
  unfold chargesOf
  by_cases h : t.Type_ = TransactionTypeCharge ∧ t.PaymentID = pid
  · simp [List.filter_append, List.filter_cons, h]
  · simp [List.filter_append, List.filter_cons, h]

theorem chargesOf_eq_nil_of_no_tx (txs : List (String × Transaction)) (pid : String)
    (h : ∀ kv ∈ txs, kv.2.PaymentID ≠ pid) : chargesOf txs pid = [] := by
  unfold chargesOf
  rw [List.filter_eq_nil_iff]
  intro t ht
  obtain ⟨kv, hkv, rfl⟩ := List.mem_map.mp ht
  simp [h kv hkv]

theorem emptyStores_ChargeConsistent : ChargeConsistent emptyStores :=
  ⟨fun k P hP => absurd hP (by simp [emptyStores, NewPaymentRepository, mapGet]),
   fun k P hP => absurd hP (by simp [emptyStores, NewPaymentRepository, mapGet])⟩

theorem ChargeConsistent_save_payment (s : Stores) (P : Payment) (h : ChargeConsistent s)
    (hc : P.Status = PaymentStatusCompleted ∨ P.Status = PaymentStatusRefunded →
      ∃ t, chargesOf s.transactionRepo.transactions P.ID = [t] ∧ t.ID = P.TransactionID ∧
        t.Amount = P.Amount)
    (hu : P.Status = PaymentStatusPending ∨ P.Status = PaymentStatusCancelled →
      P.TransactionID = "") :
    ChargeConsistent { s with paymentRepo := s.paymentRepo.Save P } := by
  constructor
  · intro k Q hQ hst
    have hQ' : mapGet (s.paymentRepo.Save P).payments k = some Q := hQ
    rw [mapGet_Save_payments] at hQ'
    show ∃ t, chargesOf s.transactionRepo.transactions k = [t] ∧ _
    by_cases hk : k = P.ID
    · rw [if_pos hk] at hQ'
      have hPQ : P = Q := Option.some.inj hQ'
      subst hPQ
      rw [hk]
      exact hc hst
    · rw [if_neg hk] at hQ'
      exact h.charged k Q hQ' hst
  · intro k Q hQ hst
    have hQ' : mapGet (s.paymentRepo.Save P).payments k = some Q := hQ
    rw [mapGet_Save_payments] at hQ'
    by_cases hk : k = P.ID
    · rw [if_pos hk] at hQ'
      have hPQ : P = Q := Option.some.inj hQ'
      subst hPQ
      exact hu hst
    · rw [if_neg hk] at hQ'
      exact h.uncharged k Q hQ' hst

theorem ChargeConsistent_save_transaction (s : Stores) (tx : Transaction)
    (h : ChargeConsistent s) (hf : mapGet s.transactionRepo.transactions tx.ID = none)
    (hcase : tx.Type_ = TransactionTypeCharge → ∀ P,
      mapGet s.paymentRepo.payments tx.PaymentID = some P →
        P.Status ≠ PaymentStatusCompleted ∧ P.Status ≠ PaymentStatusRefunded) :
    ChargeConsistent { s with transactionRepo := s.transactionRepo.Save tx } := by
  constructor
  · intro k Q hQ hst
    have hQ' : mapGet s.paymentRepo.payments k = some Q := hQ
    show ∃ t, chargesOf (s.transactionRepo.Save tx).transactions k = [t] ∧ _
    rw [Save_transactions_of_fresh _ _ hf, chargesOf_append_single]
    have hno : ¬ (tx.Type_ = TransactionTypeCharge ∧ tx.PaymentID = k) := by
      rintro ⟨ht, hp⟩
      rw [← hp] at hQ'
      have := hcase ht Q hQ'
      rcases hst with h1 | h1
      · exact this.1 h1
      · exact this.2 h1
    rw [if_neg hno, List.append_nil]
    exact h.charged k Q hQ' hst
  · intro k Q hQ hst
    exact h.uncharged k Q hQ hst

theorem not_charged_status (st : PaymentStatus)
    (h : st = PaymentStatusPending ∨ st = PaymentStatusCancelled) :
    ¬ (st = PaymentStatusCompleted ∨ st = PaymentStatusRefunded) := by
  rcases h with h | h <;> rw [h] <;> decide

theorem not_uncharged_status (st : PaymentStatus)
    (h : st = PaymentStatusCompleted ∨ st = PaymentStatusRefunded) :
    ¬ (st = PaymentStatusPending ∨ st = PaymentStatusCancelled) := by
  rcases h with h | h <;> rw [h] <;> decide

theorem ChargeConsistent_step (s : Stores) (e : Env) (op : Op) (hw : WellFormed s)
    (h : ChargeConsistent s) (hf : freshIDs s e op) : ChargeConsistent (step s e op) := by
  rcases step_cases s e op hw hf with h0 | ⟨req, -, hv, hfresh, hst⟩ |
    ⟨P, -, hP, hs, hfresh, hst⟩ | ⟨P, -, hP, hs, hst⟩ |
    ⟨req, P, -, hid, hP, hs, hv, hfresh, hle, hst⟩
  · rw [h0]
    exact h
  · rw [hst]
    refine ChargeConsistent_save_payment s _ h ?_ ?_
    · intro hc
      exact absurd hc (not_charged_status _ (Or.inl rfl))
    · intro _
      rfl
  · rw [hst]
    have hct : (chargeTransaction e P).ID = e.uuid1 := rfl
    have hfr : mapGet s.transactionRepo.transactions (chargeTransaction e P).ID = none := by
      rw [hct]
      exact hfresh
    have h1 := ChargeConsistent_save_transaction s (chargeTransaction e P) h hfr (by
      intro _ Q hQ
      have hQ2 : mapGet s.paymentRepo.payments P.ID = some Q := hQ
      rw [hP] at hQ2
      have hPQ : P = Q := Option.some.inj hQ2
      subst hPQ
      rw [hs]
      exact ⟨status_ne_facts.1.symm, status_ne_facts.2.2.1.symm⟩)
    refine ChargeConsistent_save_payment _ (completedPayment e P) h1 ?_ ?_
    · intro _
      refine ⟨chargeTransaction e P, ?_, rfl, rfl⟩
      show chargesOf (s.transactionRepo.Save (chargeTransaction e P)).transactions P.ID = _
      rw [Save_transactions_of_fresh _ _ hfr, chargesOf_append_single,
        chargesOf_eq_nil_of_no_tx _ _ (hw.noTx P.ID P hP (Or.inl hs))]
      simp [chargeTransaction]
    · intro hc
      exact absurd hc (not_uncharged_status _ (Or.inl rfl))
  · rw [hst]
    refine ChargeConsistent_save_payment s (cancelledPayment e P) h ?_ ?_
    · intro hc
      exact absurd hc (not_charged_status _ (Or.inr rfl))
    · intro _
      exact h.uncharged P.ID P hP (Or.inl hs)
  · have hrt : (refundTransaction e req P).ID = e.uuid2 := rfl
    have hfr : mapGet s.transactionRepo.transactions (refundTransaction e req P).ID = none := by
      rw [hrt]
      exact hfresh
    have h1 := ChargeConsistent_save_transaction s (refundTransaction e req P) h hfr (by
      intro hc
      exact absurd hc (fun hc2 => status_ne_facts.2.2.2.2.2.2.2.2.2.2.2 hc2.symm))
    rw [hst]
    split_ifs
    · refine ChargeConsistent_save_payment _ (refundedPayment e P) h1 ?_ ?_
      · intro _
        exact h1.charged P.ID P hP (Or.inl hs)
      · intro hc
        exact absurd hc (not_uncharged_status _ (Or.inr rfl))
    · exact h1

theorem ChargeConsistent_of_Reachable (s : Stores) (h : Reachable s) : ChargeConsistent s := by
  induction h with
  | init => exact emptyStores_ChargeConsistent
  | step s e op hr hf ih => exact ChargeConsistent_step s e op (WellFormed_of_Reachable s hr) ih hf

end ChargeConsistency

section RefundedStatus

open models repositories utils services spec

theorem emptyStores_RefundedExact : RefundedExact emptyStores :=
  fun k P hP => absurd hP (by simp [emptyStores, NewPaymentRepository, mapGet])

theorem RefundedExact_save_payment (s : Stores) (P : Payment) (h : RefundedExact s)
    (hc : P.Status = PaymentStatusRefunded → refundedTotal s P.ID = P.Amount) :
    RefundedExact { s with paymentRepo := s.paymentRepo.Save P } := by
  intro k Q hQ hst
  have hQ2 : mapGet (s.paymentRepo.Save P).payments k = some Q := hQ
  rw [mapGet_Save_payments] at hQ2
  show refundedTotal s k = Q.Amount
  by_cases hk : k = P.ID
  · rw [if_pos hk] at hQ2
    have hPQ : P = Q := Option.some.inj hQ2
    subst hPQ
    rw [hk]
    exact hc hst
  · rw [if_neg hk] at hQ2
    exact h k Q hQ2 hst

theorem RefundedExact_save_transaction (s : Stores) (tx : Transaction) (h : RefundedExact s)
    (hf : mapGet s.transactionRepo.transactions tx.ID = none)
    (hcase : tx.Type_ = TransactionTypeRefund → ∀ P,
      mapGet s.paymentRepo.payments tx.PaymentID = some P →
        P.Status ≠ PaymentStatusRefunded) :
    RefundedExact { s with transactionRepo := s.transactionRepo.Save tx } := by
  intro k Q hQ hst
  have hQ2 : mapGet s.paymentRepo.payments k = some Q := hQ
  show refundSum (s.transactionRepo.Save tx).transactions k = Q.Amount
  rw [Save_transactions_of_fresh _ _ hf, refundSum_append_single]
  have hno : ¬ (tx.Type_ = TransactionTypeRefund ∧ tx.PaymentID = k) := by
    rintro ⟨ht, hp⟩
    rw [← hp] at hQ2
    exact hcase ht Q hQ2 hst
  rw [if_neg hno, add_zero]
  exact h k Q hQ2 hst

theorem RefundedExact_step (s : Stores) (e : Env) (op : Op) (hw : WellFormed s)
    (h : RefundedExact s) (hf : freshIDs s e op) : RefundedExact (step s e op) := by
  rcases step_cases s e op hw hf with h0 | ⟨req, -, hv, hfresh, hst⟩ |
    ⟨P, -, hP, hs, hfresh, hst⟩ | ⟨P, -, hP, hs, hst⟩ |
    ⟨req, P, -, hid, hP, hs, hv, hfresh, hle, hst⟩
  · rw [h0]
    exact h
  · rw [hst]
    refine RefundedExact_save_payment s _ h ?_
    intro hc
    exact absurd (Or.inr hc) (not_charged_status _ (Or.inl rfl))
  · rw [hst]
    have hfr : mapGet s.transactionRepo.transactions (chargeTransaction e P).ID = none := hfresh
    have h1 := RefundedExact_save_transaction s (chargeTransaction e P) h hfr (by
      intro hc
      exact absurd hc status_ne_facts.2.2.2.2.2.2.2.2.2.2.2)
    refine RefundedExact_save_payment _ (completedPayment e P) h1 ?_
    intro hc
    exact absurd hc status_ne_facts.2.2.2.2.2.1.symm
  · rw [hst]
    refine RefundedExact_save_payment s (cancelledPayment e P) h ?_
    intro hc
    exact absurd hc status_ne_facts.2.2.2.1.symm
  · have hfr : mapGet s.transactionRepo.transactions (refundTransaction e req P).ID = none :=
      hfresh
    have h1 := RefundedExact_save_transaction s (refundTransaction e req P) h hfr (by
      intro _ Q hQ
      have hQ2 : mapGet s.paymentRepo.payments P.ID = some Q := hQ
      rw [hP] at hQ2
      have hPQ : P = Q := Option.some.inj hQ2
      subst hPQ
      rw [hs]
      exact status_ne_facts.2.2.2.2.2.1.symm)
    rw [hst]
    split_ifs with hge
    · refine RefundedExact_save_payment _ (refundedPayment e P) h1 ?_
      intro _
      show refundSum (s.transactionRepo.Save (refundTransaction e req P)).transactions P.ID =
        P.Amount
      rw [Save_transactions_of_fresh _ _ hfr, refundSum_append_single,
        if_pos ⟨rfl, rfl⟩]
      have hg1 := hw.refundGrid P.ID P hP
      have hg2 := hw.amountGrid P.ID P hP
      exact le_antisymm
        (add_RoundToDecimalPlaces_le P.Currency _ req.Amount P.Amount hg1 hg2 hle)
        (le_add_RoundToDecimalPlaces P.Currency _ req.Amount P.Amount hg1 hg2 hge)
    · exact h1

theorem RefundedExact_of_Reachable (s : Stores) (h : Reachable s) : RefundedExact s := by
  induction h with
  | init => exact emptyStores_RefundedExact
  | step s e op hr hf ih => exact RefundedExact_step s e op (WellFormed_of_Reachable s hr) ih hf

theorem scenario_x3_reachable : Reachable scenario.x3 :=
  Reachable.step _ _ _ scenario_s2_reachable (by decide!)

end RefundedStatus

/-! ## Claims on the frame of a call, on net revenue and on the indexes -/

section FrameClaims

open models repositories utils services spec

/-- A call that saves at most a new version `P2` of the stored payment `P` and
appends transactions of `P` only keeps the frame of `P`. -/
theorem Frame_of_save (s s2 : Stores) (P P2 : Payment) (l : List (String × Transaction))
    (hP : mapGet s.paymentRepo.payments P.ID = some P)
    (hpay : s2.paymentRepo = s.paymentRepo.Save P2)
    (hcore : { P2 with Status := P.Status, TransactionID := P.TransactionID,
                       UpdatedAt := P.UpdatedAt } = P)
    (htx : s2.transactionRepo.transactions = s.transactionRepo.transactions ++ l)
    (hl : ∀ kv ∈ l, kv.2.PaymentID = P.ID) : Frame s s2 P.ID := by
  have hc := (sameCore_iff P P2).mp hcore
  refine ⟨P, P2, hP, ?_, hc.1, hc.2.1, hc.2.2.1, hc.2.2.2.1, hc.2.2.2.2.1, hc.2.2.2.2.2.1,
    hc.2.2.2.2.2.2.1, hc.2.2.2.2.2.2.2, ?_, ?_, l, htx, hl⟩
  · rw [hpay, mapGet_Save_payments, if_pos hc.1.symm]
  · intro k hk
    rw [hpay, mapGet_Save_payments, if_neg (by rw [hc.1]; exact hk)]
  · rw [hpay]
    show (mapSet s.paymentRepo.payments P2.ID P2).map Prod.fst = _
    rw [hc.1]
    exact mapSet_keys_of_present _ _ P P2 hP

/-- C39: in a state reachable through the service operations, a successful
`ProcessPayment`, `CancelPayment` or `CreateRefund` on the payment `P` (generated
transaction ID fresh) leaves every other key of the payment store as it was,
keeps the ID, order, user, amount, currency, method, description and creation
time of `P`, and leaves the ledger as it was except for transactions of `P`
added at its end. -/
theorem service_frame (s : Stores) (h : Reachable s) (e : Env) :
    (∀ pid p, mapGet s.transactionRepo.transactions e.uuid1 = none →
      (PaymentService.ProcessPayment s e pid).1 = .ok p →
      Frame s (PaymentService.ProcessPayment s e pid).2 pid) ∧
    (∀ pid p, (PaymentService.CancelPayment s e pid).1 = .ok p →
      Frame s (PaymentService.CancelPayment s e pid).2 pid ∧
      (PaymentService.CancelPayment s e pid).2.transactionRepo = s.transactionRepo) ∧
    (∀ req r, mapGet s.transactionRepo.transactions e.uuid2 = none →
      (RefundService.CreateRefund s e req).1 = .ok r →
      Frame s (RefundService.CreateRefund s e req).2 req.PaymentID) := by
  have hw := WellFormed_of_Reachable s h
  refine ⟨?_, ?_, ?_⟩
  · intro pid p hfresh hok
    cases hQ : mapGet s.paymentRepo.payments pid with
    | none =>
      rw [ProcessPayment_of_absent s e pid hQ] at hok
      exact absurd hok (by simp)
    | some Q =>
      by_cases hs : Q.Status = PaymentStatusPending
      · have hid : Q.ID = pid := hw.payKey pid Q hQ
        subst hid
        rw [ProcessPayment_of_pending s e Q.ID Q hQ hs]
        refine Frame_of_save s _ Q (completedPayment e Q) [(e.uuid1, chargeTransaction e Q)] hQ
          rfl rfl ?_ ?_
        · exact Save_transactions_of_fresh _ (chargeTransaction e Q) hfresh
        · intro kv hkv
          rw [List.mem_singleton.mp hkv]
          rfl
      · rw [ProcessPayment_of_not_pending s e pid Q hQ hs] at hok
        exact absurd hok (by simp)
  · intro pid p hok
    cases hQ : mapGet s.paymentRepo.payments pid with
    | none =>
      rw [CancelPayment_of_absent s e pid hQ] at hok
      exact absurd hok (by simp)
    | some Q =>
      by_cases hs : Q.Status = PaymentStatusPending
      · have hid : Q.ID = pid := hw.payKey pid Q hQ
        subst hid
        rw [CancelPayment_of_pending s e Q.ID Q hQ hs]
        refine ⟨Frame_of_save s _ Q (cancelledPayment e Q) [] hQ rfl rfl ?_ ?_, rfl⟩
        · exact (List.append_nil _).symm
        · intro kv hkv
          exact absurd hkv (List.not_mem_nil _)
      · rw [CancelPayment_of_not_pending s e pid Q hQ hs] at hok
        exact absurd hok (by simp)
  · intro req r hfresh hok
    obtain ⟨Q, hQ, hv, hs, hx, hr, hst⟩ := CreateRefund_ok_inv s e req r hok
    have hid : Q.ID = req.PaymentID := hw.payKey _ Q hQ
    rw [← hid] at hQ ⊢
    have htx : (s.transactionRepo.Save (refundTransaction e req Q)).transactions =
        s.transactionRepo.transactions ++ [(e.uuid2, refundTransaction e req Q)] :=
      Save_transactions_of_fresh _ (refundTransaction e req Q) hfresh
    have hl : ∀ kv ∈ [(e.uuid2, refundTransaction e req Q)], kv.2.PaymentID = Q.ID := by
      intro kv hkv
      rw [List.mem_singleton.mp hkv]
      rfl
    rw [hst]
    split_ifs
    · exact Frame_of_save s _ Q (refundedPayment e Q) _ hQ rfl rfl htx hl
    · refine ⟨Q, Q, hQ, hQ, rfl, rfl, rfl, rfl, rfl, rfl, rfl, rfl, fun k _ => rfl, rfl, _, htx,
        hl⟩

theorem service_frame_witness :
    Frame scenario.s1 scenario.s2 "p1" ∧ Frame scenario.s2 scenario.s3 "p1" :=
  ⟨(service_frame scenario.s1 scenario_s1_reachable ⟨"t1", "", 2, 2, 2⟩).1 "p1"
      scenario.completed (by decide!) (by decide!),
    (service_frame scenario.s2 scenario_s2_reachable ⟨"r1", "t2", 3, 3, 3⟩).2.2
      ⟨"p1", 40, "Partial refund 1"⟩ ⟨"r1", "p1", 40, "Partial refund 1", "completed", 3⟩
      (by decide!) (by decide!)⟩

end FrameClaims

section NetRevenue

open models repositories utils services spec

theorem GetTotalByType_eq_typeTotal (r : TransactionRepository) (ty : TransactionType) :
    r.GetTotalByType ty = typeTotal r ty := by
  unfold TransactionRepository.GetTotalByType typeTotal
  rw [foldl_type_total, zero_add]

theorem sum_ite_key (ks : List String) (hn : ks.Nodup) (k0 : String) (hk : k0 ∈ ks) (a : ℚ) :
    (ks.map (fun k => if k0 = k then a else 0)).sum = a := by
  induction ks with
  | nil => exact absurd hk (List.not_mem_nil _)
  | cons k rest ih =>
    have hnd := List.nodup_cons.mp hn
    rw [List.map_cons, List.sum_cons]
    by_cases h : k0 = k
    · have hzero : (rest.map (fun k => if k0 = k then a else 0)).sum = 0 := by
        apply List.sum_eq_zero
        intro x hx
        obtain ⟨k', hk', rfl⟩ := List.mem_map.mp hx
        have hne : ¬ k0 = k' := by
          intro hc
          rw [h] at hc
          rw [hc] at hnd
          exact hnd.1 hk'
        rw [if_neg hne]
      rw [if_pos h, hzero, add_zero]
    · rcases List.mem_cons.mp hk with hk1 | hk1
      · exact absurd hk1 h
      · rw [if_neg h, zero_add]
        exact ih hnd.2 hk1

/-- The total of one transaction type is the sum, over the payment keys, of the
totals of that type per payment, when every transaction belongs to one of the
keys. -/
theorem typeSum_by_payment (ks : List String) (hn : ks.Nodup) (ty : TransactionType)
    (ts : List Transaction) (h : ∀ t ∈ ts, t.PaymentID ∈ ks) :
    ((ts.filter (fun t => t.Type_ = ty)).map (fun t => t.Amount)).sum =
      (ks.map (fun k =>
        ((ts.filter (fun t => t.Type_ = ty ∧ t.PaymentID = k)).map (fun t => t.Amount)).sum)).sum := by
  induction ts with
  | nil => simp
  | cons t rest ih =>
    have ih2 := ih (fun x hx => h x (List.mem_cons_of_mem t hx))
    have key : ∀ k,
        (((t :: rest).filter (fun t => t.Type_ = ty ∧ t.PaymentID = k)).map
          (fun t => t.Amount)).sum =
        (if t.PaymentID = k then (if t.Type_ = ty then t.Amount else 0) else 0) +
          ((rest.filter (fun t => t.Type_ = ty ∧ t.PaymentID = k)).map (fun t => t.Amount)).sum := by
      intro k
      by_cases h1 : t.Type_ = ty
      · by_cases h2 : t.PaymentID = k
        · simp [List.filter_cons, h1, h2]
        · simp [List.filter_cons, h1, h2]
      · by_cases h2 : t.PaymentID = k
        · simp [List.filter_cons, h1, h2]
        · simp [List.filter_cons, h1, h2]
    have hfun : (fun k =>
        (((t :: rest).filter (fun t => t.Type_ = ty ∧ t.PaymentID = k)).map
          (fun t => t.Amount)).sum) =
        (fun k => (if t.PaymentID = k then (if t.Type_ = ty then t.Amount else 0) else 0) +
          ((rest.filter (fun t => t.Type_ = ty ∧ t.PaymentID = k)).map
            (fun t => t.Amount)).sum) := funext key
    rw [hfun, List.sum_map_add, sum_ite_key ks hn t.PaymentID (h t (List.mem_cons_self t rest)),
      ← ih2]
    by_cases h1 : t.Type_ = ty
    · simp [List.filter_cons, h1]
    · simp [List.filter_cons, h1]

theorem mem_keys_of_mapGet_ne_none {α : Type} (m : List (String × α)) (k : String)
    (h : mapGet m k ≠ none) : k ∈ m.map Prod.fst := by
  by_contra hc
  exact h ((mapGet_eq_none_iff m k).mpr hc)

/-- In a reachable state the refunds of a payment key add up to at most its
charges. -/
theorem refundSum_le_chargeSum (s : Stores) (h : Reachable s) (k : String)
    (hk : k ∈ s.paymentRepo.payments.map Prod.fst) :
    refundSum s.transactionRepo.transactions k ≤ chargeSum s.transactionRepo.transactions k := by
  have hw := WellFormed_of_Reachable s h
  have hc := ChargeConsistent_of_Reachable s h
  cases hQ : mapGet s.paymentRepo.payments k with
  | none => exact absurd hk ((mapGet_eq_none_iff _ k).mp hQ)
  | some P =>
    rcases hw.status k P hQ with hs | hs | hs | hs
    · have hno := hw.noTx k P hQ (Or.inl hs)
      unfold chargeSum
      rw [refundSum_eq_zero_of_no_tx _ _ hno, chargesOf_eq_nil_of_no_tx _ _ hno]
      simp
    · obtain ⟨t, ht, -, hta⟩ := hc.charged k P hQ (Or.inl hs)
      unfold chargeSum
      rw [ht]
      simp only [List.map_cons, List.map_nil, List.sum_cons, List.sum_nil, add_zero, hta]
      exact hw.refundCap k P hQ
    · have hno := hw.noTx k P hQ (Or.inr hs)
      unfold chargeSum
      rw [refundSum_eq_zero_of_no_tx _ _ hno, chargesOf_eq_nil_of_no_tx _ _ hno]
      simp
    · obtain ⟨t, ht, -, hta⟩ := hc.charged k P hQ (Or.inr hs)
      unfold chargeSum
      rw [ht]
      simp only [List.map_cons, List.map_nil, List.sum_cons, List.sum_nil, add_zero, hta]
      exact hw.refundCap k P hQ

theorem typeTotal_refund_le_charge (s : Stores) (h : Reachable s) :
    typeTotal s.transactionRepo TransactionTypeRefund ≤
      typeTotal s.transactionRepo TransactionTypeCharge := by
  have hw := WellFormed_of_Reachable s h
  have hn := (UserIndexed_of_Reachable s h).payNodup
  have hmem : ∀ t ∈ s.transactionRepo.transactions.map Prod.snd,
      t.PaymentID ∈ s.paymentRepo.payments.map Prod.fst := by
    intro t ht
    obtain ⟨kv, hkv, rfl⟩ := List.mem_map.mp ht
    exact mem_keys_of_mapGet_ne_none _ _ (hw.txRef kv hkv)
  unfold typeTotal
  rw [typeSum_by_payment _ hn TransactionTypeRefund _ hmem,
    typeSum_by_payment _ hn TransactionTypeCharge _ hmem]
  apply List.sum_le_sum
  intro k hk
  exact refundSum_le_chargeSum s h k hk

end NetRevenue

section IndexClaims

open models repositories utils services spec

theorem runRepoOps_append_single (ops : List RepoOp) (op : RepoOp) :
    runRepoOps (ops ++ [op]) = applyRepoOp (runRepoOps ops) op := by
  unfold runRepoOps
  rw [List.foldl_append]
  rfl

theorem savedBy_append_save (ops : List RepoOp) (p : Payment) :
    savedBy (ops ++ [.save p]) = savedBy ops ++ [p] := by
  unfold savedBy
  rw [List.filterMap_append]
  rfl

theorem savedBy_append_delete (ops : List RepoOp) (id : String) :
    savedBy (ops ++ [.delete id]) = savedBy ops := by
  unfold savedBy
  rw [List.filterMap_append]
  exact List.append_nil _

theorem Delete_payments (r : PaymentRepository) (id k : String) (P : Payment)
    (h : mapGet (r.Delete id).2.payments k = some P) : mapGet r.payments k = some P := by
  unfold PaymentRepository.Delete at h
  cases hq : mapGet r.payments id with
  | none =>
    rw [hq] at h
    exact h
  | some Q =>
    rw [hq] at h
    have h2 : mapGet (mapDelete r.payments id) k = some P := h
    by_cases hk : k = id
    · rw [hk, mapGet_mapDelete_self] at h2
      exact absurd h2 (by simp)
    · rw [mapGet_mapDelete_ne _ _ _ hk] at h2
      exact h2

theorem Delete_indexes (r : PaymentRepository) (id : String) :
    (r.Delete id).2.orderIdx = r.orderIdx ∧ (r.Delete id).2.userIdx = r.userIdx := by
  unfold PaymentRepository.Delete
  cases mapGet r.payments id <;> exact ⟨rfl, rfl⟩

/-- After any sequence of `Save` and `Delete` calls a stored record sits under
its own ID and was handed to `Save`, and an ID listed in an index entry was
handed to `Save` with the owner of that entry. -/
theorem runRepoOps_sound (ops : List RepoOp) :
    (∀ k P, mapGet (runRepoOps ops).payments k = some P → P.ID = k ∧ P ∈ savedBy ops) ∧
    (∀ o id, id ∈ (mapGet (runRepoOps ops).orderIdx o).getD [] →
      ∃ p ∈ savedBy ops, p.ID = id ∧ p.OrderID = o) ∧
    (∀ u id, id ∈ (mapGet (runRepoOps ops).userIdx u).getD [] →
      ∃ p ∈ savedBy ops, p.ID = id ∧ p.UserID = u) := by
  induction ops using List.reverseRecOn with
  | nil =>
    refine ⟨fun k P h => absurd h (by simp [runRepoOps, NewPaymentRepository, mapGet]),
      fun o id h => absurd h (by simp [runRepoOps, NewPaymentRepository, mapGet]),
      fun u id h => absurd h (by simp [runRepoOps, NewPaymentRepository, mapGet])⟩
  | append_singleton ops op ih =>
    obtain ⟨hpay, hord, husr⟩ := ih
    rw [runRepoOps_append_single]
    cases op with
    | save p =>
      rw [savedBy_append_save]
      refine ⟨?_, ?_, ?_⟩
      · intro k P hP
        have hP2 : mapGet ((runRepoOps ops).Save p).payments k = some P := hP
        rw [mapGet_Save_payments] at hP2
        by_cases hk : k = p.ID
        · rw [if_pos hk] at hP2
          have hpP : p = P := Option.some.inj hP2
          subst hpP
          exact ⟨hk.symm, List.mem_append_right _ (List.mem_singleton_self p)⟩
        · rw [if_neg hk] at hP2
          exact ⟨(hpay k P hP2).1, List.mem_append_left _ (hpay k P hP2).2⟩
      · intro o id hid
        have hid2 : id ∈ (mapGet (indexAdd (runRepoOps ops).orderIdx p.OrderID p.ID) o).getD [] :=
          hid
        rw [getD_mapGet_indexAdd] at hid2
        have hold : id ∈ (mapGet (runRepoOps ops).orderIdx o).getD [] →
            ∃ q ∈ savedBy ops ++ [p], q.ID = id ∧ q.OrderID = o := by
          intro hm
          obtain ⟨q, hq, hq1, hq2⟩ := hord o id hm
          exact ⟨q, List.mem_append_left _ hq, hq1, hq2⟩
        by_cases ho : o = p.OrderID
        · rw [if_pos ho] at hid2
          subst ho
          split_ifs at hid2
          · exact hold hid2
          · rcases List.mem_append.mp hid2 with hm | hm
            · exact hold hm
            · exact ⟨p, List.mem_append_right _ (List.mem_singleton_self p),
                (List.mem_singleton.mp hm).symm, rfl⟩
        · rw [if_neg ho] at hid2
          exact hold hid2
      · intro u id hid
        have hid2 : id ∈ (mapGet (indexAdd (runRepoOps ops).userIdx p.UserID p.ID) u).getD [] :=
          hid
        rw [getD_mapGet_indexAdd] at hid2
        have hold : id ∈ (mapGet (runRepoOps ops).userIdx u).getD [] →
            ∃ q ∈ savedBy ops ++ [p], q.ID = id ∧ q.UserID = u := by
          intro hm
          obtain ⟨q, hq, hq1, hq2⟩ := husr u id hm
          exact ⟨q, List.mem_append_left _ hq, hq1, hq2⟩
        by_cases hu : u = p.UserID
        · rw [if_pos hu] at hid2
          subst hu
          split_ifs at hid2
          · exact hold hid2
          · rcases List.mem_append.mp hid2 with hm | hm
            · exact hold hm
            · exact ⟨p, List.mem_append_right _ (List.mem_singleton_self p),
                (List.mem_singleton.mp hm).symm, rfl⟩
        · rw [if_neg hu] at hid2
          exact hold hid2
    | delete id0 =>
      rw [savedBy_append_delete]
      have hidx := Delete_indexes (runRepoOps ops) id0
      refine ⟨?_, ?_, ?_⟩
      · intro k P hP
        exact hpay k P (Delete_payments _ id0 k P hP)
      · intro o id hid
        have hid2 : id ∈ (mapGet ((runRepoOps ops).Delete id0).2.orderIdx o).getD [] := hid
        rw [hidx.1] at hid2
        exact hord o id hid2
      · intro u id hid
        have hid2 : id ∈ (mapGet ((runRepoOps ops).Delete id0).2.userIdx u).getD [] := hid
        rw [hidx.2] at hid2
        exact husr u id hid2

/-- C40, as stated, fails: after `p1` is saved for order `o1` and user `u1` and
saved again for order `o2` and user `u2`, `FindByOrderID` for `o1` and
`FindByUserID` for `u1` still return the record of `p1`, which now carries `o2`
and `u2`; the same happens when `p1` is deleted between the two saves. -/
theorem FindByOrderID_returns_moved_payment :
    (runRepoOps [.save scenario.movedFirst, .save scenario.movedLast]).FindByOrderID "o1" =
      [scenario.movedLast] ∧
    scenario.movedLast.OrderID = "o2" ∧
    (runRepoOps [.save scenario.movedFirst, .save scenario.movedLast]).FindByUserID "u1" =
      [scenario.movedLast] ∧
    scenario.movedLast.UserID = "u2" ∧
    (runRepoOps [.save scenario.movedFirst, .delete "p1",
      .save scenario.movedLast]).FindByOrderID "o1" = [scenario.movedLast] := by
  refine ⟨by decide!, by decide, by decide!, by decide, by decide!⟩

/-- C40, amended: after any sequence of `Save` and `Delete` calls on a new
repository, every payment returned by `FindByOrderID` for `o` is the record
stored under its ID, and that ID was handed to `Save` with order `o` at some
call of the sequence; likewise for `FindByUserID`.  So when every ID is always
saved with the same order and user, every payment returned for `o` has
`OrderID = o` and every payment returned for `u` has `UserID = u`. -/
theorem index_results_saved_owner (ops : List RepoOp) :
    (∀ o P, P ∈ (runRepoOps ops).FindByOrderID o →
      (runRepoOps ops).FindByID P.ID = .ok P ∧
      ∃ p ∈ savedBy ops, p.ID = P.ID ∧ p.OrderID = o) ∧
    (∀ u P, P ∈ (runRepoOps ops).FindByUserID u →
      (runRepoOps ops).FindByID P.ID = .ok P ∧
      ∃ p ∈ savedBy ops, p.ID = P.ID ∧ p.UserID = u) ∧
    (StableOwners (savedBy ops) →
      (∀ o P, P ∈ (runRepoOps ops).FindByOrderID o → P.OrderID = o) ∧
      (∀ u P, P ∈ (runRepoOps ops).FindByUserID u → P.UserID = u)) := by
  obtain ⟨hpay, hord, husr⟩ := runRepoOps_sound ops
  have h1 : ∀ o P, P ∈ (runRepoOps ops).FindByOrderID o →
      mapGet (runRepoOps ops).payments P.ID = some P ∧
      ∃ p ∈ savedBy ops, p.ID = P.ID ∧ p.OrderID = o := by
    intro o P hP
    unfold PaymentRepository.FindByOrderID at hP
    obtain ⟨id, hid, hget⟩ := List.mem_filterMap.mp hP
    have hk := (hpay id P hget).1
    rw [hk]
    exact ⟨hget, hord o id hid⟩
  have h2 : ∀ u P, P ∈ (runRepoOps ops).FindByUserID u →
      mapGet (runRepoOps ops).payments P.ID = some P ∧
      ∃ p ∈ savedBy ops, p.ID = P.ID ∧ p.UserID = u := by
    intro u P hP
    unfold PaymentRepository.FindByUserID at hP
    obtain ⟨id, hid, hget⟩ := List.mem_filterMap.mp hP
    have hk := (hpay id P hget).1
    rw [hk]
    exact ⟨hget, husr u id hid⟩
  refine ⟨fun o P hP => ⟨(FindByID_eq_ok_iff _ _ _).mpr (h1 o P hP).1, (h1 o P hP).2⟩,
    fun u P hP => ⟨(FindByID_eq_ok_iff _ _ _).mpr (h2 u P hP).1, (h2 u P hP).2⟩, ?_⟩
  intro hst
  constructor
  · intro o P hP
    obtain ⟨hget, p, hp, hpid, hpo⟩ := h1 o P hP
    have hPs := (hpay P.ID P hget).2
    rw [← hpo]
    exact ((hst p hp P hPs hpid).1).symm
  · intro u P hP
    obtain ⟨hget, p, hp, hpid, hpu⟩ := h2 u P hP
    have hPs := (hpay P.ID P hget).2
    rw [← hpu]
    exact ((hst p hp P hPs hpid).2).symm

theorem index_results_saved_owner_witness :
    StableOwners (savedBy scenario.churn) ∧
    (runRepoOps scenario.churn).FindByUserID "user-456" =
      [scenario.completed, scenario.savedSecond] ∧
    (∀ o P, P ∈ (runRepoOps scenario.churn).FindByOrderID o → P.OrderID = o) ∧
    (∀ u P, P ∈ (runRepoOps scenario.churn).FindByUserID u → P.UserID = u) :=
  ⟨by decide, by decide!,
    ((index_results_saved_owner scenario.churn).2.2 (by decide)).1,
    ((index_results_saved_owner scenario.churn).2.2 (by decide)).2⟩

end IndexClaims

/-! ## The payment service on `float64`: rounding, refunds and the ledger -/

section Float64Lemmas

open Go float64.models float64.repositories float64.utils float64.services
  float64.concurrent

theorem mapSet_mapSet_same {α : Type} (m : List (String × α)) (k : String) (v w : α) :
    mapSet (mapSet m k v) k w = mapSet m k w := by
  induction m with
  | nil => simp [mapSet]
  | cons a t ih =>
    obtain ⟨k0, v0⟩ := a
    by_cases h : k0 = k
    · simp [mapSet, h]
    · simp [mapSet, h, ih]

/-- Landmarks of the rounding: one tenth is read as the `float64` below it, an
integer up to 2^53 is read as itself, 2^53 + 1 is read as 2^53, the largest
finite `float64` is read as itself, half a step above it is an infinity, and
the smallest positive `float64` is 2^-1074. -/
theorem Float64_ofRat_landmarks :
    Float64.ofRat (1 / 10) = .finite (3602879701896397 / 36028797018963968) ∧
    Float64.ofRat 9007199254740992 = .finite 9007199254740992 ∧
    Float64.ofRat 9007199254740993 = .finite 9007199254740992 ∧
    Float64.ofRat (pow2 1024 - pow2 971) = .finite (pow2 1024 - pow2 971) ∧
    Float64.ofRat (pow2 1024 - pow2 970) = .inf false ∧
    Float64.ofRat (pow2 (-1074)) = .finite (pow2 (-1074)) ∧
    Float64.ofRat (pow2 (-1076)) = .finite 0 ∧
    Float64.ofRat (-(1 / 10)) = .finite (-(3602879701896397 / 36028797018963968)) := by
  refine ⟨by decide!, by decide!, by decide!, by decide!, by decide!, by decide!, by decide!,
    by decide!⟩

theorem float64_FindByID_eq_ok_iff (r : PaymentRepository) (id : String) (P : Payment) :
    r.FindByID id = .ok P ↔ mapGet r.payments id = some P := by
  unfold PaymentRepository.FindByID
  cases h : mapGet r.payments id with
  | none => simp
  | some Q => simp

/-- A call of `ProcessPayment` that takes its five steps with no other call in
between does what the method does in one piece. -/
theorem ProcessCall_alone (s : Stores) (e : services.Env) (id : String)
    (hkey : ∀ P, mapGet s.paymentRepo.payments id = some P → P.ID = id) :
    System.run ⟨s, [(e, .process (.start id))]⟩ [0, 0, 0, 0, 0] =
      ⟨(PaymentService.ProcessPayment s e id).2,
        [(e, .process (.returned (PaymentService.ProcessPayment s e id).1))]⟩ := by
  cases hP : mapGet s.paymentRepo.payments id with
  | none =>
    simp [System.run, System.step, Call.step, ProcessCall.step, PaymentRepository.FindByID,
      PaymentService.ProcessPayment, hP]
  | some P =>
    have hid := hkey P hP
    by_cases hs : P.Status = models.PaymentStatusPending
    · simp [System.run, System.step, Call.step, ProcessCall.step, PaymentRepository.FindByID,
        PaymentService.ProcessPayment, hP, hs, mapGet_mapSet_self, PaymentRepository.Save,
        mapSet_mapSet_same, hid]
    · simp [System.run, System.step, Call.step, ProcessCall.step, PaymentRepository.FindByID,
        PaymentService.ProcessPayment, hP, hs]

/-- A call of `CreateRefund` that takes its six steps with no other call in
between does what the method does in one piece. -/
theorem RefundCall_alone (s : Stores) (e : services.Env) (req : CreateRefundRequest)
    (hkey : ∀ P, mapGet s.paymentRepo.payments req.PaymentID = some P → P.ID = req.PaymentID) :
    System.run ⟨s, [(e, .refund (.start req))]⟩ [0, 0, 0, 0, 0, 0] =
      ⟨(RefundService.CreateRefund s e req).2,
        [(e, .refund (.returned (RefundService.CreateRefund s e req).1))]⟩ := by
  cases hv : RefundService.validateRefundRequest req with
  | some err =>
    simp [System.run, System.step, Call.step, RefundCall.step, RefundService.CreateRefund, hv]
  | none =>
    cases hP : mapGet s.paymentRepo.payments req.PaymentID with
    | none =>
      simp [System.run, System.step, Call.step, RefundCall.step, PaymentRepository.FindByID,
        RefundService.CreateRefund, hv, hP]
    | some P =>
      have hid := hkey P hP
      by_cases hs : P.Status = models.PaymentStatusCompleted
      · by_cases hx : ((RefundService.getTotalRefunded s P.ID).add req.Amount).gt P.Amount = true
        · simp [System.run, System.step, Call.step, RefundCall.step,
            PaymentRepository.FindByID, RefundService.CreateRefund, hv, hP, hs, hx]
        · by_cases hg :
              ((RefundService.getTotalRefunded s P.ID).add req.Amount).ge P.Amount = true
          · simp [System.run, System.step, Call.step, RefundCall.step,
              PaymentRepository.FindByID, RefundService.CreateRefund, hv, hP, hs, hx, hg]
          · simp [System.run, System.step, Call.step, RefundCall.step,
              PaymentRepository.FindByID, RefundService.CreateRefund, hv, hP, hs, hx, hg]
      · simp [System.run, System.step, Call.step, RefundCall.step, PaymentRepository.FindByID,
          RefundService.CreateRefund, hv, hP, hs]

end Float64Lemmas

section Float64Claims

open Go float64.models float64.repositories float64.utils float64.services float64.scenario

/-- C26: the code at failing inputs.  The five amounts of the currency tests
round as the tests expect.  The `float64` read from 1.005 is rounded to 1.00 and
not to 1.01, because the product with 100 is below 100.5; the `float64` read from
0.015 lies below 0.015 and is rounded to 0.02, because the product with 100 is
rounded to 1.5; and 1e308 is rounded to an infinity, because the product
overflows. -/
theorem RoundToDecimalPlaces_float64_misses :
    RoundToDecimalPlaces (.ofRat (10456 / 1000)) "USD" = .ofRat (1046 / 100) ∧
    RoundToDecimalPlaces (.ofRat (10454 / 1000)) "USD" = .ofRat (1045 / 100) ∧
    RoundToDecimalPlaces (.ofRat (105 / 10)) "JPY" = .ofRat 11 ∧
    RoundToDecimalPlaces (.ofRat (104 / 10)) "JPY" = .ofRat 10 ∧
    RoundToDecimalPlaces (.ofRat (99999 / 1000)) "EUR" = .ofRat 100 ∧
    RoundToDecimalPlaces (.ofRat (1005 / 1000)) "USD" = .ofRat 1 ∧
    (Float64.ofRat (1005 / 1000)).mul (Go.Pow10 2) =
      .finite (7072058789855231 / 70368744177664) ∧
    (7072058789855231 / 70368744177664 : ℚ) < 1005 / 10 ∧
    Float64.ofRat (15 / 1000) = .finite (1080863910568919 / 72057594037927936) ∧
    (1080863910568919 / 72057594037927936 : ℚ) < 15 / 1000 ∧
    RoundToDecimalPlaces (.ofRat (15 / 1000)) "USD" = .ofRat (2 / 100) ∧
    RoundToDecimalPlaces (.ofRat (10 ^ 308)) "USD" = .inf false := by
  refine ⟨by decide!, by decide!, by decide!, by decide!, by decide!, by decide!, by decide!,
    by decide!, by decide!, by decide!, by decide!, by decide!⟩

/-- C29: the code at the failing input.  `CreatePayment` with the amount 1e308 and
currency USD passes validation and stores a payment whose amount is the positive
infinity, which is no multiple of a hundredth. -/
theorem CreatePayment_stores_infinity :
    (PaymentService.CreatePayment emptyStores ⟨"p1", "", 1, 1, 1⟩
      ⟨"o1", "u1", .ofRat (10 ^ 308), "USD", "m1", ""⟩).1 =
      .ok ⟨"p1", "o1", "u1", .inf false, "USD", "pending", "m1", "", "", 1, 1⟩ ∧
    (PaymentService.CreatePayment emptyStores ⟨"p1", "", 1, 1, 1⟩
      ⟨"o1", "u1", .ofRat (10 ^ 308), "USD", "m1", ""⟩).2.paymentRepo.FindByID "p1" =
      .ok ⟨"p1", "o1", "u1", .inf false, "USD", "pending", "m1", "", "", 1, 1⟩ ∧
    Float64.ofRat (10 ^ 308) ≠ .inf false := by
  refine ⟨by decide!, by decide!, by decide!⟩

/-- C1: the code at the failing input.  On the completed payment of 2^53 dollars
a refund of 1 and then a refund of 2^53 are both accepted, because the `float64`
sum 1 + 2^53 is 2^53; the refunds recorded for the payment are 1 and 2^53, which
add up to more than its amount. -/
theorem refund_cap_broken_by_float64_sum :
    (paid big).paymentRepo.FindByID "p1" =
      .ok ⟨"p1", "o1", "u1", .finite big, "USD", "completed", "m1", "", "t1", 1, 2⟩ ∧
    (refund1 (paid big) 1).1 = .ok ⟨"r1", "p1", .finite 1, "first", "completed", 3⟩ ∧
    (refund2 (refund1 (paid big) 1).2 big).1 =
      .ok ⟨"r2", "p1", .finite big, "second", "completed", 4⟩ ∧
    (Float64.finite 1).add (.finite big) = .finite big ∧
    outcome (refund2 (refund1 (paid big) 1).2 big).2 =
      (some "refunded", [.finite 1, .finite big]) ∧
    big < 1 + big := by
  refine ⟨by decide!, by decide!, by decide!, by decide!, by decide!, by decide!⟩

/-- C2: the code at failing inputs.  After a refund of 50.00 on the completed
payment of 99.99 a request of 49.99 fails with the over-refund error, although
50.00 + 49.99 is not above 99.99: the `float64` sum is.  After a refund of 1 on
the completed payment of 2^53 a request of 2^53 is accepted, although 1 + 2^53 is
above 2^53: the `float64` sum is not.  The message prints the binary value of
the requested amount, so a request of 100.115 is reported as 100.11. -/
theorem CreateRefund_exceed_differs_from_decimal_sum :
    (refund1 (paid (9999 / 100)) 50).1 = .ok ⟨"r1", "p1", .finite 50, "first", "completed", 3⟩ ∧
    refund2 (refund1 (paid (9999 / 100)) 50).2 (4999 / 100) =
      (.error
        "refund amount (49.99) would exceed payment amount (99.99), already refunded: 50.00",
        (refund1 (paid (9999 / 100)) 50).2) ∧
    ¬ ((50 : ℚ) + 4999 / 100 > 9999 / 100) ∧
    ((Float64.finite 50).add (.ofRat (4999 / 100))).gt (.ofRat (9999 / 100)) = true ∧
    (refund2 (refund1 (paid big) 1).2 big).1 =
      .ok ⟨"r2", "p1", .finite big, "second", "completed", 4⟩ ∧
    (1 : ℚ) + big > big ∧
    refund1 (paid 100) (100115 / 1000) =
      (.error
        "refund amount (100.11) would exceed payment amount (100.00), already refunded: 0.00",
        paid 100) := by
  refine ⟨by decide!, by decide!, by decide!, by decide!, by decide!, by decide!, by decide!⟩

/-- C14: the code at failing inputs.  On the completed payment of 99.99 the
refund of 49.99 after the refund of 50.00 does not succeed and the payment stays
completed with 50.00 refunded.  On the completed payment of 2^53 a refund of
2^53 - 1 after a refund of 0.50 succeeds and sets the payment to refunded,
although 0.50 + (2^53 - 1) is below 2^53. -/
theorem CreateRefund_status_differs_from_decimal_sum :
    (refund2 (refund1 (paid (9999 / 100)) 50).2 (4999 / 100)).1 =
      .error
        "refund amount (49.99) would exceed payment amount (99.99), already refunded: 50.00" ∧
    outcome (refund2 (refund1 (paid (9999 / 100)) 50).2 (4999 / 100)).2 =
      (some "completed", [.finite 50]) ∧
    (50 : ℚ) + 4999 / 100 ≥ 9999 / 100 ∧
    (refund2 (refund1 (paid big) (1 / 2)).2 (big - 1)).1 =
      .ok ⟨"r2", "p1", .finite (big - 1), "second", "completed", 4⟩ ∧
    outcome (refund2 (refund1 (paid big) (1 / 2)).2 (big - 1)).2 =
      (some "refunded", [.finite (1 / 2), .finite (big - 1)]) ∧
    (1 / 2 : ℚ) + (big - 1) < big := by
  refine ⟨by decide!, by decide!, by decide!, by decide!, by decide!, by decide!⟩

/-- C38: the code at failing inputs.  After a refund of 99.996 on the completed
payment of 100 dollars the refund recorded is 100.00, the full amount, and the
payment is still completed.  After refunds of 1 and 2^53 on the completed
payment of 2^53 dollars the payment is refunded and the refunds recorded add up
to more than its amount. -/
theorem refunded_status_differs_from_ledger :
    (refund1 (paid 100) (99996 / 1000)).1 =
      .ok ⟨"r1", "p1", .finite 100, "first", "completed", 3⟩ ∧
    (refund1 (paid 100) (99996 / 1000)).2.paymentRepo.FindByID "p1" =
      .ok ⟨"p1", "o1", "u1", .finite 100, "USD", "completed", "m1", "", "t1", 1, 2⟩ ∧
    outcome (refund1 (paid 100) (99996 / 1000)).2 = (some "completed", [.finite 100]) ∧
    outcome (refund2 (refund1 (paid big) 1).2 big).2 =
      (some "refunded", [.finite 1, .finite big]) ∧
    (1 : ℚ) + big ≠ big := by
  refine ⟨by decide!, by decide!, by decide!, by decide!, by decide!⟩

/-- C36: the code at the failing input.  After refunds of 0.10 and 0.1999999 on
the completed payment of 0.30 dollars the ledger holds a charge of 0.30 and
refunds of 0.10 and 0.20; in whatever order the two loops of `GetSummary` meet
the three transactions, the total of the refunds is above the total of the
charges and the net revenue is below zero. -/
theorem net_revenue_negative_by_float64_sum :
    (refund1 (paid (3 / 10)) (1 / 10)).1 =
      .ok ⟨"r1", "p1", .ofRat (1 / 10), "first", "completed", 3⟩ ∧
    (refund2 (refund1 (paid (3 / 10)) (1 / 10)).2 (1999999 / 10000000)).1 =
      .ok ⟨"r2", "p1", .ofRat (2 / 10), "second", "completed", 4⟩ ∧
    ledger (refund2 (refund1 (paid (3 / 10)) (1 / 10)).2 (1999999 / 10000000)).2 =
      [("t1", "charge", "p1", .ofRat (3 / 10)), ("t2", "refund", "p1", .ofRat (1 / 10)),
       ("t3", "refund", "p1", .ofRat (2 / 10))] ∧
    ∀ visitCharges ∈
        (refund2 (refund1 (paid (3 / 10)) (1 / 10)).2
          (1999999 / 10000000)).2.transactionRepo.visits,
      ∀ visitRefunds ∈
          (refund2 (refund1 (paid (3 / 10)) (1 / 10)).2
            (1999999 / 10000000)).2.transactionRepo.visits,
        (LedgerService.GetSummary visitCharges visitRefunds).TotalRefunds.gt
          (LedgerService.GetSummary visitCharges visitRefunds).TotalCharges = true ∧
        (LedgerService.GetSummary visitCharges visitRefunds).NetRevenue.lt (.finite 0) =
          true := by
  refine ⟨by decide!, by decide!, by decide!, by decide!⟩

end Float64Claims

section Float64Refunds

open Go float64.models float64.repositories float64.utils float64.services float64.scenario
  float64.spec

/-- The three outcomes of `CreateRefund` for a valid request on a completed
payment. -/
theorem CreateRefund_float64_cases (s : Stores) (e : services.Env) (req : CreateRefundRequest)
    (P : Payment) (hv : RefundService.validateRefundRequest req = none)
    (hP : s.paymentRepo.FindByID req.PaymentID = .ok P)
    (hs : P.Status = models.PaymentStatusCompleted) :
    RefundService.CreateRefund s e req =
      if (rawSum s req P).gt P.Amount = true then
        (.error (RefundService.exceedMessage req.Amount P.Amount
          (RefundService.getTotalRefunded s P.ID)), s)
      else if (rawSum s req P).ge P.Amount = true then
        (.ok (refundRecord e req P),
          ⟨s.paymentRepo.Save (refundedPayment e P),
            s.transactionRepo.Save (refundTransaction e req P)⟩)
      else
        (.ok (refundRecord e req P),
          ⟨s.paymentRepo, s.transactionRepo.Save (refundTransaction e req P)⟩) := by
  unfold RefundService.CreateRefund rawSum
  rw [hv, hP]
  simp only [hs, ne_eq, not_true_eq_false, if_false]
  by_cases hx : ((RefundService.getTotalRefunded s P.ID).add req.Amount).gt P.Amount = true
  · simp [hx]
  · by_cases hg : ((RefundService.getTotalRefunded s P.ID).add req.Amount).ge P.Amount = true
    · simp [hx, hg, refundRecord, refundTransaction, refundedPayment]
    · simp [hx, hg, refundRecord, refundTransaction]

theorem CreateRefund_float64_of_not_completed (s : Stores) (e : services.Env)
    (req : CreateRefundRequest) (P : Payment)
    (hv : RefundService.validateRefundRequest req = none)
    (hP : s.paymentRepo.FindByID req.PaymentID = .ok P)
    (hs : P.Status ≠ models.PaymentStatusCompleted) :
    RefundService.CreateRefund s e req = (.error "can only refund completed payments", s) := by
  unfold RefundService.CreateRefund
  rw [hv, hP]
  simp [hs]

/-- C16, as stated, fails.  After refunds of 60.00 and 40.00 have reached the
amount of the completed payment of 100.00, the payment is refunded and a further
refund of 0.01 fails with "can only refund completed payments", not with the
over-refund error.  On the payment of 99.99 the refund of 49.99 after 50.00 is
itself rejected with the over-refund error, and a further refund of 0.01 is
then accepted. -/
theorem CreateRefund_float64_after_full_refund :
    (refund1 (paid 100) 60).1 = .ok ⟨"r1", "p1", .finite 60, "first", "completed", 3⟩ ∧
    (refund2 (refund1 (paid 100) 60).2 40).1 =
      .ok ⟨"r2", "p1", .finite 40, "second", "completed", 4⟩ ∧
    outcome (refund2 (refund1 (paid 100) 60).2 40).2 =
      (some "refunded", [.finite 60, .finite 40]) ∧
    refund3 (refund2 (refund1 (paid 100) 60).2 40).2 (1 / 100) =
      (.error "can only refund completed payments", (refund2 (refund1 (paid 100) 60).2 40).2) ∧
    (refund2 (refund1 (paid (9999 / 100)) 50).2 (4999 / 100)).1 =
      .error
        "refund amount (49.99) would exceed payment amount (99.99), already refunded: 50.00" ∧
    (refund3 (refund2 (refund1 (paid (9999 / 100)) 50).2 (4999 / 100)).2 (1 / 100)).1 =
      .ok ⟨"r3", "p1", .ofRat (1 / 100), "third", "completed", 5⟩ := by
  refine ⟨by decide!, by decide!, by decide!, by decide!, by decide!, by decide!⟩

/-- C16, amended: after a `CreateRefund` on a completed payment, stored under its
own ID, has been accepted with a `float64` sum of refunded total and requested
amount that is not below the payment amount, so that the payment is refunded, a
further valid `CreateRefund` on it fails with "can only refund completed
payments" and changes nothing. -/
theorem CreateRefund_after_refunded (s : Stores) (e1 e2 : services.Env)
    (req1 req2 : CreateRefundRequest) (P : Payment)
    (hv1 : RefundService.validateRefundRequest req1 = none)
    (hv2 : RefundService.validateRefundRequest req2 = none)
    (hid : req2.PaymentID = req1.PaymentID)
    (hP : s.paymentRepo.FindByID req1.PaymentID = .ok P)
    (hkey : P.ID = req1.PaymentID)
    (hs : P.Status = models.PaymentStatusCompleted)
    (hfit : (rawSum s req1 P).gt P.Amount = false)
    (hfull : (rawSum s req1 P).ge P.Amount = true) :
    (∃ r, (RefundService.CreateRefund s e1 req1).1 = .ok r) ∧
    (∃ P2, (RefundService.CreateRefund s e1 req1).2.paymentRepo.FindByID req1.PaymentID =
      .ok P2 ∧ P2.Status = models.PaymentStatusRefunded) ∧
    RefundService.CreateRefund (RefundService.CreateRefund s e1 req1).2 e2 req2 =
      (.error "can only refund completed payments", (RefundService.CreateRefund s e1 req1).2) := by
  have h1 := CreateRefund_float64_cases s e1 req1 P hv1 hP hs
  rw [hfit, hfull] at h1
  simp only [Bool.false_eq_true, if_false, if_true] at h1
  have hfind : (RefundService.CreateRefund s e1 req1).2.paymentRepo.FindByID req1.PaymentID =
      .ok (refundedPayment e1 P) := by
    rw [h1, float64_FindByID_eq_ok_iff]
    show mapGet (mapSet s.paymentRepo.payments P.ID _) req1.PaymentID = _
    rw [hkey, mapGet_mapSet_self]
  refine ⟨⟨_, by rw [h1]⟩, ⟨_, hfind, rfl⟩, ?_⟩
  refine CreateRefund_float64_of_not_completed _ e2 req2 (refundedPayment e1 P) hv2 ?_ ?_
  · rw [hid]
    exact hfind
  · show models.PaymentStatusRefunded ≠ models.PaymentStatusCompleted
    decide

theorem CreateRefund_after_refunded_witness :
    (∃ r, (refund1 (paid 100) 100).1 = .ok r) ∧
    (∃ P2, (refund1 (paid 100) 100).2.paymentRepo.FindByID "p1" = .ok P2 ∧
      P2.Status = models.PaymentStatusRefunded) ∧
    refund2 (refund1 (paid 100) 100).2 (1 / 100) =
      (.error "can only refund completed payments", (refund1 (paid 100) 100).2) :=
  CreateRefund_after_refunded (paid 100) ⟨"r1", "t2", 3, 3, 3⟩ ⟨"r2", "t3", 4, 4, 4⟩
    ⟨"p1", .ofRat 100, "first"⟩ ⟨"p1", .ofRat (1 / 100), "second"⟩
    ⟨"p1", "o1", "u1", .finite 100, "USD", "completed", "m1", "", "t1", 1, 2⟩
    (by decide!) (by decide!) rfl (by decide!) rfl (by decide) (by decide!) (by decide!)

end Float64Refunds

/-! ## Calls that overlap -/

section OverlappingCalls

open Go float64.models float64.repositories float64.utils float64.services
  float64.concurrent float64.scenario

/-- C31: the code at failing schedules.  When two calls of `ProcessPayment` on
the pending payment `p1` both pass the status check before either writes, both
return without error and the ledger holds two charges of `p1`; run one after the
other, the second call fails and the ledger holds one charge.  When two calls
of `CreateRefund` of 60 dollars on the completed payment of 100 dollars both
read the refunded total before either appends, both return without error and
the refunds recorded add up to 120 dollars. -/
theorem overlapping_calls_double_charge :
    ledger (twoProcess.run [0, 0, 1, 1, 0, 0, 0, 1, 1, 1]).stores =
      [("t1", "charge", "p1", .finite 100), ("t2", "charge", "p1", .finite 100)] ∧
    (twoProcess.run [0, 0, 1, 1, 0, 0, 0, 1, 1, 1]).calls.map
        (fun c => match c.2 with
          | .process (.returned (.ok p)) => some (p.Status, p.TransactionID)
          | _ => none) =
      [some ("completed", "t1"), some ("completed", "t2")] ∧
    ledger (twoProcess.run [0, 0, 0, 0, 0, 1, 1, 1, 1, 1]).stores =
      [("t1", "charge", "p1", .finite 100)] ∧
    (twoProcess.run [0, 0, 0, 0, 0, 1, 1, 1, 1, 1]).calls.map (fun c => c.2) =
      [.process (.returned
          (.ok ⟨"p1", "o1", "u1", .finite 100, "USD", "completed", "m1", "", "t1", 1, 2⟩)),
       .process (.returned (.error "payment is not in pending status: completed"))] ∧
    ledger (twoRefunds.run [0, 0, 0, 1, 1, 1, 0, 0, 0, 1, 1, 1]).stores =
      [("t1", "charge", "p1", .finite 100), ("t2", "refund", "p1", .finite 60),
       ("t3", "refund", "p1", .finite 60)] ∧
    (twoRefunds.run [0, 0, 0, 1, 1, 1, 0, 0, 0, 1, 1, 1]).calls.map (fun c => c.2) =
      [.refund (.returned (.ok ⟨"r1", "p1", .finite 60, "first", "completed", 3⟩)),
       .refund (.returned (.ok ⟨"r2", "p1", .finite 60, "second", "completed", 4⟩))] ∧
    (100 : ℚ) < 60 + 60 := by
  refine ⟨by decide!, by decide!, by decide!, by decide!, by decide!, by decide!, by decide!⟩

end OverlappingCalls
